import Mathlib

/-!
# STOMP policy improvement (`policy_improvement.cpp`)

A shallow embedding of `stomp::PolicyImprovement` and `stomp::Rollout`.

* `double` is an arbitrary linear ordered field `K` (exact arithmetic); the
  library call `exp` is a parameter `expf : K → K`, instantiated with
  `Real.exp` in the theorems.
* The part "Double arithmetic" repeats `preComputeProjectionMatrices` and `improvePolicy`
  with the IEEE 754 binary64 rounding (`binary64`) of the result of every arithmetic
  operation, for the statements that do not survive the rounding.
* `Eigen::VectorXd` is a `List K`, `Eigen::MatrixXd` is the list of its rows,
  `std::vector<T>` is a `List T`.
* The rollout counters are C `int`s and are embedded as `Int`; the sizes
  `num_dimensions_`, `num_time_steps_`, `num_parameters_[d]` only ever size
  vectors and bound loops and are embedded as `Nat`.
* The external policy object is a record of the answers it gives.
* An entry point returns `none` when an assertion (`ROS_ASSERT`, `ROS_VERIFY`) fails and the
  call is aborted, and `some` of its return value and the new state otherwise.
* The library call `fullPivLu().inverse()` is a parameter `inverse`; statements that need the
  inverse assume its contract in exact arithmetic (`ComputesInverse`).
* Of `stomp_motion_planner::StompTrajectory` (`stomp_trajectory.cpp`) the constructor of a
  group trajectory and `fillInMinJerk` are embedded; `(*this)(i, j)` is `trajectory_(i, j)`,
  and a planning group is its number of joints with their `kdl_joint_index_`.
-/

namespace stomp

/-! ## Loops and containers -/

/-- The counted loop `for (int i = 0; i < n; ++i) body(i)`: runs `body 0`, ..., `body (n-1)`
on the state, in this order. -/
def forLoop {σ : Type} : Nat → (Nat → σ → σ) → σ → σ
  | 0, _, s => s
  | n + 1, body, s => body n (forLoop n body s)

/-- In-place update `l[i] = f(l[i])` of one element of a container (no effect when `i` is out
of range). -/
def modifyAt {α : Type} (f : α → α) : Nat → List α → List α
  | _, [] => []
  | 0, a :: l => f a :: l
  | n + 1, a :: l => a :: modifyAt f n l

/-- `Eigen::VectorXd`. -/
abbrev Vec (K : Type) := List K

/-- `Eigen::MatrixXd`, as the list of its rows. -/
abbrev Mat (K : Type) := List (List K)

section LinearAlgebra

variable {K : Type} [LinearOrderedField K]

/-- `VectorXd::Zero(n)`. -/
def vzero (n : Nat) : Vec K := List.replicate n 0

/-- `MatrixXd::Zero(rows, cols)`. -/
def mzero (rows cols : Nat) : Mat K := List.replicate rows (vzero cols)

/-- Coefficient-wise `a + b`. -/
def vadd (a b : Vec K) : Vec K := List.zipWith (fun x y => x + y) a b

/-- Coefficient-wise `a - b`. -/
def vsub (a b : Vec K) : Vec K := List.zipWith (fun x y => x - y) a b

/-- Coefficient-wise product `(a.array() * b.array()).matrix()`. -/
def vmul (a b : Vec K) : Vec K := List.zipWith (fun x y => x * y) a b

/-- Scalar multiple `c * a`. -/
def vscale (c : K) (a : Vec K) : Vec K := a.map (fun x => c * x)

/-- Division of every coefficient by a scalar, `a /= c`. -/
def vdiv (a : Vec K) (c : K) : Vec K := a.map (fun x => x / c)

/-- `a.sum()`. -/
def vsum (a : Vec K) : K := a.sum

/-- Inner product of a matrix row with a vector. -/
def vdot (a b : Vec K) : K := (vmul a b).sum

/-- Matrix-vector product `M * v`. -/
def mulVec (M : Mat K) (v : Vec K) : Vec K := M.map (fun row => vdot row v)

/-- Coefficient `M(i, j)`. -/
def mcoeff (M : Mat K) (i j : Nat) : K := (M.getD i []).getD j 0

end LinearAlgebra

/-! ## The data model -/

/-- The struct `stomp::Rollout`. Every `std::vector<VectorXd>` field has one entry per
dimension. -/
structure Rollout (K : Type) where
  parameters_ : List (Vec K)
  parameters_noise_ : List (Vec K)
  parameters_noise_projected_ : List (Vec K)
  noise_ : List (Vec K)
  noise_projected_ : List (Vec K)
  control_costs_ : List (Vec K)
  total_costs_ : List (Vec K)
  cumulative_costs_ : List (Vec K)
  probabilities_ : List (Vec K)
  state_costs_ : Vec K

instance {K : Type} : Inhabited (Rollout K) := ⟨⟨[], [], [], [], [], [], [], [], [], []⟩⟩

/-- The external policy object (`CovariantMovementPrimitive`), as far as the engine queries it.
A query that reports failure (returns `false`) is `none`. -/
structure Policy (K : Type) where
  setNumTimeSteps : Nat → Bool
  getControlCosts : Option (List (Mat K))
  getNumDimensions : Option Nat
  getNumParameters : Option (List Nat)
  getBasisFunctions : Bool
  getParameters : Option (List (Vec K))
  /-- Call `computeControlCosts(parameters, noise_projected, weight, control_costs)`; the last
  argument is the previous content of the output argument. -/
  computeControlCosts : List (Vec K) → List (Vec K) → K → List (Vec K) → List (Vec K)

/-- The member variables of `stomp::PolicyImprovement`. -/
structure PolicyImprovement (K : Type) where
  initialized_ : Bool
  num_time_steps_ : Nat
  num_dimensions_ : Nat
  num_parameters_ : List Nat
  min_rollouts_ : Int
  max_rollouts_ : Int
  num_rollouts_per_iteration_ : Int
  num_rollouts_ : Int
  num_rollouts_gen_ : Int
  use_cumulative_costs_ : Bool
  control_cost_weight_ : K
  parameters_ : List (Vec K)
  control_costs_ : List (Mat K)
  inv_control_costs_ : List (Mat K)
  projection_matrix_ : List (Mat K)
  inv_projection_matrix_ : List (Mat K)
  rollouts_ : List (Rollout K)
  reused_rollouts_ : List (Rollout K)
  rollout_cost_sorter_ : List (K × Nat)
  parameter_updates_ : List (Mat K)
  time_step_weights_ : List (Vec K)
  tmp_noise_ : List (Vec K)
  tmp_parameters_ : List (Vec K)

section Engine

variable {K : Type} [LinearOrderedField K]

/-! ## `Rollout::getCost` -/

/-- `Rollout::getCost`: the sum of the state costs plus the sum of the control costs of all
dimensions. -/
def Rollout.getCost (ro : Rollout K) : K :=
  let state_cost := vsum ro.state_costs_
  let num_dim := ro.control_costs_.length
  let cost := forLoop num_dim (fun d cost => cost + vsum (ro.control_costs_.getD d [])) 0
  cost + state_cost

/-! ## `PolicyImprovement::generateRollouts` -/

/-- The local counters of `generateRollouts` after the block that decides how many rollouts
are generated, discarded and reused (`num_rollouts` is the new value of `num_rollouts_`). -/
structure RolloutCounts where
  num_rollouts_gen : Int
  num_rollouts_discard : Int
  num_rollouts_reused : Int
  num_rollouts : Int
  deriving DecidableEq, Repr

/-- The counting block of `generateRollouts`: two consecutive `if` statements. -/
def rolloutCounts (num_rollouts min_rollouts max_rollouts per_iteration : Int) :
    RolloutCounts :=
  let c0 : RolloutCounts :=
    { num_rollouts_gen := per_iteration, num_rollouts_discard := 0,
      num_rollouts_reused := num_rollouts, num_rollouts := num_rollouts }
  let c1 : RolloutCounts :=
    if num_rollouts + c0.num_rollouts_gen < min_rollouts then
      { c0 with num_rollouts_gen := min_rollouts - num_rollouts, num_rollouts_discard := 0,
                num_rollouts_reused := num_rollouts }
    else c0
  let c2 : RolloutCounts :=
    if num_rollouts + c1.num_rollouts_gen > max_rollouts then
      { c1 with num_rollouts_discard := num_rollouts + c1.num_rollouts_gen - max_rollouts,
                num_rollouts_reused :=
                  num_rollouts - (num_rollouts + c1.num_rollouts_gen - max_rollouts) }
    else c1
  { c2 with num_rollouts := c2.num_rollouts_reused + c2.num_rollouts_gen }

/-- `std::pair<double,int>::operator<`, the order `std::sort` uses on the cost sorter. -/
def pairLt (a b : K × Nat) : Prop :=
  a.1 < b.1 ∨ (¬ b.1 < a.1 ∧ a.2 < b.2)

instance (a b : K × Nat) : Decidable (pairLt a b) := by
  unfold pairLt; infer_instance

/-- The relation "`b` is not less than `a`" a sorted range satisfies between an earlier
element `a` and a later element `b`. -/
def pairLe (a b : K × Nat) : Prop := ¬ pairLt b a

instance (a b : K × Nat) : Decidable (pairLe a b) := by
  unfold pairLe; infer_instance

/-- The call `std::sort(begin, end)` on the cost sorter. The elements are pairwise different
(the indices are) and `pairLt` is a strict total order, so the sorted range is unique
(`sortPairs_unique`) and any sorting algorithm computes it. -/
def sortPairs (l : List (K × Nat)) : List (K × Nat) := List.insertionSort pairLe l

/-- The loop that fills `rollout_cost_sorter_` with the pairs `(rollouts_[r].getCost(), r)`. -/
def fillCostSorter (rollouts : List (Rollout K)) (prev_num_rollouts : Int) : List (K × Nat) :=
  forLoop prev_num_rollouts.toNat
    (fun r sorter => sorter ++ [((rollouts.getD r default).getCost, r)]) []

/-- The body of the loop over `d` that re-centres a reused rollout on the new mean
`parameters_`: acts on `rollouts_[num_rollouts_gen_+r]`. -/
def recenterStep (parameters : List (Vec K)) (inv_projection_matrix : List (Mat K))
    (d : Nat) (ro : Rollout K) : Rollout K :=
  let noise_projected := vsub (ro.parameters_noise_projected_.getD d []) (parameters.getD d [])
  let ro := { ro with noise_projected_ := ro.noise_projected_.set d noise_projected }
  let noise := mulVec (inv_projection_matrix.getD d []) (ro.noise_projected_.getD d [])
  let ro := { ro with noise_ := ro.noise_.set d noise }
  let parameters_noise := vadd (parameters.getD d []) (ro.noise_.getD d [])
  { ro with parameters_noise_ := ro.parameters_noise_.set d parameters_noise }

/-- The first loop of the reuse block: "use the best ones: (copy them into reused_rollouts)". -/
def copyBestRollouts (s : PolicyImprovement K) (num_rollouts_reused : Int) :
    PolicyImprovement K :=
  forLoop num_rollouts_reused.toNat (fun r s =>
      let reuse_index := (s.rollout_cost_sorter_.getD r (0, 0)).2
      let reused := s.rollouts_.getD reuse_index default
      { s with reused_rollouts_ := s.reused_rollouts_.set r reused }) s

/-- The second loop of the reuse block: "copy them back from reused_rollouts_ into rollouts_"
and "update the noise based on the new parameters". -/
def copyBackRollouts (s : PolicyImprovement K) (num_rollouts_reused : Int) :
    PolicyImprovement K :=
  forLoop num_rollouts_reused.toNat (fun r s =>
      let i := (s.num_rollouts_gen_ + (r : Int)).toNat
      let s := { s with rollouts_ := s.rollouts_.set i (s.reused_rollouts_.getD r default) }
      let pool := modifyAt (fun ro => { ro with parameters_ := s.parameters_ }) i s.rollouts_
      let s := { s with rollouts_ := pool }
      forLoop s.num_dimensions_ (fun d s =>
        let pool := modifyAt (recenterStep s.parameters_ s.inv_projection_matrix_ d) i s.rollouts_
        { s with rollouts_ := pool }) s) s

/-- The block `if (num_rollouts_reused > 0) { ... }` of `generateRollouts`. -/
def reuseRollouts (s : PolicyImprovement K) (prev_num_rollouts num_rollouts_reused : Int) :
    PolicyImprovement K :=
  -- figure out which rollouts to reuse
  let sorter := sortPairs (fillCostSorter s.rollouts_ prev_num_rollouts)
  let s := { s with rollout_cost_sorter_ := sorter }
  let s := copyBestRollouts s num_rollouts_reused
  copyBackRollouts s num_rollouts_reused

/-- The loops of `generateRollouts` that generate the new rollouts; `sample d r` is the vector
the call `noise_generators_[d].sample(tmp_noise_[d])` produces for rollout `r`. -/
def generateNewRollouts (s : PolicyImprovement K) (noise_stddev : List K)
    (sample : Nat → Nat → Vec K) : PolicyImprovement K :=
  forLoop s.num_dimensions_ (fun d s =>
    forLoop s.num_rollouts_gen_.toNat (fun r s =>
      let s := { s with tmp_noise_ := s.tmp_noise_.set d (sample d r) }
      let pool := modifyAt (fun ro =>
          let noise := vscale (noise_stddev.getD d 0) (s.tmp_noise_.getD d [])
          let ro := { ro with noise_ := ro.noise_.set d noise }
          let ro := { ro with parameters_ := ro.parameters_.set d (s.parameters_.getD d []) }
          let parameters_noise := vadd (s.parameters_.getD d []) (ro.noise_.getD d [])
          { ro with parameters_noise_ := ro.parameters_noise_.set d parameters_noise })
        r s.rollouts_
      { s with rollouts_ := pool }) s) s

/-- `PolicyImprovement::generateRollouts`. The result is `none` when an assertion
(`ROS_ASSERT`, `ROS_VERIFY`) fails and the process is aborted, and `some (b, s)` when the call
returns `b` in state `s`. -/
def generateRollouts (s : PolicyImprovement K) (policy : Policy K) (noise_stddev : List K)
    (sample : Nat → Nat → Vec K) : Option (Bool × PolicyImprovement K) :=
  if s.initialized_ = false then none
  else if noise_stddev.length ≠ s.num_dimensions_ then none
  else
    -- save the latest policy parameters (copyParametersFromPolicy):
    match policy.getParameters with
    | none => none
    | some parameters =>
      let s := { s with parameters_ := parameters }
      -- decide how many new rollouts we will generate and discard
      let c := rolloutCounts s.num_rollouts_ s.min_rollouts_ s.max_rollouts_
        s.num_rollouts_per_iteration_
      let prev_num_rollouts := s.num_rollouts_
      let s := { s with num_rollouts_gen_ := c.num_rollouts_gen, num_rollouts_ := c.num_rollouts }
      let s := if c.num_rollouts_reused > 0 then
          reuseRollouts s prev_num_rollouts c.num_rollouts_reused
        else s
      -- generate new rollouts
      some (true, generateNewRollouts s noise_stddev sample)

/-! ## Noise and projected noise -/

/-- `PolicyImprovement::computeNoise(Rollout&)`. -/
def computeNoise (s : PolicyImprovement K) (rollout : Rollout K) : Rollout K :=
  forLoop s.num_dimensions_ (fun d ro =>
    let noise := vsub (ro.parameters_noise_.getD d []) (ro.parameters_.getD d [])
    { ro with noise_ := ro.noise_.set d noise }) rollout

/-- `PolicyImprovement::computeProjectedNoise(Rollout&)`. -/
def computeProjectedNoiseOf (s : PolicyImprovement K) (rollout : Rollout K) : Rollout K :=
  forLoop s.num_dimensions_ (fun d ro =>
    let noise_projected := mulVec (s.projection_matrix_.getD d []) (ro.noise_.getD d [])
    let ro := { ro with noise_projected_ := ro.noise_projected_.set d noise_projected }
    let projected := vadd (ro.parameters_.getD d []) (ro.noise_projected_.getD d [])
    { ro with parameters_noise_projected_ := ro.parameters_noise_projected_.set d projected })
    rollout

/-- `PolicyImprovement::computeProjectedNoise()`, over all active rollouts. -/
def computeProjectedNoise (s : PolicyImprovement K) : Bool × PolicyImprovement K :=
  (true, forLoop s.num_rollouts_.toNat (fun r s =>
    { s with rollouts_ := modifyAt (computeProjectedNoiseOf s) r s.rollouts_ }) s)

/-- `PolicyImprovement::setRollouts`. -/
def setRollouts (s : PolicyImprovement K) (rollouts : List (List (Vec K))) :
    Option (Bool × PolicyImprovement K) :=
  if (rollouts.length : Int) ≠ s.num_rollouts_gen_ then none
  else
    some (true, forLoop s.num_rollouts_gen_.toNat (fun r s =>
      let pool := modifyAt (fun ro => { ro with parameters_noise_ := rollouts.getD r [] }) r
        s.rollouts_
      let s := { s with rollouts_ := pool }
      { s with rollouts_ := modifyAt (computeNoise s) r s.rollouts_ }) s)

/-- `PolicyImprovement::clearReusedRollouts`. -/
def clearReusedRollouts (s : PolicyImprovement K) : PolicyImprovement K :=
  { s with num_rollouts_ := 0 }

/-! ## Costs -/

/-- `PolicyImprovement::computeRolloutControlCosts(Rollout&)`. -/
def computeRolloutControlCostsOf (s : PolicyImprovement K) (policy : Policy K)
    (rollout : Rollout K) : Rollout K :=
  let control_costs := policy.computeControlCosts rollout.parameters_ rollout.noise_projected_
    s.control_cost_weight_ rollout.control_costs_
  { rollout with control_costs_ := control_costs }

/-- `PolicyImprovement::computeRolloutControlCosts()`. -/
def computeRolloutControlCosts (s : PolicyImprovement K) (policy : Policy K) :
    PolicyImprovement K :=
  forLoop s.num_rollouts_.toNat (fun r s =>
    { s with rollouts_ := modifyAt (computeRolloutControlCostsOf s policy) r s.rollouts_ }) s

/-- `std::vector::resize(n)` with `fill` for the new elements. -/
def resizeList {α : Type} (l : List α) (n : Nat) (fill : α) : List α :=
  l.take n ++ List.replicate (n - l.length) fill

/-- The loop of `setRolloutCosts` that stores the rows of `costs` as the state costs of the
newly generated rollouts. -/
def setStateCosts (s : PolicyImprovement K) (costs : Mat K) : PolicyImprovement K :=
  forLoop s.num_rollouts_gen_.toNat (fun r s =>
    let pool := modifyAt (fun ro => { ro with state_costs_ := costs.getD r [] }) r s.rollouts_
    { s with rollouts_ := pool }) s

/-- The part of `setRolloutCosts` that sets the total costs: the output argument is resized
and filled with the costs of the active rollouts. -/
def collectTotalCosts (s : PolicyImprovement K) (rollout_costs_total : List K) : List K :=
  let total := resizeList rollout_costs_total s.num_rollouts_.toNat 0
  forLoop s.num_rollouts_.toNat (fun r total =>
    total.set r (s.rollouts_.getD r default).getCost) total

/-- `PolicyImprovement::setRolloutCosts`; the third component of the result is the output
argument `rollout_costs_total`, whose previous content is the last argument. -/
def setRolloutCosts (s : PolicyImprovement K) (policy : Policy K) (costs : Mat K)
    (control_cost_weight : K) (rollout_costs_total : List K) :
    Option (Bool × PolicyImprovement K × List K) :=
  if s.initialized_ = false then none
  else
    let s := { s with control_cost_weight_ := control_cost_weight }
    let s := computeRolloutControlCosts s policy
    let s := setStateCosts s costs
    -- set the total costs
    some (true, s, collectTotalCosts s rollout_costs_total)

/-- The downward loop `for (int t = n-1; t >= 0; --t) body(t)`: runs `body (n-1)`, ...,
`body 0`, in this order. -/
def forDown {σ : Type} : Nat → (Nat → σ → σ) → σ → σ
  | 0, _, s => s
  | n + 1, body, s => forDown n body (body n s)

/-- The body of the loops over `r` and `d` of `computeRolloutCumulativeCosts`, acting on
`rollouts_[r]`. -/
def cumulativeCostsStep (use_cumulative_costs : Bool) (num_time_steps : Nat) (d : Nat)
    (ro : Rollout K) : Rollout K :=
  let total := vadd ro.state_costs_ (ro.control_costs_.getD d [])
  let ro := { ro with total_costs_ := ro.total_costs_.set d total }
  let ro := { ro with cumulative_costs_ := ro.cumulative_costs_.set d (ro.total_costs_.getD d []) }
  if use_cumulative_costs then
    -- for (int t = num_time_steps_-2; t >= 0; --t)
    forDown (num_time_steps - 1) (fun t ro =>
      let next := (ro.cumulative_costs_.getD d []).getD (t + 1) 0
      let cumulative := modifyAt (fun c => modifyAt (fun x => x + next) t c) d
        ro.cumulative_costs_
      { ro with cumulative_costs_ := cumulative }) ro
  else ro

/-- `PolicyImprovement::computeRolloutCumulativeCosts`. -/
def computeRolloutCumulativeCosts (s : PolicyImprovement K) : PolicyImprovement K :=
  forLoop s.num_rollouts_.toNat (fun r s =>
    forLoop s.num_dimensions_ (fun d s =>
      let pool := modifyAt (cumulativeCostsStep s.use_cumulative_costs_ s.num_time_steps_ d) r
        s.rollouts_
      { s with rollouts_ := pool }) s) s

/-! ## Probabilities -/

/-- The entry `rollouts_[r].cumulative_costs_[d](t)`. -/
def cumCost (rollouts : List (Rollout K)) (r d t : Nat) : K :=
  (((rollouts.getD r default).cumulative_costs_).getD d []).getD t 0

/-- The entry `rollouts_[r].probabilities_[d](t)`. -/
def probAt (rollouts : List (Rollout K)) (r d t : Nat) : K :=
  (((rollouts.getD r default).probabilities_).getD d []).getD t 0

/-- The in-place update of `rollouts_[r].probabilities_[d](t)`. -/
def modifyProb (f : K → K) (r d t : Nat) (rollouts : List (Rollout K)) : List (Rollout K) :=
  modifyAt (fun ro =>
    { ro with probabilities_ := modifyAt (fun p => modifyAt f t p) d ro.probabilities_ }) r
    rollouts

/-- The search for the minimal and the maximal cumulative cost over the active rollouts at
`(d, t)`: the loop `for (int r = 1; r < num_rollouts_; ++r)`, started from `rollouts_[0]`.
The result is the pair `(min_cost, max_cost)`. -/
def minMaxCost (rollouts : List (Rollout K)) (num_rollouts : Int) (d t : Nat) : K × K :=
  let min_cost := cumCost rollouts 0 d t
  let max_cost := min_cost
  forLoop (num_rollouts.toNat - 1) (fun i mm =>
    let c := cumCost rollouts (i + 1) d t
    let mm := if c < mm.1 then (c, mm.2) else mm
    if c > mm.2 then (mm.1, c) else mm) (min_cost, max_cost)

/-- The first loop over the rollouts at `(d, t)`: the unnormalised probabilities are stored
and summed up. The second component of the loop state is the local variable `p_sum`. -/
def computeExponentials (expf : K → K) (d t : Nat) (min_cost denom : K)
    (s : PolicyImprovement K) : PolicyImprovement K × K :=
  forLoop s.num_rollouts_.toNat (fun r (sp : PolicyImprovement K × K) =>
      -- the -10.0 here is taken from the paper:
      let p := expf (-10 * (cumCost sp.1.rollouts_ r d t - min_cost) / denom)
      let pool := modifyProb (fun _ => p) r d t sp.1.rollouts_
      ({ sp.1 with rollouts_ := pool }, sp.2 + probAt pool r d t)) (s, 0)

/-- The second loop over the rollouts at `(d, t)`: the probabilities are divided by `p_sum`. -/
def normalizeProbabilities (d t : Nat) (p_sum : K) (s : PolicyImprovement K) :
    PolicyImprovement K :=
  forLoop s.num_rollouts_.toNat (fun r s =>
      { s with rollouts_ := modifyProb (fun p => p / p_sum) r d t s.rollouts_ }) s

/-- The guard `if (denom < 1e-8) denom = 1e-8;`. -/
def clipDenom (denom : K) : K := if denom < 1 / 100000000 then 1 / 100000000 else denom

/-- The body of the loops over `d` and `t` of `computeRolloutProbabilities`. -/
def probabilitiesStep (expf : K → K) (d t : Nat) (s : PolicyImprovement K) :
    PolicyImprovement K :=
  -- find min and max cost over all rollouts:
  let mm := minMaxCost s.rollouts_ s.num_rollouts_ d t
  let min_cost := mm.1
  let max_cost := mm.2
  let denom := max_cost - min_cost
  let weights := modifyAt (fun w => w.set t denom) d s.time_step_weights_
  let s := { s with time_step_weights_ := weights }
  -- prevent divide by zero:
  let denom := clipDenom denom
  let sp := computeExponentials expf d t min_cost denom s
  normalizeProbabilities d t sp.2 sp.1

/-- `PolicyImprovement::computeRolloutProbabilities`; `expf` is the library function `exp`. -/
def computeRolloutProbabilities (expf : K → K) (s : PolicyImprovement K) :
    PolicyImprovement K :=
  forLoop s.num_dimensions_ (fun d s =>
    forLoop s.num_time_steps_ (fun t s => probabilitiesStep expf d t s) s) s

/-! ## Parameter updates -/

/-- The local variables of the reweighting loop of `computeParameterUpdates`, together with
the matrix `parameter_updates_[d]` the loop updates. -/
structure Reweight (K : Type) where
  updates : Mat K
  weight : K
  weight_sum : K
  max_weight : K

/-- The first part of the body of the loop over `d` of `computeParameterUpdates`: the matrix
`parameter_updates_[d]` is zeroed and the products of noise and probabilities of the active
rollouts are added to its row 0. -/
def accumulateUpdates (s : PolicyImprovement K) (d : Nat) : Mat K :=
  let updates : Mat K := mzero s.num_time_steps_ (s.num_parameters_.getD d 0)
  forLoop s.num_rollouts_.toNat (fun r updates =>
      let ro := s.rollouts_.getD r default
      modifyAt (fun row => vadd row (vmul (ro.noise_.getD d []) (ro.probabilities_.getD d [])))
        0 updates) updates

/-- The loop "reweighting the updates per time-step" of `computeParameterUpdates`. -/
def reweightUpdates (s : PolicyImprovement K) (d : Nat) (updates : Mat K) : Reweight K :=
  forLoop s.num_time_steps_ (fun t (w : Reweight K) =>
      let weight := (s.time_step_weights_.getD d []).getD t 0
      let weight_sum := w.weight_sum + weight
      let updates := modifyAt (fun row => modifyAt (fun x => x * weight) t row) 0 w.updates
      let max_weight := if weight > w.max_weight then weight else w.max_weight
      { updates := updates, weight := weight, weight_sum := weight_sum,
        max_weight := max_weight })
    { updates := updates, weight := 0, weight_sum := 0, max_weight := 0 }

/-- The divisor `computeParameterUpdates` computes from the sum and the maximum of the
weights. -/
def updateDivisor (weight_sum max_weight : K) (num_time_steps : Nat) : K :=
  let weight_sum := if weight_sum < 1 / 1000000 then 1 / 1000000 else weight_sum
  let divisor := weight_sum / (num_time_steps : K)
  if max_weight > divisor then max_weight else divisor

/-- The matrix the body of the loop over `d` of `computeParameterUpdates` builds in
`parameter_updates_[d]`. -/
def updatesMatrix (d : Nat) (s : PolicyImprovement K) : Mat K :=
  let updates := accumulateUpdates s d
  -- reweighting the updates per time-step
  let w := reweightUpdates s d updates
  let divisor := updateDivisor w.weight_sum w.max_weight s.num_time_steps_
  let updates := modifyAt (fun row => vdiv row divisor) 0 w.updates
  -- the product is evaluated into a temporary before it is assigned to the row
  modifyAt (fun row => mulVec (s.projection_matrix_.getD d []) row) 0 updates

/-- The body of the loop over `d` of `computeParameterUpdates`: all its statements act on
`parameter_updates_[d]`. -/
def parameterUpdatesStep (d : Nat) (s : PolicyImprovement K) : PolicyImprovement K :=
  { s with parameter_updates_ := s.parameter_updates_.set d (updatesMatrix d s) }

/-- `PolicyImprovement::computeParameterUpdates`. -/
def computeParameterUpdates (s : PolicyImprovement K) : PolicyImprovement K :=
  forLoop s.num_dimensions_ (fun d s => parameterUpdatesStep d s) s

/-- `PolicyImprovement::improvePolicy`; the third component of the result is the output
argument `parameter_updates`. -/
def improvePolicy (expf : K → K) (s : PolicyImprovement K) :
    Option (Bool × PolicyImprovement K × List (Mat K)) :=
  if s.initialized_ = false then none
  else
    let s := computeRolloutCumulativeCosts s
    let s := computeRolloutProbabilities expf s
    let s := computeParameterUpdates s
    some (true, s, s.parameter_updates_)

/-! ## Initialization -/

/-- The rollout `setNumRollouts` preallocates: zero vectors of the configured sizes. -/
def zeroRollout (num_dimensions num_time_steps : Nat) (num_parameters : List Nat) :
    Rollout K :=
  forLoop num_dimensions (fun d (ro : Rollout K) =>
    let n := num_parameters.getD d 0
    { parameters_ := ro.parameters_ ++ [vzero n],
      parameters_noise_ := ro.parameters_noise_ ++ [vzero n],
      parameters_noise_projected_ := ro.parameters_noise_projected_ ++ [vzero n],
      noise_ := ro.noise_ ++ [vzero n],
      noise_projected_ := ro.noise_projected_ ++ [vzero n],
      control_costs_ := ro.control_costs_ ++ [vzero num_time_steps],
      total_costs_ := ro.total_costs_ ++ [vzero num_time_steps],
      cumulative_costs_ := ro.cumulative_costs_ ++ [vzero num_time_steps],
      probabilities_ := ro.probabilities_ ++ [vzero num_time_steps],
      state_costs_ := ro.state_costs_ })
    { (default : Rollout K) with state_costs_ := vzero num_time_steps }

/-- `PolicyImprovement::setNumRollouts`. -/
def setNumRollouts (s : PolicyImprovement K)
    (min_rollouts max_rollouts num_rollouts_per_iteration : Int) :
    Bool × PolicyImprovement K :=
  let s := { s with min_rollouts_ := min_rollouts, max_rollouts_ := max_rollouts,
                    num_rollouts_per_iteration_ := num_rollouts_per_iteration,
                    num_rollouts_ := 0, num_rollouts_gen_ := 0 }
  -- preallocate memory for a single rollout:
  let rollout : Rollout K := zeroRollout s.num_dimensions_ s.num_time_steps_ s.num_parameters_
  -- duplicate this rollout:
  let s := forLoop s.max_rollouts_.toNat (fun _ s =>
    { s with rollouts_ := s.rollouts_ ++ [rollout],
             reused_rollouts_ := s.reused_rollouts_ ++ [rollout] }) s
  (true, s)

/-- `PolicyImprovement::preAllocateTempVariables`. -/
def preAllocateTempVariables (s : PolicyImprovement K) : Bool × PolicyImprovement K :=
  let s := { s with tmp_noise_ := [], tmp_parameters_ := [], parameter_updates_ := [] }
  let s := forLoop s.num_dimensions_ (fun d s =>
    let n := s.num_parameters_.getD d 0
    { s with tmp_noise_ := s.tmp_noise_ ++ [vzero n],
             tmp_parameters_ := s.tmp_parameters_ ++ [vzero n],
             parameter_updates_ := s.parameter_updates_ ++ [mzero s.num_time_steps_ n],
             time_step_weights_ := s.time_step_weights_ ++ [vzero s.num_time_steps_] }) s
  (true, s)

/-- The maximal absolute value of column `p` of `M`, over the first `n` rows: the inner loop
of `preComputeProjectionMatrices`. -/
def columnMax (M : Mat K) (n p : Nat) : K :=
  forLoop (n - 1) (fun i column_max =>
    if |mcoeff M (i + 1) p| > column_max then |mcoeff M (i + 1) p| else column_max)
    |mcoeff M 0 p|

/-- The normalisation of the columns of the inverse control cost matrix of one dimension in
`preComputeProjectionMatrices`, in exact arithmetic (`rounded.normalizeColumns` is the same
loop with the roundings of the `double` operations). -/
def normalizeColumns (inv_control_costs : Mat K) (n : Nat) : Mat K :=
  forLoop n (fun p (P : Mat K) =>
    let column_max := columnMax inv_control_costs n p
    P.map (fun row => modifyAt (fun x => x * (1 / ((n : K) * column_max))) p row))
    inv_control_costs

/-- `PolicyImprovement::preComputeProjectionMatrices`; `inverse` is the library call
`fullPivLu().inverse()`. -/
def preComputeProjectionMatrices (inverse : Mat K → Mat K) (s : PolicyImprovement K) :
    Bool × PolicyImprovement K :=
  let s := { s with
    projection_matrix_ := resizeList s.projection_matrix_ s.num_dimensions_ [],
    inv_projection_matrix_ := resizeList s.inv_projection_matrix_ s.num_dimensions_ [] }
  let s := forLoop s.num_dimensions_ (fun d s =>
    let P := normalizeColumns (s.inv_control_costs_.getD d []) (s.num_parameters_.getD d 0)
    let s := { s with projection_matrix_ := s.projection_matrix_.set d P }
    let invP := inverse (s.projection_matrix_.getD d [])
    { s with inv_projection_matrix_ := s.inv_projection_matrix_.set d invP }) s
  (true, s)

/-- `PolicyImprovement::initialize`; `inverse` is the library call `fullPivLu().inverse()`.
The result is `none` when a `ROS_VERIFY` fails. -/
def initializeEngine (inverse : Mat K → Mat K) (s : PolicyImprovement K) (num_time_steps : Nat)
    (min_rollouts max_rollouts num_rollouts_per_iteration : Int) (policy : Policy K)
    (use_cumulative_costs : Bool) : Option (Bool × PolicyImprovement K) :=
  let s := { s with num_time_steps_ := num_time_steps,
                    use_cumulative_costs_ := use_cumulative_costs }
  if policy.setNumTimeSteps s.num_time_steps_ = false then none else
  match policy.getControlCosts with
  | none => none
  | some control_costs =>
  let s := { s with control_costs_ := control_costs }
  match policy.getNumDimensions with
  | none => none
  | some num_dimensions =>
  let s := { s with num_dimensions_ := num_dimensions }
  match policy.getNumParameters with
  | none => none
  | some num_parameters =>
  let s := { s with num_parameters_ := num_parameters }
  if policy.getBasisFunctions = false then none else
  match policy.getParameters with
  | none => none
  | some parameters =>
  let s := { s with parameters_ := parameters }
  -- invert the control costs, initialize noise generators:
  let s := { s with inv_control_costs_ := [] }
  let s := forLoop s.num_dimensions_ (fun d s =>
    { s with inv_control_costs_ :=
        s.inv_control_costs_ ++ [inverse (s.control_costs_.getD d [])] }) s
  let r := setNumRollouts s min_rollouts max_rollouts num_rollouts_per_iteration
  if r.1 = false then none else
  let r := preAllocateTempVariables r.2
  if r.1 = false then none else
  let r := preComputeProjectionMatrices inverse r.2
  if r.1 = false then none else
  some (true, { r.2 with initialized_ := true })

/-- The state of a freshly constructed `PolicyImprovement` object: `initialized_` is false and
the containers are empty. -/
def newEngine : PolicyImprovement K :=
  { initialized_ := false, num_time_steps_ := 0, num_dimensions_ := 0, num_parameters_ := [],
    min_rollouts_ := 0, max_rollouts_ := 0, num_rollouts_per_iteration_ := 0,
    num_rollouts_ := 0, num_rollouts_gen_ := 0, use_cumulative_costs_ := false,
    control_cost_weight_ := 0, parameters_ := [], control_costs_ := [],
    inv_control_costs_ := [], projection_matrix_ := [], inv_projection_matrix_ := [],
    rollouts_ := [], reused_rollouts_ := [], rollout_cost_sorter_ := [],
    parameter_updates_ := [], time_step_weights_ := [], tmp_noise_ := [],
    tmp_parameters_ := [] }

/-! ## Auxiliary notions for the statements -/

/-- The state `t` differs from `s` at most in the rollout pool, the scratch buffer, the cost
sorter and the sampling buffer. -/
def PoolFrame (s t : PolicyImprovement K) : Prop :=
  ∃ a b c d, t = { s with rollouts_ := a, reused_rollouts_ := b, rollout_cost_sorter_ := c,
                          tmp_noise_ := d }

/-- The state of `generateRollouts` after the counting block. -/
def countedState (s : PolicyImprovement K) (parameters : List (Vec K)) : PolicyImprovement K :=
  let c := rolloutCounts s.num_rollouts_ s.min_rollouts_ s.max_rollouts_
    s.num_rollouts_per_iteration_
  { s with parameters_ := parameters, num_rollouts_gen_ := c.num_rollouts_gen,
           num_rollouts_ := c.num_rollouts }

/-- The state of `generateRollouts` after the reuse block. -/
def reusedState (s : PolicyImprovement K) (parameters : List (Vec K)) : PolicyImprovement K :=
  let c := rolloutCounts s.num_rollouts_ s.min_rollouts_ s.max_rollouts_
    s.num_rollouts_per_iteration_
  if c.num_rollouts_reused > 0 then
    reuseRollouts (countedState s parameters) s.num_rollouts_ c.num_rollouts_reused
  else countedState s parameters

/-! ## Sample data -/

/-- A rollout of one dimension with two parameters and two time steps, with state costs
`c0`, `c1`. -/
def sampleRollout (c0 c1 : K) : Rollout K :=
  { parameters_ := [[0, 0]], parameters_noise_ := [[1, 2]],
    parameters_noise_projected_ := [[1, 1]], noise_ := [[1, 2]], noise_projected_ := [[1, 1]],
    control_costs_ := [[0, 0]], total_costs_ := [[c0, c1]], cumulative_costs_ := [[c0, c1]],
    probabilities_ := [[0, 0]], state_costs_ := [c0, c1] }

/-- An initialized engine with one dimension, two time steps, a pool of four rollouts, three
of them active. -/
def sampleEngine : PolicyImprovement K :=
  { initialized_ := true, num_time_steps_ := 2, num_dimensions_ := 1, num_parameters_ := [2],
    min_rollouts_ := 2, max_rollouts_ := 4, num_rollouts_per_iteration_ := 2,
    num_rollouts_ := 3, num_rollouts_gen_ := 2, use_cumulative_costs_ := false,
    control_cost_weight_ := 0, parameters_ := [[0, 0]],
    control_costs_ := [[[1, 0], [0, 1]]], inv_control_costs_ := [[[1, 0], [0, 1]]],
    projection_matrix_ := [[[1 / 2, 0], [0, 1 / 2]]],
    inv_projection_matrix_ := [[[2, 0], [0, 2]]],
    rollouts_ := [sampleRollout 1 0, sampleRollout 0 1, sampleRollout 2 2, sampleRollout 0 0],
    reused_rollouts_ :=
      [sampleRollout 0 0, sampleRollout 0 0, sampleRollout 0 0, sampleRollout 0 0],
    rollout_cost_sorter_ := [], parameter_updates_ := [mzero 2 2],
    time_step_weights_ := [[0, 0]], tmp_noise_ := [[0, 0]], tmp_parameters_ := [[0, 0]] }

/-- A policy of one dimension with two parameters whose control costs are zero. -/
def samplePolicy : Policy K :=
  { setNumTimeSteps := fun _ => true, getControlCosts := some [[[1, 0], [0, 1]]],
    getNumDimensions := some 1, getNumParameters := some [2], getBasisFunctions := true,
    getParameters := some [[3, 4]],
    computeControlCosts := fun _ _ _ _ => [[0, 0]] }

/-- A constant stream of noise samples. -/
def sampleNoise : Nat → Nat → Vec K := fun _ _ => [1, 1]

/-- The rollout the reuse block of `generateRollouts` stores for a retained rollout `ro`: the
mean is replaced by the new `parameters_` and the loop over the dimensions is run. -/
def recenter (parameters : List (Vec K)) (inv_projection_matrix : List (Mat K))
    (num_dimensions : Nat) (ro : Rollout K) : Rollout K :=
  forLoop num_dimensions (recenterStep parameters inv_projection_matrix)
    { ro with parameters_ := parameters }

/-- The indices of the previously active rollouts in the order of the sorted cost sorter. -/
def costRanking (rollouts : List (Rollout K)) (prev_num_rollouts : Int) : List Nat :=
  (sortPairs (fillCostSorter rollouts prev_num_rollouts)).map Prod.snd

/-- The vectors of a rollout have the sizes `setNumRollouts` allocates: one vector per
dimension, of the number of parameters of the dimension or of the number of time steps. -/
def Rollout.Sized (D T : Nat) (np : List Nat) (ro : Rollout K) : Prop :=
  ro.parameters_.length = D ∧ ro.parameters_noise_.length = D ∧
  ro.parameters_noise_projected_.length = D ∧ ro.noise_.length = D ∧
  ro.noise_projected_.length = D ∧ ro.control_costs_.length = D ∧
  ro.total_costs_.length = D ∧ ro.cumulative_costs_.length = D ∧
  ro.probabilities_.length = D ∧ ro.state_costs_.length = T ∧
  ∀ d, d < D →
    (ro.parameters_.getD d []).length = np.getD d 0 ∧
    (ro.parameters_noise_.getD d []).length = np.getD d 0 ∧
    (ro.parameters_noise_projected_.getD d []).length = np.getD d 0 ∧
    (ro.noise_.getD d []).length = np.getD d 0 ∧
    (ro.noise_projected_.getD d []).length = np.getD d 0 ∧
    (ro.control_costs_.getD d []).length = T ∧
    (ro.total_costs_.getD d []).length = T ∧
    (ro.cumulative_costs_.getD d []).length = T ∧
    (ro.probabilities_.getD d []).length = T

instance (D T : Nat) (np : List Nat) (ro : Rollout K) : Decidable (ro.Sized D T np) := by
  unfold Rollout.Sized; infer_instance

/-- The pool and the scratch buffer have at least `max_rollouts_` slots, and the rollouts of
the pool have the allocated sizes. -/
def PoolAllocated (s : PolicyImprovement K) : Prop :=
  s.max_rollouts_.toNat ≤ s.rollouts_.length ∧
  s.max_rollouts_.toNat ≤ s.reused_rollouts_.length ∧
  ∀ ro ∈ s.rollouts_, ro.Sized s.num_dimensions_ s.num_time_steps_ s.num_parameters_

instance (s : PolicyImprovement K) : Decidable (PoolAllocated s) := by
  unfold PoolAllocated; infer_instance

/-- The size of the vector `rollouts_[r].probabilities_[d]` (0 when there is none). -/
def probLen (rollouts : List (Rollout K)) (r d : Nat) : Nat :=
  (((rollouts.getD r default).probabilities_).getD d []).length

/-- The probability vectors of the active rollouts have an entry for every time step. -/
def ProbabilitiesSized (s : PolicyImprovement K) : Prop :=
  ∀ r, r < s.num_rollouts_.toNat → ∀ d, d < s.num_dimensions_ →
    s.num_time_steps_ ≤ probLen s.rollouts_ r d

instance (s : PolicyImprovement K) : Decidable (ProbabilitiesSized s) := by
  unfold ProbabilitiesSized; infer_instance

/-- The unnormalised probability `exp(-10 (cost - min_cost) / denom)` of rollout `r` at
`(d, t)`, with `min_cost` and `denom` as `computeRolloutProbabilities` finds them. -/
def expWeight (expf : K → K) (rollouts : List (Rollout K)) (num_rollouts : Int)
    (d t r : Nat) : K :=
  expf (-10 * (cumCost rollouts r d t - (minMaxCost rollouts num_rollouts d t).1)
    / clipDenom ((minMaxCost rollouts num_rollouts d t).2
        - (minMaxCost rollouts num_rollouts d t).1))

/-- The sum of the unnormalised probabilities of the active rollouts at `(d, t)`. -/
def expSum (expf : K → K) (rollouts : List (Rollout K)) (num_rollouts : Int) (d t : Nat) : K :=
  ∑ r in Finset.range num_rollouts.toNat, expWeight expf rollouts num_rollouts d t r

/-- The state `u` differs from `s` at most in the pool, and the pools agree in the cumulative
costs and in the sizes of the probability vectors. -/
def ProbFrame (s u : PolicyImprovement K) : Prop :=
  (∃ a w, u = { s with rollouts_ := a, time_step_weights_ := w }) ∧
  (∀ r d t, cumCost u.rollouts_ r d t = cumCost s.rollouts_ r d t) ∧
  (∀ r d, probLen u.rollouts_ r d = probLen s.rollouts_ r d)

/-- The sample engine with three active rollouts of equal costs. -/
def uniformEngine : PolicyImprovement K :=
  { (sampleEngine : PolicyImprovement K) with
    rollouts_ := [sampleRollout 1 1, sampleRollout 1 1, sampleRollout 1 1, sampleRollout 0 0] }

/-- The entry `rollouts_[r].noise_[d](t)`. -/
def noiseAt (rollouts : List (Rollout K)) (r d t : Nat) : K :=
  (((rollouts.getD r default).noise_).getD d []).getD t 0

/-- The stored update weight `time_step_weights_[d][t]`. -/
def updateWeight (s : PolicyImprovement K) (d t : Nat) : K :=
  (s.time_step_weights_.getD d []).getD t 0

/-- The probability-weighted noise `sum over the active rollouts r of
noise_r[d][t] * probability_r[d][t]`. -/
def weightedNoise (s : PolicyImprovement K) (d t : Nat) : K :=
  ∑ r in Finset.range s.num_rollouts_.toNat,
    noiseAt s.rollouts_ r d t * probAt s.rollouts_ r d t

/-- The fields of a rollout that the generation of new rollouts does not assign to. -/
def Rollout.evaluated (ro : Rollout K) :
    List (Vec K) × List (Vec K) × List (Vec K) × List (Vec K) × List (Vec K) × List (Vec K)
      × Vec K :=
  (ro.parameters_noise_projected_, ro.noise_projected_, ro.control_costs_, ro.total_costs_,
    ro.cumulative_costs_, ro.probabilities_, ro.state_costs_)

/-- The square matrix of size `n` with the coefficients `M(i, j)` of `M`. -/
def toMatrix (M : Mat K) (n : Nat) : Matrix (Fin n) (Fin n) K :=
  Matrix.of (fun i j => mcoeff M i j)

/-- The sample policy with a singular control cost matrix (two equal rows). -/
def singularPolicy : Policy K :=
  { (samplePolicy : Policy K) with getControlCosts := some [[[1, 1], [1, 1]]] }

/-- The cost-to-go loop of `computeRolloutCumulativeCosts` as it acts on the vector
`cumulative_costs_[d]`: `for (int t = T-2; t >= 0; --t) c(t) += c(t+1)`. -/
def costToGo (num_time_steps : Nat) (c : Vec K) : Vec K :=
  forDown (num_time_steps - 1) (fun t c => modifyAt (fun x => x + c.getD (t + 1) 0) t c) c

/-- The state in which the cumulative costs of the active rollouts have been overwritten by
the vectors `junk r`. -/
def overwriteCumulativeCosts (s : PolicyImprovement K) (junk : Nat → List (Vec K)) :
    PolicyImprovement K :=
  { s with
    rollouts_ := forLoop s.num_rollouts_.toNat (fun r X =>
      modifyAt (fun ro => { ro with cumulative_costs_ := junk r }) r X) s.rollouts_ }

/-- The matrix `M` has `n` rows of `n` coefficients. -/
def IsSquare (M : Mat K) (n : Nat) : Prop := M.length = n ∧ ∀ row ∈ M, row.length = n

instance (M : Mat K) (n : Nat) : Decidable (IsSquare M n) := by
  unfold IsSquare; infer_instance

/-- An exact matrix inversion: the adjugate divided by the determinant. -/
def exactInverse (M : Mat K) : Mat K :=
  List.ofFn (fun i : Fin M.length => List.ofFn (fun j : Fin M.length =>
    (toMatrix M M.length).det⁻¹ * (toMatrix M M.length).adjugate i j))

/-- The sample policy with a control cost function that returns the projected noise it is
given. -/
def echoPolicy : Policy K :=
  { (samplePolicy : Policy K) with
    computeControlCosts := fun _ noise_projected _ _ => noise_projected }

/-- The state in which `computeRolloutProbabilities` runs the two loops over the rollouts at
`(d, t)`: the cost spread has been stored in `time_step_weights_[d][t]`. -/
def spreadStored (d t : Nat) (s : PolicyImprovement K) : PolicyImprovement K :=
  { s with
    time_step_weights_ := modifyAt (fun w => w.set t
        ((minMaxCost s.rollouts_ s.num_rollouts_ d t).2
          - (minMaxCost s.rollouts_ s.num_rollouts_ d t).1)) d s.time_step_weights_ }

/-- The cost spread `max_cost - min_cost` of the active rollouts at `(d, t)`, the value
`computeRolloutProbabilities` stores in `time_step_weights_[d][t]`. -/
def costSpread (rollouts : List (Rollout K)) (num_rollouts : Int) (d t : Nat) : K :=
  (minMaxCost rollouts num_rollouts d t).2 - (minMaxCost rollouts num_rollouts d t).1

/-! ## The trajectory (`stomp_trajectory.cpp`) -/

/-- The planning group `StompRobotModel::StompPlanningGroup`, as far as the trajectory uses
it: the number of its joints and, for each of them, `stomp_joints_[j].kdl_joint_index_`. -/
structure StompPlanningGroup where
  num_joints_ : Nat
  kdl_joint_index_ : List Nat

/-- The member variables of `stomp_motion_planner::StompTrajectory`. The matrix
`trajectory_` has one row per trajectory point and one column per joint; `(*this)(i, j)` is
`trajectory_(i, j)`. -/
structure StompTrajectory (K : Type) where
  planning_group_ : Option StompPlanningGroup
  num_points_ : Int
  num_joints_ : Nat
  discretization_ : K
  duration_ : K
  trajectory_ : Mat K
  start_index_ : Int
  end_index_ : Int
  full_trajectory_index_ : List Int

/-- The array of the powers `x^0, ..., x^5` as `fillInMinJerk` fills it:
`T[0] = 1.0; T[1] = x; for (int i=2; i<=5; i++) T[i] = T[i-1]*T[1];`. -/
def timePowers (x : K) : List K :=
  let T : List K := List.replicate 6 0
  let T := T.set 0 1
  let T := T.set 1 x
  forLoop 4 (fun n T => T.set (n + 2) (T.getD (n + 1) 0 * T.getD 1 0)) T

/-- The loop of `fillInMinJerk` that calculates "the spline coefficients for each joint";
`start_index` and `end_index` are the local variables of these names, converted to `int` as
the calls `(*this)(start_index,i)` do. -/
def minJerkCoefficients (traj : StompTrajectory K) (start_index end_index : Int)
    (T : List K) : List (List K) :=
  forLoop traj.num_joints_ (fun i coeff =>
      let x0 := mcoeff traj.trajectory_ start_index.toNat i
      let x1 := mcoeff traj.trajectory_ end_index.toNat i
      coeff.set i [x0, 0, 0, (-20 * x0 + 20 * x1) / (2 * T.getD 3 0),
        (30 * x0 - 30 * x1) / (2 * T.getD 4 0), (-12 * x0 + 12 * x1) / (2 * T.getD 5 0)])
    (List.replicate traj.num_joints_ (List.replicate 6 0))

/-- The body of the loop of `fillInMinJerk` that fills "in the joint positions at each time
step", for the trajectory point `i`; `start_index` is the local variable of type `double`. -/
def fillInPoint (traj : StompTrajectory K) (coeff : List (List K)) (start_index : K) (i : Int)
    (trajectory : Mat K) : Mat K :=
  let t := timePowers (((i : K) - start_index) * traj.discretization_)
  forLoop traj.num_joints_ (fun j M =>
      let M := modifyAt (fun row => row.set j 0) i.toNat M
      forLoop 6 (fun k M =>
          modifyAt (fun row =>
            modifyAt (fun x => x + t.getD k 0 * (coeff.getD j []).getD k 0) j row) i.toNat M)
        M)
    trajectory

/-- `StompTrajectory::fillInMinJerk`. -/
def fillInMinJerk (traj : StompTrajectory K) : StompTrajectory K :=
  let start_index : K := ((traj.start_index_ - 1 : Int) : K)
  let end_index : K := ((traj.end_index_ + 1 : Int) : K)
  -- powers of the time duration
  let T := timePowers ((end_index - start_index) * traj.discretization_)
  let coeff := minJerkCoefficients traj (traj.start_index_ - 1) (traj.end_index_ + 1) T
  -- for (int i = start_index+1; i < end_index; i++)
  let trajectory := forLoop (traj.end_index_ + 1 - traj.start_index_).toNat (fun n M =>
      fillInPoint traj coeff start_index (traj.start_index_ + (n : Int)) M) traj.trajectory_
  { traj with trajectory_ := trajectory }

/-- The constructor `StompTrajectory(source_traj, planning_group, diff_rule_length)` of the
trajectory of a planning group. The call `init()` allocates the matrix `trajectory_`, whose
entries are all assigned by the loop that follows. -/
def groupTrajectory (source_traj : StompTrajectory K) (planning_group : StompPlanningGroup)
    (diff_rule_length : Int) : StompTrajectory K :=
  let num_joints := planning_group.num_joints_
  -- we need diff_rule_length-1 extra points on either side:
  let start_extra := (diff_rule_length - 1) - source_traj.start_index_
  let end_extra := (diff_rule_length - 1)
    - ((source_traj.num_points_ - 1) - source_traj.end_index_)
  let num_points := source_traj.num_points_ + start_extra + end_extra
  let start_index := diff_rule_length - 1
  let end_index := (num_points - 1) - (diff_rule_length - 1)
  let duration := ((num_points - 1 : Int) : K) * source_traj.discretization_
  let this : StompTrajectory K :=
    { planning_group_ := some planning_group, num_points_ := num_points,
      num_joints_ := num_joints, discretization_ := source_traj.discretization_,
      duration_ := duration, trajectory_ := mzero num_points.toNat num_joints,
      start_index_ := start_index, end_index_ := end_index,
      full_trajectory_index_ := resizeList [] num_points.toNat 0 }
  -- now copy the trajectories over:
  forLoop num_points.toNat (fun i (this : StompTrajectory K) =>
      let source_traj_point : Int := (i : Int) - start_extra
      let source_traj_point := if source_traj_point < 0 then 0 else source_traj_point
      let source_traj_point :=
        if source_traj_point ≥ source_traj.num_points_ then source_traj.num_points_ - 1
        else source_traj_point
      let this := { this with
        full_trajectory_index_ := this.full_trajectory_index_.set i source_traj_point }
      forLoop this.num_joints_ (fun j (this : StompTrajectory K) =>
          let source_joint := planning_group.kdl_joint_index_.getD j 0
          let x := mcoeff source_traj.trajectory_ source_traj_point.toNat source_joint
          { this with trajectory_ := modifyAt (fun row => row.set j x) i this.trajectory_ })
        this)
    this

/-- A trajectory of one joint with six points: the joint is at 0 in the first two points and
at 1 in the last two. -/
def sampleTrajectory : StompTrajectory K :=
  { planning_group_ := none, num_points_ := 6, num_joints_ := 1, discretization_ := 1 / 2,
    duration_ := 5 / 2, trajectory_ := [[0], [0], [7], [7], [1], [1]], start_index_ := 2,
    end_index_ := 3, full_trajectory_index_ := [] }

/-- A planning group with the joint 0. -/
def sampleGroup : StompPlanningGroup := { num_joints_ := 1, kdl_joint_index_ := [0] }

/-- The value that the loop `for (int k=0; k<=5; k++) (*this)(i,j) += t[k]*coeff[j][k];` of
`fillInMinJerk` accumulates in an entry that starts at `0.0`. -/
def splineValue (t c : List K) : K :=
  forLoop 6 (fun k x => x + t.getD k 0 * c.getD k 0) 0

/-! ## Double arithmetic

The definitions above compute in exact arithmetic. In the program every variable of these
computations is a `double`; the results of the operations `+`, `-`, `*`, `/` are rounded to
the nearest `double`. The definitions of this part repeat the computations of
`preComputeProjectionMatrices` and `improvePolicy` operation by operation with a rounding
function `fl` applied to the result of every arithmetic operation; with `fl x = x` they are the
definitions above. Comparisons, `fabs` and assignments are exact on `double`s. The products
of a matrix-vector product are added from left to right and a row is divided by a scalar
entry by entry, as the statements are written; the example of `improvePolicy` below has a
matrix with one entry and the divisor `1.0`, where the order of the additions and the form of
the division make no difference. -/

/-- The quotient `x / y` of natural numbers rounded to the nearest integer, a tie to the even
one. -/
def roundDiv (x y : Nat) : Nat :=
  let q := x / y
  let r := x % y
  if 2 * r < y then q else if y < 2 * r then q + 1 else if q % 2 = 0 then q else q + 1

/-- The number of binary digits of `n` (`fuel` bounds the recursion). -/
def bitLength : Nat → Nat → Nat
  | 0, _ => 0
  | fuel + 1, n => if n = 0 then 0 else bitLength fuel (n / 2) + 1

/-- The exponent `e` of the last binary digit of the `double`s around the positive rational
`n / d`: `2^(52+e) ≤ n / d < 2^(53+e)`, and `e = -1074` for the subnormal numbers. -/
def ulpExponent (n d : Nat) : Int :=
  let k : Int := (bitLength n n : Int) - (bitLength d d : Int)
  -- 2^(k-1) < n / d < 2^(k+1)
  let below : Bool :=
    if 0 ≤ k then decide (n < d * 2 ^ k.toNat) else decide (n * 2 ^ (-k).toNat < d)
  let e := (if below then k - 1 else k) - 52
  if e < -1074 then -1074 else e

/-- The IEEE 754 binary64 rounding (to nearest, ties to even) of a rational number: the
nearest multiple `m * 2^e` of the last binary digit, where `m` has at most 53 binary digits.
Overflow to infinity is not modelled: this is the rounding for results below `2^1024` in
absolute value. -/
def binary64 (q : ℚ) : ℚ :=
  if q.num = 0 then 0
  else
    let n := q.num.natAbs
    let e := ulpExponent n q.den
    let m : Nat := if 0 ≤ e then roundDiv n (q.den * 2 ^ e.toNat)
      else roundDiv (n * 2 ^ (-e).toNat) q.den
    let a : ℚ :=
      if 0 ≤ e then ((m * 2 ^ e.toNat : Nat) : ℚ) else (m : ℚ) / ((2 ^ (-e).toNat : Nat) : ℚ)
    if q.num < 0 then -a else a

/-- The `double` nearest to `exp(x)` for a `double` `x` of moderate size, computed from the
first 64 terms of the exponential series (their sum differs from `exp(x)` by less than
`10^(-25)` for `|x| ≤ 10`); the library function `exp` returns this value at the arguments
`0.0` and `-10.0` used below. -/
def expNearest (x : ℚ) : ℚ :=
  binary64
    (forLoop 64 (fun k (st : ℚ × ℚ) => (st.1 + st.2, st.2 * x / ((k : ℚ) + 1))) (0, 1)).1

namespace rounded

/-- Coefficient-wise `a + b`. -/
def vadd (fl : K → K) (a b : Vec K) : Vec K := List.zipWith (fun x y => fl (x + y)) a b

/-- Coefficient-wise `a.array() * b.array()`. -/
def vmul (fl : K → K) (a b : Vec K) : Vec K := List.zipWith (fun x y => fl (x * y)) a b

/-- Coefficient-wise `a / c`. -/
def vdiv (fl : K → K) (a : Vec K) (c : K) : Vec K := a.map (fun x => fl (x / c))

/-- The inner product of a row of a matrix and a vector, the products added from left to
right. -/
def vdot (fl : K → K) (a b : Vec K) : K :=
  (vmul fl a b).foldl (fun acc x => fl (acc + x)) 0

/-- The product of a matrix and a vector. -/
def mulVec (fl : K → K) (M : Mat K) (v : Vec K) : Vec K := M.map (fun row => vdot fl row v)

/-- The body of the loops over `r` and `d` of `computeRolloutCumulativeCosts`, acting on
`rollouts_[r]`. -/
def cumulativeCostsStep (fl : K → K) (use_cumulative_costs : Bool) (num_time_steps : Nat)
    (d : Nat) (ro : Rollout K) : Rollout K :=
  let total := vadd fl ro.state_costs_ (ro.control_costs_.getD d [])
  let ro := { ro with total_costs_ := ro.total_costs_.set d total }
  let ro := { ro with cumulative_costs_ := ro.cumulative_costs_.set d (ro.total_costs_.getD d []) }
  if use_cumulative_costs then
    -- for (int t = num_time_steps_-2; t >= 0; --t)
    forDown (num_time_steps - 1) (fun t ro =>
      let next := (ro.cumulative_costs_.getD d []).getD (t + 1) 0
      let cumulative := modifyAt (fun c => modifyAt (fun x => fl (x + next)) t c) d
        ro.cumulative_costs_
      { ro with cumulative_costs_ := cumulative }) ro
  else ro

/-- `PolicyImprovement::computeRolloutCumulativeCosts`. -/
def computeRolloutCumulativeCosts (fl : K → K) (s : PolicyImprovement K) :
    PolicyImprovement K :=
  forLoop s.num_rollouts_.toNat (fun r s =>
    forLoop s.num_dimensions_ (fun d s =>
      let pool := modifyAt (cumulativeCostsStep fl s.use_cumulative_costs_ s.num_time_steps_ d)
        r s.rollouts_
      { s with rollouts_ := pool }) s) s

/-- The first loop over the rollouts at `(d, t)` of `computeRolloutProbabilities`; `expf` is
the library function `exp`. -/
def computeExponentials (fl : K → K) (expf : K → K) (d t : Nat) (min_cost denom : K)
    (s : PolicyImprovement K) : PolicyImprovement K × K :=
  forLoop s.num_rollouts_.toNat (fun r (sp : PolicyImprovement K × K) =>
      -- the -10.0 here is taken from the paper:
      let p := expf (fl (fl (-10 * fl (cumCost sp.1.rollouts_ r d t - min_cost)) / denom))
      let pool := modifyProb (fun _ => p) r d t sp.1.rollouts_
      ({ sp.1 with rollouts_ := pool }, fl (sp.2 + probAt pool r d t))) (s, 0)

/-- The second loop over the rollouts at `(d, t)`: the probabilities are divided by `p_sum`. -/
def normalizeProbabilities (fl : K → K) (d t : Nat) (p_sum : K) (s : PolicyImprovement K) :
    PolicyImprovement K :=
  forLoop s.num_rollouts_.toNat (fun r s =>
      { s with rollouts_ := modifyProb (fun p => fl (p / p_sum)) r d t s.rollouts_ }) s

/-- The guard `if (denom < 1e-8) denom = 1e-8;`, the constant being the `double` nearest to
`10^(-8)`. -/
def clipDenom (fl : K → K) (denom : K) : K :=
  if denom < fl (1 / 100000000) then fl (1 / 100000000) else denom

/-- The body of the loops over `d` and `t` of `computeRolloutProbabilities`. -/
def probabilitiesStep (fl : K → K) (expf : K → K) (d t : Nat) (s : PolicyImprovement K) :
    PolicyImprovement K :=
  -- find min and max cost over all rollouts:
  let mm := minMaxCost s.rollouts_ s.num_rollouts_ d t
  let min_cost := mm.1
  let max_cost := mm.2
  let denom := fl (max_cost - min_cost)
  let weights := modifyAt (fun w => w.set t denom) d s.time_step_weights_
  let s := { s with time_step_weights_ := weights }
  -- prevent divide by zero:
  let denom := clipDenom fl denom
  let sp := computeExponentials fl expf d t min_cost denom s
  normalizeProbabilities fl d t sp.2 sp.1

/-- `PolicyImprovement::computeRolloutProbabilities`. -/
def computeRolloutProbabilities (fl : K → K) (expf : K → K) (s : PolicyImprovement K) :
    PolicyImprovement K :=
  forLoop s.num_dimensions_ (fun d s =>
    forLoop s.num_time_steps_ (fun t s => probabilitiesStep fl expf d t s) s) s

/-- The first part of the body of the loop over `d` of `computeParameterUpdates`. -/
def accumulateUpdates (fl : K → K) (s : PolicyImprovement K) (d : Nat) : Mat K :=
  let updates : Mat K := mzero s.num_time_steps_ (s.num_parameters_.getD d 0)
  forLoop s.num_rollouts_.toNat (fun r updates =>
      let ro := s.rollouts_.getD r default
      modifyAt (fun row =>
          vadd fl row (vmul fl (ro.noise_.getD d []) (ro.probabilities_.getD d [])))
        0 updates) updates

/-- The loop "reweighting the updates per time-step" of `computeParameterUpdates`. -/
def reweightUpdates (fl : K → K) (s : PolicyImprovement K) (d : Nat) (updates : Mat K) :
    Reweight K :=
  forLoop s.num_time_steps_ (fun t (w : Reweight K) =>
      let weight := (s.time_step_weights_.getD d []).getD t 0
      let weight_sum := fl (w.weight_sum + weight)
      let updates := modifyAt (fun row => modifyAt (fun x => fl (x * weight)) t row) 0 w.updates
      let max_weight := if weight > w.max_weight then weight else w.max_weight
      { updates := updates, weight := weight, weight_sum := weight_sum,
        max_weight := max_weight })
    { updates := updates, weight := 0, weight_sum := 0, max_weight := 0 }

/-- The divisor `computeParameterUpdates` computes from the sum and the maximum of the
weights; `num_time_steps_` is converted to a `double`. -/
def updateDivisor (fl : K → K) (weight_sum max_weight : K) (num_time_steps : Nat) : K :=
  let weight_sum := if weight_sum < fl (1 / 1000000) then fl (1 / 1000000) else weight_sum
  let divisor := fl (weight_sum / fl (num_time_steps : K))
  if max_weight > divisor then max_weight else divisor

/-- The matrix the body of the loop over `d` of `computeParameterUpdates` builds in
`parameter_updates_[d]`. -/
def updatesMatrix (fl : K → K) (d : Nat) (s : PolicyImprovement K) : Mat K :=
  let updates := accumulateUpdates fl s d
  -- reweighting the updates per time-step
  let w := reweightUpdates fl s d updates
  let divisor := updateDivisor fl w.weight_sum w.max_weight s.num_time_steps_
  let updates := modifyAt (fun row => vdiv fl row divisor) 0 w.updates
  modifyAt (fun row => mulVec fl (s.projection_matrix_.getD d []) row) 0 updates

/-- `PolicyImprovement::computeParameterUpdates`. -/
def computeParameterUpdates (fl : K → K) (s : PolicyImprovement K) : PolicyImprovement K :=
  forLoop s.num_dimensions_ (fun d s =>
    { s with parameter_updates_ := s.parameter_updates_.set d (updatesMatrix fl d s) }) s

/-- `PolicyImprovement::improvePolicy`; the third component of the result is the output
argument `parameter_updates`. -/
def improvePolicy (fl : K → K) (expf : K → K) (s : PolicyImprovement K) :
    Option (Bool × PolicyImprovement K × List (Mat K)) :=
  if s.initialized_ = false then none
  else
    let s := computeRolloutCumulativeCosts fl s
    let s := computeRolloutProbabilities fl expf s
    let s := computeParameterUpdates fl s
    some (true, s, s.parameter_updates_)

/-- The normalisation of the columns of the inverse control cost matrix of one dimension in
`preComputeProjectionMatrices`: the statement
`projection_matrix_[d].col(p) *= (1.0/(num_parameters_[d]*column_max));`, in which
`num_parameters_[d]` is converted to a `double`, the product and the quotient are rounded and
every entry of the column is multiplied by the result. -/
def normalizeColumns (fl : K → K) (inv_control_costs : Mat K) (n : Nat) : Mat K :=
  forLoop n (fun p (P : Mat K) =>
    let column_max := columnMax inv_control_costs n p
    P.map (fun row => modifyAt (fun x => fl (x * fl (1 / fl (fl (n : K) * column_max)))) p row))
    inv_control_costs

/-- `PolicyImprovement::preComputeProjectionMatrices`; `inverse` is the library call
`fullPivLu().inverse()`. -/
def preComputeProjectionMatrices (fl : K → K) (inverse : Mat K → Mat K)
    (s : PolicyImprovement K) : Bool × PolicyImprovement K :=
  let s := { s with
    projection_matrix_ := resizeList s.projection_matrix_ s.num_dimensions_ [],
    inv_projection_matrix_ := resizeList s.inv_projection_matrix_ s.num_dimensions_ [] }
  let s := forLoop s.num_dimensions_ (fun d s =>
    let P := normalizeColumns fl (s.inv_control_costs_.getD d []) (s.num_parameters_.getD d 0)
    let s := { s with projection_matrix_ := s.projection_matrix_.set d P }
    let invP := inverse (s.projection_matrix_.getD d [])
    { s with inv_projection_matrix_ := s.inv_projection_matrix_.set d invP }) s
  (true, s)

end rounded

/-- A policy of one dimension with one parameter, the control cost matrix `[[1]]`, the mean
parameter 0 and control costs that are zero. -/
def unitPolicy : Policy K :=
  { setNumTimeSteps := fun _ => true, getControlCosts := some [[[1]]],
    getNumDimensions := some 1, getNumParameters := some [1], getBasisFunctions := true,
    getParameters := some [[0]],
    computeControlCosts := fun _ _ _ _ => [[0]] }

/-- A rollout of one dimension, one time step and one parameter with the raw noise 3 around
the mean 0 and the state cost `c`. -/
def unitRollout (c : K) : Rollout K :=
  { parameters_ := [[0]], parameters_noise_ := [[3]], parameters_noise_projected_ := [[0]],
    noise_ := [[3]], noise_projected_ := [[0]], control_costs_ := [[0]], total_costs_ := [[0]],
    cumulative_costs_ := [[0]], probabilities_ := [[0]], state_costs_ := [c] }

/-- The engine of the unit policy with one time step and two rollouts, after `initialize`,
`generateRollouts` with the noise sample 3 for both rollouts and `setRolloutCosts` with the
state costs 0 and 1. -/
def unitEngine : PolicyImprovement K :=
  { initialized_ := true, num_time_steps_ := 1, num_dimensions_ := 1, num_parameters_ := [1],
    min_rollouts_ := 2, max_rollouts_ := 2, num_rollouts_per_iteration_ := 2,
    num_rollouts_ := 2, num_rollouts_gen_ := 2, use_cumulative_costs_ := false,
    control_cost_weight_ := 0, parameters_ := [[0]],
    control_costs_ := [[[1]]], inv_control_costs_ := [[[1]]],
    projection_matrix_ := [[[1]]], inv_projection_matrix_ := [[[1]]],
    rollouts_ := [unitRollout 0, unitRollout 1],
    reused_rollouts_ := [zeroRollout 1 1 [1], zeroRollout 1 1 [1]],
    rollout_cost_sorter_ := [], parameter_updates_ := [mzero 1 1],
    time_step_weights_ := [[0]], tmp_noise_ := [[3]], tmp_parameters_ := [[0]] }

/-- The state of `initialize` before the call of `preComputeProjectionMatrices`, for one
dimension with three parameters whose inverse control cost matrix is 11 times the identity. -/
def elevenEngine : PolicyImprovement K :=
  { (newEngine : PolicyImprovement K) with
    num_time_steps_ := 3, num_dimensions_ := 1, num_parameters_ := [3],
    inv_control_costs_ := [[[11, 0, 0], [0, 11, 0], [0, 0, 11]]] }

end Engine

/-! ## Loops: invariants -/

section LoopLemmas

variable {σ : Type}

theorem forLoop_succ (n : Nat) (body : Nat → σ → σ) (s : σ) :
    forLoop (n + 1) body s = body n (forLoop n body s) := rfl

theorem forLoop_zero (body : Nat → σ → σ) (s : σ) : forLoop 0 body s = s := rfl

/-- Invariant rule for `forLoop`: `P k` holds after `k` iterations. -/
theorem forLoop_induct (P : Nat → σ → Prop) (n : Nat) (body : Nat → σ → σ) (s : σ)
    (h0 : P 0 s) (hstep : ∀ i t, i < n → P i t → P (i + 1) (body i t)) :
    P n (forLoop n body s) := by
  induction n with
  | zero => exact h0
  | succ n ih =>
    rw [forLoop_succ]
    exact hstep n _ (Nat.lt_succ_self n)
      (ih (fun i t hi hP => hstep i t (Nat.lt_succ_of_lt hi) hP))

/-- A property every iteration preserves holds after the loop. -/
theorem forLoop_preserves (P : σ → Prop) (n : Nat) (body : Nat → σ → σ) (s : σ)
    (h0 : P s) (hstep : ∀ i t, i < n → P t → P (body i t)) : P (forLoop n body s) :=
  forLoop_induct (fun _ t => P t) n body s h0 hstep

end LoopLemmas

/-! ## The rollout counts of `generateRollouts` -/

section Counts

/-- The counts in a valid configuration. -/
theorem rolloutCounts_bounds (n mn mx per : Int) (hmm : mn ≤ mx)
    (hper0 : 0 ≤ per) (hper : per ≤ mx) (hn0 : 0 ≤ n) :
    let c := rolloutCounts n mn mx per
    c.num_rollouts = c.num_rollouts_reused + c.num_rollouts_gen ∧
    mn ≤ c.num_rollouts ∧ c.num_rollouts ≤ mx ∧
    0 ≤ c.num_rollouts_gen ∧ 0 ≤ c.num_rollouts_reused ∧ c.num_rollouts_reused ≤ n ∧
    0 ≤ c.num_rollouts_discard ∧ c.num_rollouts_reused + c.num_rollouts_discard = n := by
  intro c
  rcases lt_or_le (n + per) mn with h1 | h1
  · have h2 : ¬ (n + (mn - n) > mx) := by omega
    simp only [c, rolloutCounts, h1, if_true, h2, if_false]
    refine ⟨?_, ?_, ?_, ?_, ?_, ?_, ?_, ?_⟩ <;> dsimp only <;> omega
  · have h1n : ¬ (n + per < mn) := by omega
    by_cases h2 : n + per > mx
    · simp only [c, rolloutCounts, h1n, if_false, h2, if_true]
      refine ⟨?_, ?_, ?_, ?_, ?_, ?_, ?_, ?_⟩ <;> dsimp only <;> omega
    · simp only [c, rolloutCounts, h1n, if_false, h2]
      refine ⟨?_, ?_, ?_, ?_, ?_, ?_, ?_, ?_⟩ <;> dsimp only <;> omega

/-- The intermediate values of the counting block fit in a 32 bit `int` when the pool has
fewer than `2^30` slots, so that the `int` arithmetic of the source does not overflow. -/
theorem rolloutCounts_no_overflow (n mn mx per : Int) (h0 : 0 ≤ mn) (hmm : mn ≤ mx)
    (hper0 : 0 ≤ per) (hper : per ≤ mx) (hn0 : 0 ≤ n) (hn : n ≤ mx) (hmx : mx < 2 ^ 30) :
    n + per < 2 ^ 31 ∧ -(2 ^ 31) ≤ mn - n ∧ n + (mn - n) < 2 ^ 31 ∧
    -(2 ^ 31) ≤ n + per - mx ∧ -(2 ^ 31) ≤ n - (n + per - mx) := by
  refine ⟨?_, ?_, ?_, ?_, ?_⟩ <;> omega

end Counts

/-! ## `generateRollouts`: the frame and the counters -/

section GenerateRollouts

variable {K : Type} [LinearOrderedField K]

omit [LinearOrderedField K] in
theorem poolFrame_refl (s : PolicyImprovement K) : PoolFrame s s := ⟨_, _, _, _, rfl⟩

omit [LinearOrderedField K] in
theorem poolFrame_trans {s t u : PolicyImprovement K} (h1 : PoolFrame s t)
    (h2 : PoolFrame t u) : PoolFrame s u := by
  obtain ⟨a, b, c, d, rfl⟩ := h1
  obtain ⟨a', b', c', d', rfl⟩ := h2
  exact ⟨_, _, _, _, rfl⟩

theorem reuseRollouts_frame (s : PolicyImprovement K) (prev reused : Int) :
    PoolFrame s (reuseRollouts s prev reused) := by
  unfold reuseRollouts copyBackRollouts copyBestRollouts
  apply forLoop_preserves (PoolFrame s)
  · apply forLoop_preserves (PoolFrame s)
    · exact ⟨_, _, _, _, rfl⟩
    · rintro i t - ⟨a, b, c, d, rfl⟩
      exact ⟨_, _, _, _, rfl⟩
  · rintro i t - ⟨a, b, c, d, rfl⟩
    apply forLoop_preserves (PoolFrame s)
    · exact ⟨_, _, _, _, rfl⟩
    · rintro i t - ⟨a, b, c, d, rfl⟩
      exact ⟨_, _, _, _, rfl⟩

theorem generateNewRollouts_frame (s : PolicyImprovement K) (noise_stddev : List K)
    (sample : Nat → Nat → Vec K) :
    PoolFrame s (generateNewRollouts s noise_stddev sample) := by
  unfold generateNewRollouts
  apply forLoop_preserves (PoolFrame s)
  · exact poolFrame_refl s
  · rintro d t - ht
    apply forLoop_preserves (PoolFrame s)
    · exact ht
    · rintro i t - ⟨a, b, c, d, rfl⟩
      exact ⟨_, _, _, _, rfl⟩

/-- A call of `generateRollouts` on an initialized engine with a standard deviation per
dimension returns `true`, when the policy delivers its parameters. -/
theorem generateRollouts_eq (s : PolicyImprovement K) (policy : Policy K)
    (noise_stddev : List K) (sample : Nat → Nat → Vec K) (parameters : List (Vec K))
    (hinit : s.initialized_ = true) (hdim : noise_stddev.length = s.num_dimensions_)
    (hpol : policy.getParameters = some parameters) :
    generateRollouts s policy noise_stddev sample =
      some (true, generateNewRollouts (reusedState s parameters) noise_stddev sample) := by
  simp only [generateRollouts, hinit, hdim, hpol, reusedState, countedState]
  simp

theorem reusedState_frame (s : PolicyImprovement K) (parameters : List (Vec K)) :
    PoolFrame (countedState s parameters) (reusedState s parameters) := by
  unfold reusedState
  dsimp only
  split_ifs
  · exact reuseRollouts_frame _ _ _
  · exact poolFrame_refl _

theorem generateRollouts_frame (s : PolicyImprovement K) (noise_stddev : List K)
    (sample : Nat → Nat → Vec K) (parameters : List (Vec K)) :
    PoolFrame (countedState s parameters)
      (generateNewRollouts (reusedState s parameters) noise_stddev sample) :=
  poolFrame_trans (reusedState_frame s parameters) (generateNewRollouts_frame _ _ _)

/-- C1: in every valid configuration a call of `generateRollouts` returns, and afterwards the
active count is `reused + generated` and lies between `min_rollouts` and `max_rollouts`
(the bounds `0 ≤ min_rollouts` and `active ≤ max_rollouts` of the claim are not needed). -/
theorem generateRollouts_active_count (s : PolicyImprovement K) (policy : Policy K)
    (noise_stddev : List K) (sample : Nat → Nat → Vec K) (parameters : List (Vec K))
    (hinit : s.initialized_ = true) (hdim : noise_stddev.length = s.num_dimensions_)
    (hpol : policy.getParameters = some parameters)
    (hmm : s.min_rollouts_ ≤ s.max_rollouts_)
    (hper0 : 0 ≤ s.num_rollouts_per_iteration_)
    (hper : s.num_rollouts_per_iteration_ ≤ s.max_rollouts_)
    (hn0 : 0 ≤ s.num_rollouts_) :
    ∃ t, generateRollouts s policy noise_stddev sample = some (true, t) ∧
      t.num_rollouts_gen_ = (rolloutCounts s.num_rollouts_ s.min_rollouts_ s.max_rollouts_
        s.num_rollouts_per_iteration_).num_rollouts_gen ∧
      t.num_rollouts_ = (rolloutCounts s.num_rollouts_ s.min_rollouts_ s.max_rollouts_
        s.num_rollouts_per_iteration_).num_rollouts_reused + t.num_rollouts_gen_ ∧
      t.min_rollouts_ = s.min_rollouts_ ∧ t.max_rollouts_ = s.max_rollouts_ ∧
      t.min_rollouts_ ≤ t.num_rollouts_ ∧ t.num_rollouts_ ≤ t.max_rollouts_ := by
  refine ⟨_, generateRollouts_eq s policy noise_stddev sample parameters hinit hdim hpol, ?_⟩
  obtain ⟨a, b, c, d, h⟩ := generateRollouts_frame s noise_stddev sample parameters
  have hb := rolloutCounts_bounds s.num_rollouts_ s.min_rollouts_ s.max_rollouts_
    s.num_rollouts_per_iteration_ hmm hper0 hper hn0
  rw [h]
  exact ⟨rfl, hb.1, rfl, rfl, hb.2.1, hb.2.2.1⟩

/-- C1 at the sample engine (three active rollouts, two per iteration, at most four). -/
theorem generateRollouts_active_count_witness :
    ∃ t, generateRollouts (sampleEngine : PolicyImprovement ℚ) samplePolicy [1] sampleNoise
        = some (true, t) ∧
      t.num_rollouts_gen_ = (rolloutCounts 3 2 4 2).num_rollouts_gen ∧
      t.num_rollouts_ = (rolloutCounts 3 2 4 2).num_rollouts_reused + t.num_rollouts_gen_ ∧
      t.min_rollouts_ = 2 ∧ t.max_rollouts_ = 4 ∧
      t.min_rollouts_ ≤ t.num_rollouts_ ∧ t.num_rollouts_ ≤ t.max_rollouts_ :=
  generateRollouts_active_count sampleEngine samplePolicy [1] sampleNoise [[3, 4]] rfl rfl rfl
    (by decide) (by decide) (by decide) (by decide)

end GenerateRollouts

section BelowMin

variable {K : Type} [LinearOrderedField K]

end BelowMin

/-! ## Containers: element updates -/

section Containers

variable {α : Type}

theorem length_modifyAt (f : α → α) (i : Nat) (l : List α) :
    (modifyAt f i l).length = l.length := by
  induction l generalizing i with
  | nil => simp [modifyAt]
  | cons a l ih =>
    cases i with
    | zero => rfl
    | succ i => simp [modifyAt, ih]

theorem getElem?_modifyAt (f : α → α) (i : Nat) (l : List α) (j : Nat) :
    (modifyAt f i l)[j]? = if i = j then (l[j]?).map f else l[j]? := by
  induction l generalizing i j with
  | nil => simp [modifyAt]
  | cons a l ih =>
    cases i with
    | zero =>
      cases j with
      | zero => simp [modifyAt]
      | succ j => simp [modifyAt]
    | succ i =>
      cases j with
      | zero => simp [modifyAt]
      | succ j => simp [modifyAt, ih]

theorem getElem?_modifyAt_self (f : α → α) (i : Nat) (l : List α) :
    (modifyAt f i l)[i]? = (l[i]?).map f := by
  rw [getElem?_modifyAt, if_pos rfl]

theorem getElem?_modifyAt_ne (f : α → α) {i j : Nat} (h : i ≠ j) (l : List α) :
    (modifyAt f i l)[j]? = l[j]? := by
  rw [getElem?_modifyAt, if_neg h]

theorem modifyAt_modifyAt (f g : α → α) (i : Nat) (l : List α) :
    modifyAt g i (modifyAt f i l) = modifyAt (fun a => g (f a)) i l := by
  induction l generalizing i with
  | nil => simp [modifyAt]
  | cons a l ih =>
    cases i with
    | zero => rfl
    | succ i => simp [modifyAt, ih]

theorem modifyAt_set (f : α → α) (i : Nat) (l : List α) (x : α) :
    modifyAt f i (l.set i x) = l.set i (f x) := by
  induction l generalizing i with
  | nil => simp [modifyAt]
  | cons a l ih =>
    cases i with
    | zero => rfl
    | succ i => simp [modifyAt, ih]

theorem modifyAt_eq_set (f : α → α) (i : Nat) (l : List α) (d : α) :
    modifyAt f i l = l.set i (f (l.getD i d)) := by
  induction l generalizing i with
  | nil => simp [modifyAt]
  | cons a l ih =>
    cases i with
    | zero => rfl
    | succ i => simp [modifyAt, ih i]

/-- A loop of updates of one element is one update of this element by the loop. -/
theorem forLoop_modifyAt (n : Nat) (g : Nat → α → α) (i : Nat) (l : List α) :
    forLoop n (fun d l => modifyAt (g d) i l) l = modifyAt (fun a => forLoop n g a) i l := by
  induction n with
  | zero =>
    simp only [forLoop_zero]
    induction l generalizing i with
    | nil => simp [modifyAt]
    | cons a l ih =>
      cases i with
      | zero => rfl
      | succ i => simp only [modifyAt]; rw [← ih]
  | succ n ih => simp only [forLoop_succ, ih, modifyAt_modifyAt]

/-- A loop that appends one element per iteration builds the list of these elements. -/
theorem forLoop_append (n : Nat) (g : Nat → α) :
    forLoop n (fun r l => l ++ [g r]) [] = (List.range n).map g := by
  induction n with
  | zero => rfl
  | succ n ih => simp only [forLoop_succ, ih, List.range_succ, List.map_append, List.map_cons,
      List.map_nil]

theorem getD_eq_of_getElem? {l : List α} {i : Nat} {a : α} (d : α) (h : l[i]? = some a) :
    l.getD i d = a := by
  simp [h]

end Containers

/-! ## The cost sorter -/

section Sorter

variable {K : Type} [LinearOrderedField K]

theorem pairLe_iff (a b : K × Nat) : pairLe a b ↔ a.1 < b.1 ∨ (a.1 = b.1 ∧ a.2 ≤ b.2) := by
  unfold pairLe pairLt
  constructor
  · intro h
    rw [not_or] at h
    obtain ⟨h1, h2⟩ := h
    rcases lt_trichotomy a.1 b.1 with hlt | heq | hgt
    · exact Or.inl hlt
    · refine Or.inr ⟨heq, ?_⟩
      by_contra hc
      exact h2 ⟨by rw [heq]; exact lt_irrefl _, by omega⟩
    · exact absurd hgt h1
  · rintro (hlt | ⟨heq, hle⟩)
    · rw [not_or]
      exact ⟨not_lt.mpr hlt.le, fun h => h.1 hlt⟩
    · rw [not_or]
      exact ⟨by rw [heq]; exact lt_irrefl _, fun h => by omega⟩

theorem pairLe_total : IsTotal (K × Nat) pairLe := ⟨by
  intro a b
  rw [pairLe_iff, pairLe_iff]
  rcases lt_trichotomy a.1 b.1 with hlt | heq | hgt
  · exact Or.inl (Or.inl hlt)
  · rcases Nat.le_total a.2 b.2 with h | h
    · exact Or.inl (Or.inr ⟨heq, h⟩)
    · exact Or.inr (Or.inr ⟨heq.symm, h⟩)
  · exact Or.inr (Or.inl hgt)⟩

theorem pairLe_trans : IsTrans (K × Nat) pairLe := ⟨by
  intro a b c
  rw [pairLe_iff, pairLe_iff, pairLe_iff]
  rintro (h1 | ⟨h1, h1'⟩) (h2 | ⟨h2, h2'⟩)
  · exact Or.inl (h1.trans h2)
  · exact Or.inl (h2 ▸ h1)
  · exact Or.inl (h1 ▸ h2)
  · exact Or.inr ⟨h1.trans h2, h1'.trans h2'⟩⟩

theorem pairLe_antisymm : IsAntisymm (K × Nat) pairLe := ⟨by
  intro a b
  rw [pairLe_iff, pairLe_iff]
  rintro (h1 | ⟨h1, h1'⟩) (h2 | ⟨h2, h2'⟩)
  · exact absurd h1 (not_lt.mpr h2.le)
  · rw [h2] at h1; exact absurd h1 (lt_irrefl _)
  · rw [h1] at h2; exact absurd h2 (lt_irrefl _)
  · exact Prod.ext h1 (Nat.le_antisymm h1' h2')⟩

theorem sortPairs_perm (l : List (K × Nat)) : (sortPairs l).Perm l :=
  List.perm_insertionSort pairLe l

theorem sortPairs_sorted (l : List (K × Nat)) : (sortPairs l).Sorted pairLe := by
  haveI : IsTotal (K × Nat) pairLe := pairLe_total
  haveI : IsTrans (K × Nat) pairLe := pairLe_trans
  exact List.sorted_insertionSort pairLe l

/-- The result of `std::sort` is determined by its specification: every range that is a
permutation of the input and ascending with respect to `operator<` is `sortPairs` of it. -/
theorem sortPairs_unique (l m : List (K × Nat)) (hp : m.Perm l) (hs : m.Sorted pairLe) :
    m = sortPairs l := by
  haveI : IsAntisymm (K × Nat) pairLe := pairLe_antisymm
  exact List.eq_of_perm_of_sorted (hp.trans (sortPairs_perm l).symm) hs (sortPairs_sorted l)

/-- The cost sorter before sorting: the pairs `(cost of rollout r, r)` for `r < n`. -/
theorem fillCostSorter_eq (rollouts : List (Rollout K)) (n : Int) :
    fillCostSorter rollouts n
      = (List.range n.toNat).map (fun r => ((rollouts.getD r default).getCost, r)) := by
  unfold fillCostSorter
  exact forLoop_append _ _

/-- The indices in the sorted cost sorter. -/
theorem sorter_eq_map_ranking (rollouts : List (Rollout K)) (n : Int) :
    sortPairs (fillCostSorter rollouts n)
      = ((sortPairs (fillCostSorter rollouts n)).map Prod.snd).map
          (fun r => ((rollouts.getD r default).getCost, r)) := by
  rw [List.map_map]
  have h : ∀ p ∈ sortPairs (fillCostSorter rollouts n),
      ((fun r => ((rollouts.getD r default).getCost, r)) ∘ Prod.snd) p = p := by
    intro p hp
    have hp2 := (sortPairs_perm _).mem_iff.mp hp
    rw [fillCostSorter_eq, List.mem_map] at hp2
    obtain ⟨r, -, rfl⟩ := hp2
    rfl
  conv_lhs => rw [← List.map_id (sortPairs (fillCostSorter rollouts n))]
  exact (List.map_congr_left (fun p hp => (h p hp).symm))

/-- The sorted indices are a permutation of the indices of the active rollouts. -/
theorem ranking_perm (rollouts : List (Rollout K)) (n : Int) :
    ((sortPairs (fillCostSorter rollouts n)).map Prod.snd).Perm (List.range n.toNat) := by
  have h := (sortPairs_perm (fillCostSorter rollouts n)).map Prod.snd
  rw [fillCostSorter_eq] at h
  rw [fillCostSorter_eq]
  refine h.trans ?_
  rw [List.map_map]
  have : (Prod.snd ∘ fun r => ((rollouts.getD r default).getCost, r)) = id := rfl
  rw [this, List.map_id]

/-- The sorted indices are ascending in cost, equal costs in ascending index. -/
theorem ranking_pairwise (rollouts : List (Rollout K)) (n : Int) :
    ((sortPairs (fillCostSorter rollouts n)).map Prod.snd).Pairwise (fun i j =>
      (rollouts.getD i default).getCost < (rollouts.getD j default).getCost ∨
      ((rollouts.getD i default).getCost = (rollouts.getD j default).getCost ∧ i < j)) := by
  have hs := sortPairs_sorted (fillCostSorter rollouts n)
  have hnd : ((sortPairs (fillCostSorter rollouts n)).map Prod.snd).Nodup :=
    (ranking_perm rollouts n).nodup_iff.mpr (List.nodup_range _)
  rw [sorter_eq_map_ranking] at hs
  have hs2 := (List.pairwise_map.mp hs)
  refine (hs2.and hnd).imp ?_
  intro i j ⟨hle, hne⟩
  rw [pairLe_iff] at hle
  rcases hle with h | ⟨h1, h2⟩
  · exact Or.inl h
  · exact Or.inr ⟨h1, lt_of_le_of_ne h2 hne⟩

end Sorter

/-! ## `generateRollouts`: the reuse block -/

section Reuse

variable {K : Type} [LinearOrderedField K]

omit [LinearOrderedField K] in
/-- A loop that only assigns to `rollouts_` is a loop on the pool. -/
theorem forLoop_rollouts (n : Nat) (body : Nat → PolicyImprovement K → PolicyImprovement K)
    (G : Nat → List (Rollout K) → List (Rollout K)) (s : PolicyImprovement K)
    (h : ∀ i X, body i { s with rollouts_ := X } = { s with rollouts_ := G i X }) :
    forLoop n body s = { s with rollouts_ := forLoop n G s.rollouts_ } := by
  induction n with
  | zero => rfl
  | succ n ih => rw [forLoop_succ, ih, h]; rfl

omit [LinearOrderedField K] in
/-- A loop that only assigns to `reused_rollouts_` is a loop on the scratch buffer. -/
theorem forLoop_reused (n : Nat) (body : Nat → PolicyImprovement K → PolicyImprovement K)
    (G : Nat → List (Rollout K) → List (Rollout K)) (s : PolicyImprovement K)
    (h : ∀ i X, body i { s with reused_rollouts_ := X } = { s with reused_rollouts_ := G i X }) :
    forLoop n body s = { s with reused_rollouts_ := forLoop n G s.reused_rollouts_ } := by
  induction n with
  | zero => rfl
  | succ n ih => rw [forLoop_succ, ih, h]; rfl

theorem length_forLoop_set {α : Type} (n base : Nat) (g : Nat → α) (a : List α) :
    (forLoop n (fun r a => a.set (base + r) (g r)) a).length = a.length := by
  induction n with
  | zero => rfl
  | succ n ih => rw [forLoop_succ, List.length_set, ih]

/-- The elements after a loop that assigns `g r` to slot `base + r`, for `r < n`. -/
theorem getElem?_forLoop_set {α : Type} (n base : Nat) (g : Nat → α) (a : List α) (j : Nat)
    (hn : base + n ≤ a.length) :
    (forLoop n (fun r a => a.set (base + r) (g r)) a)[j]?
      = if base ≤ j ∧ j < base + n then some (g (j - base)) else a[j]? := by
  induction n with
  | zero =>
    have : ¬ (base ≤ j ∧ j < base + 0) := by omega
    rw [forLoop_zero, if_neg this]
  | succ n ih =>
    rw [forLoop_succ, List.getElem?_set, ih (by omega), length_forLoop_set]
    by_cases h1 : base + n = j
    · have h2 : base ≤ j ∧ j < base + (n + 1) := by omega
      have h3 : base + n < a.length := by omega
      have h4 : j - base = n := by omega
      rw [if_pos h1, if_pos h3, if_pos h2, h4]
    · rw [if_neg h1]
      by_cases h2 : base ≤ j ∧ j < base + n
      · rw [if_pos h2, if_pos (by omega)]
      · rw [if_neg h2, if_neg (by omega)]

/-- The scratch buffer after the first loop of the reuse block. -/
theorem copyBestRollouts_eq (s : PolicyImprovement K) (reused : Int) :
    copyBestRollouts s reused =
    { s with
      reused_rollouts_ :=
        forLoop reused.toNat (fun r b => b.set (0 + r)
          (s.rollouts_.getD (s.rollout_cost_sorter_.getD r (0, 0)).2 default))
          s.reused_rollouts_ } := by
  unfold copyBestRollouts
  rw [forLoop_reused reused.toNat _ (fun r b => b.set (0 + r)
    (s.rollouts_.getD (s.rollout_cost_sorter_.getD r (0, 0)).2 default)) s
    (fun i X => by simp only [Nat.zero_add])]

/-- The pool after the second loop of the reuse block. -/
theorem copyBackRollouts_eq (s : PolicyImprovement K) (reused : Int)
    (hgen : 0 ≤ s.num_rollouts_gen_) :
    copyBackRollouts s reused =
    { s with
      rollouts_ :=
        forLoop reused.toNat (fun r a => a.set (s.num_rollouts_gen_.toNat + r)
          (recenter s.parameters_ s.inv_projection_matrix_ s.num_dimensions_
            (s.reused_rollouts_.getD r default))) s.rollouts_ } := by
  unfold copyBackRollouts
  refine forLoop_rollouts reused.toNat _ _ s ?_
  intro i X
  dsimp only
  have hi : (s.num_rollouts_gen_ + (i : Int)).toNat = s.num_rollouts_gen_.toNat + i := by omega
  rw [hi]
  rw [forLoop_rollouts s.num_dimensions_ _ (fun d a =>
    modifyAt (recenterStep s.parameters_ s.inv_projection_matrix_ d)
      (s.num_rollouts_gen_.toNat + i) a) _ (fun d Y => rfl)]
  dsimp only
  rw [forLoop_modifyAt, modifyAt_set, modifyAt_set]
  rfl

/-- The pool after the reuse block: slot `num_rollouts_gen_ + r` holds the re-centred rollout
whose index is at position `r` of the sorted cost sorter; the other slots are unchanged. -/
theorem reuseRollouts_rollouts (s : PolicyImprovement K) (prev reused : Int)
    (hgen : 0 ≤ s.num_rollouts_gen_)
    (hpool : s.num_rollouts_gen_.toNat + reused.toNat ≤ s.rollouts_.length)
    (hscratch : reused.toNat ≤ s.reused_rollouts_.length) (j : Nat) :
    (reuseRollouts s prev reused).rollouts_[j]?
      = if s.num_rollouts_gen_.toNat ≤ j ∧ j < s.num_rollouts_gen_.toNat + reused.toNat then
          some (recenter s.parameters_ s.inv_projection_matrix_ s.num_dimensions_
            (s.rollouts_.getD ((costRanking s.rollouts_ prev).getD
              (j - s.num_rollouts_gen_.toNat) 0) default))
        else s.rollouts_[j]? := by
  have h0 : reuseRollouts s prev reused = copyBackRollouts (copyBestRollouts
      { s with rollout_cost_sorter_ := sortPairs (fillCostSorter s.rollouts_ prev) } reused)
      reused := rfl
  rw [h0, copyBestRollouts_eq, copyBackRollouts_eq]
  swap
  · exact hgen
  dsimp only
  rw [getElem?_forLoop_set _ _ _ _ _ hpool]
  by_cases h : s.num_rollouts_gen_.toNat ≤ j ∧ j < s.num_rollouts_gen_.toNat + reused.toNat
  · rw [if_pos h, if_pos h]
    have hj : j - s.num_rollouts_gen_.toNat < reused.toNat := by omega
    have h2 := getElem?_forLoop_set reused.toNat 0 (fun r =>
      s.rollouts_.getD ((sortPairs (fillCostSorter s.rollouts_ prev)).getD r (0, 0)).2 default)
      s.reused_rollouts_ (j - s.num_rollouts_gen_.toNat) (by omega)
    rw [if_pos (by omega)] at h2
    rw [getD_eq_of_getElem? default h2]
    congr 3
    unfold costRanking
    simp only [Nat.sub_zero, List.getD_eq_getElem?_getD, List.getElem?_map]
    cases (sortPairs (fillCostSorter s.rollouts_ prev))[j - s.num_rollouts_gen_.toNat]? <;> rfl
  · rw [if_neg h, if_neg h]

/-- The generation loops leave the slots from `num_rollouts_gen_` on alone. -/
theorem generateNewRollouts_rollouts_ge (s : PolicyImprovement K) (noise_stddev : List K)
    (sample : Nat → Nat → Vec K) (j : Nat) (hj : s.num_rollouts_gen_.toNat ≤ j) :
    (generateNewRollouts s noise_stddev sample).rollouts_[j]? = s.rollouts_[j]? := by
  have h : PoolFrame s (generateNewRollouts s noise_stddev sample) ∧
      (generateNewRollouts s noise_stddev sample).rollouts_[j]? = s.rollouts_[j]? := by
    unfold generateNewRollouts
    refine forLoop_preserves (fun t : PolicyImprovement K => PoolFrame s t ∧ t.rollouts_[j]? = s.rollouts_[j]?)
      _ _ _ ?_ ?_
    · exact ⟨poolFrame_refl s, rfl⟩
    · rintro d t - ⟨hf, ht⟩
      have hgen : t.num_rollouts_gen_ = s.num_rollouts_gen_ := by
        obtain ⟨a, b, c, e, rfl⟩ := hf
        rfl
      refine forLoop_preserves (fun t : PolicyImprovement K => PoolFrame s t ∧ t.rollouts_[j]? = s.rollouts_[j]?)
        _ _ _ ?_ ?_
      · exact ⟨hf, ht⟩
      · rintro i u hi ⟨hf2, hu⟩
        refine ⟨?_, ?_⟩
        · obtain ⟨a, b, c, e, rfl⟩ := hf2
          exact ⟨_, _, _, _, rfl⟩
        · dsimp only
          rw [getElem?_modifyAt_ne _ (by omega), hu]
  exact h.2

/-- Re-centring leaves the costs and the projected noisy parameters of a rollout alone. -/
theorem recenter_fields (parameters : List (Vec K)) (invP : List (Mat K)) (D : Nat)
    (ro : Rollout K) :
    (recenter parameters invP D ro).state_costs_ = ro.state_costs_ ∧
    (recenter parameters invP D ro).control_costs_ = ro.control_costs_ ∧
    (recenter parameters invP D ro).parameters_noise_projected_
      = ro.parameters_noise_projected_ ∧
    (recenter parameters invP D ro).parameters_ = parameters := by
  unfold recenter
  refine forLoop_preserves (fun x : Rollout K => x.state_costs_ = ro.state_costs_ ∧
    x.control_costs_ = ro.control_costs_ ∧
    x.parameters_noise_projected_ = ro.parameters_noise_projected_ ∧
    x.parameters_ = parameters) _ _ _ ?_ ?_
  · exact ⟨rfl, rfl, rfl, rfl⟩
  · rintro i x - ⟨h1, h2, h3, h4⟩
    exact ⟨h1, h2, h3, h4⟩

theorem recenter_getCost (parameters : List (Vec K)) (invP : List (Mat K)) (D : Nat)
    (ro : Rollout K) : (recenter parameters invP D ro).getCost = ro.getCost := by
  obtain ⟨h1, h2, -, -⟩ := recenter_fields parameters invP D ro
  unfold Rollout.getCost
  rw [h1, h2]

/-- The noise re-centring computes, in every dimension. -/
theorem recenter_noise (parameters : List (Vec K)) (invP : List (Mat K)) (D : Nat)
    (ro : Rollout K) (h1 : D ≤ ro.noise_projected_.length) (h2 : D ≤ ro.noise_.length)
    (h3 : D ≤ ro.parameters_noise_.length) (d : Nat) (hd : d < D) :
    (recenter parameters invP D ro).noise_projected_.getD d []
      = vsub (ro.parameters_noise_projected_.getD d []) (parameters.getD d []) ∧
    (recenter parameters invP D ro).noise_.getD d []
      = mulVec (invP.getD d []) ((recenter parameters invP D ro).noise_projected_.getD d []) ∧
    (recenter parameters invP D ro).parameters_noise_.getD d []
      = vadd (parameters.getD d []) ((recenter parameters invP D ro).noise_.getD d []) := by
  have key := forLoop_induct (fun (k : Nat) (x : Rollout K) =>
      x.parameters_noise_projected_ = ro.parameters_noise_projected_ ∧
      x.noise_projected_.length = ro.noise_projected_.length ∧
      x.noise_.length = ro.noise_.length ∧
      x.parameters_noise_.length = ro.parameters_noise_.length ∧
      ∀ e, e < k →
        x.noise_projected_.getD e []
          = vsub (ro.parameters_noise_projected_.getD e []) (parameters.getD e []) ∧
        x.noise_.getD e [] = mulVec (invP.getD e []) (x.noise_projected_.getD e []) ∧
        x.parameters_noise_.getD e [] = vadd (parameters.getD e []) (x.noise_.getD e []))
    D (recenterStep parameters invP) { ro with parameters_ := parameters }
    ⟨rfl, rfl, rfl, rfl, fun e he => absurd he (Nat.not_lt_zero e)⟩ (by
      rintro i x hi ⟨hp, l1, l2, l3, hx⟩
      refine ⟨hp, ?_, ?_, ?_, ?_⟩
      · simp only [recenterStep, List.length_set, l1]
      · simp only [recenterStep, List.length_set, l2]
      · simp only [recenterStep, List.length_set, l3]
      · intro e he
        have hi1 : i < x.noise_projected_.length := by omega
        have hi2 : i < x.noise_.length := by omega
        have hi3 : i < x.parameters_noise_.length := by omega
        by_cases hei : e = i
        · subst hei
          simp only [recenterStep, List.getD_eq_getElem?_getD, List.getElem?_set_self hi1,
            List.getElem?_set_self hi2, List.getElem?_set_self hi3, Option.getD_some, hp,
            and_self]
        · have hne : i ≠ e := fun h => hei h.symm
          obtain ⟨e1, e2, e3⟩ := hx e (by omega)
          simp only [List.getD_eq_getElem?_getD] at e1 e2 e3
          simp only [recenterStep, List.getD_eq_getElem?_getD, List.getElem?_set_ne hne]
          exact ⟨e1, e2, e3⟩)
  exact key.2.2.2.2 d hd

end Reuse

/-! ## `generateRollouts`: which rollouts are kept -/

section Kept

variable {K : Type} [LinearOrderedField K]

/-- The slot `num_rollouts_gen + r` after `generateRollouts`, for `r < num_rollouts_reused`:
the re-centred rollout at position `r` of the cost ranking. -/
theorem generateRollouts_kept_slot (s : PolicyImprovement K) (noise_stddev : List K)
    (sample : Nat → Nat → Vec K) (parameters : List (Vec K))
    (hmm : s.min_rollouts_ ≤ s.max_rollouts_)
    (hper0 : 0 ≤ s.num_rollouts_per_iteration_)
    (hper : s.num_rollouts_per_iteration_ ≤ s.max_rollouts_)
    (hn0 : 0 ≤ s.num_rollouts_)
    (hpool : s.max_rollouts_.toNat ≤ s.rollouts_.length)
    (hscratch : s.max_rollouts_.toNat ≤ s.reused_rollouts_.length)
    (r : Nat)
    (hr : r < (rolloutCounts s.num_rollouts_ s.min_rollouts_ s.max_rollouts_
      s.num_rollouts_per_iteration_).num_rollouts_reused.toNat) :
    (generateNewRollouts (reusedState s parameters) noise_stddev sample).rollouts_[
        (rolloutCounts s.num_rollouts_ s.min_rollouts_ s.max_rollouts_
          s.num_rollouts_per_iteration_).num_rollouts_gen.toNat + r]?
      = some (recenter parameters s.inv_projection_matrix_ s.num_dimensions_
          (s.rollouts_.getD ((costRanking s.rollouts_ s.num_rollouts_).getD r 0) default)) := by
  have hb := rolloutCounts_bounds s.num_rollouts_ s.min_rollouts_ s.max_rollouts_
    s.num_rollouts_per_iteration_ hmm hper0 hper hn0
  obtain ⟨hb1, -, hb3, hb4, hb5, -, -, -⟩ := hb
  obtain ⟨a, b, c, e, hf⟩ := reusedState_frame s parameters
  have hgen : (reusedState s parameters).num_rollouts_gen_
      = (rolloutCounts s.num_rollouts_ s.min_rollouts_ s.max_rollouts_
          s.num_rollouts_per_iteration_).num_rollouts_gen := by
    rw [hf]; rfl
  rw [generateNewRollouts_rollouts_ge _ _ _ _ (by rw [hgen]; omega)]
  have hpos : (rolloutCounts s.num_rollouts_ s.min_rollouts_ s.max_rollouts_
      s.num_rollouts_per_iteration_).num_rollouts_reused > 0 := by omega
  have hre : reusedState s parameters = reuseRollouts (countedState s parameters)
      s.num_rollouts_ (rolloutCounts s.num_rollouts_ s.min_rollouts_ s.max_rollouts_
        s.num_rollouts_per_iteration_).num_rollouts_reused := by
    unfold reusedState
    dsimp only
    rw [if_pos hpos]
  rw [hre, reuseRollouts_rollouts]
  · rw [if_pos]
    · have h1 : (countedState s parameters).num_rollouts_gen_.toNat
          = (rolloutCounts s.num_rollouts_ s.min_rollouts_ s.max_rollouts_
              s.num_rollouts_per_iteration_).num_rollouts_gen.toNat := rfl
      rw [h1, Nat.add_sub_cancel_left]
      rfl
    · exact ⟨Nat.le_add_right _ _, Nat.add_lt_add_left hr _⟩
  · exact hb4
  · have h1 : (countedState s parameters).rollouts_ = s.rollouts_ := rfl
    have h2 : (countedState s parameters).num_rollouts_gen_
        = (rolloutCounts s.num_rollouts_ s.min_rollouts_ s.max_rollouts_
            s.num_rollouts_per_iteration_).num_rollouts_gen := rfl
    rw [h1, h2]
    omega
  · have h1 : (countedState s parameters).reused_rollouts_ = s.reused_rollouts_ := rfl
    rw [h1]
    omega

/-- The retained rollouts are cheaper than the discarded ones. -/
theorem ranking_take_le (rollouts : List (Rollout K)) (n : Int) (k i j : Nat)
    (hi : i ∈ (costRanking rollouts n).take k) (hj : j < n.toNat)
    (hjn : j ∉ (costRanking rollouts n).take k) :
    (rollouts.getD i default).getCost ≤ (rollouts.getD j default).getCost := by
  have hp := ranking_pairwise rollouts n
  have hperm := ranking_perm rollouts n
  have hjmem : j ∈ costRanking rollouts n := hperm.mem_iff.mpr (List.mem_range.mpr hj)
  rw [← List.take_append_drop k (costRanking rollouts n)] at hjmem
  have hjd : j ∈ (costRanking rollouts n).drop k := by
    rcases List.mem_append.mp hjmem with h | h
    · exact absurd h hjn
    · exact h
  have hp2 : ((costRanking rollouts n).take k ++ (costRanking rollouts n).drop k).Pairwise
      (fun i j => (rollouts.getD i default).getCost < (rollouts.getD j default).getCost ∨
        ((rollouts.getD i default).getCost = (rollouts.getD j default).getCost ∧ i < j)) := by
    rw [List.take_append_drop]
    exact hp
  rcases (List.pairwise_append.mp hp2).2.2 i hi j hjd with h | ⟨h, -⟩
  · exact h.le
  · exact h.le

end Kept

section KeptClaims

variable {K : Type} [LinearOrderedField K]

/-- The positions of the cost ranking hold indices of previously active rollouts. -/
theorem ranking_getD_lt (rollouts : List (Rollout K)) (n : Int) (r : Nat) (hr : r < n.toNat) :
    (costRanking rollouts n).getD r 0 < n.toNat := by
  have hperm := ranking_perm rollouts n
  have hlen : (costRanking rollouts n).length = n.toNat := by
    rw [show (costRanking rollouts n).length
      = ((sortPairs (fillCostSorter rollouts n)).map Prod.snd).length from rfl,
      hperm.length_eq, List.length_range]
  have hmem : (costRanking rollouts n).getD r 0 ∈ costRanking rollouts n := by
    rw [List.getD_eq_getElem _ _ (by omega)]
    exact List.getElem_mem _
  exact List.mem_range.mp (hperm.mem_iff.mp hmem)

/-- C2: the rollouts `generateRollouts` keeps are the first `reused` previously active
rollouts in the order of ascending cost, ties in the order of the index: the cost ranking is a
permutation of the active indices in this order, pool slot `generated + r` holds the state
costs, control costs and projected noisy parameters (hence the cost) of the rollout at
position `r` of the ranking, and every retained rollout costs at most as much as every
discarded one. -/
theorem generateRollouts_keeps_cheapest (s : PolicyImprovement K) (policy : Policy K)
    (noise_stddev : List K) (sample : Nat → Nat → Vec K) (parameters : List (Vec K))
    (hinit : s.initialized_ = true) (hdim : noise_stddev.length = s.num_dimensions_)
    (hpol : policy.getParameters = some parameters)
    (hmm : s.min_rollouts_ ≤ s.max_rollouts_)
    (hper0 : 0 ≤ s.num_rollouts_per_iteration_)
    (hper : s.num_rollouts_per_iteration_ ≤ s.max_rollouts_)
    (hn0 : 0 ≤ s.num_rollouts_)
    (hpool : s.max_rollouts_.toNat ≤ s.rollouts_.length)
    (hscratch : s.max_rollouts_.toNat ≤ s.reused_rollouts_.length) :
    ∃ t, generateRollouts s policy noise_stddev sample = some (true, t) ∧
      (costRanking s.rollouts_ s.num_rollouts_).Perm (List.range s.num_rollouts_.toNat) ∧
      (costRanking s.rollouts_ s.num_rollouts_).Pairwise (fun i j =>
        (s.rollouts_.getD i default).getCost < (s.rollouts_.getD j default).getCost ∨
        ((s.rollouts_.getD i default).getCost = (s.rollouts_.getD j default).getCost ∧
          i < j)) ∧
      (∀ r, r < (rolloutCounts s.num_rollouts_ s.min_rollouts_ s.max_rollouts_
            s.num_rollouts_per_iteration_).num_rollouts_reused.toNat →
        ∃ kept, t.rollouts_[t.num_rollouts_gen_.toNat + r]? = some kept ∧
          kept.state_costs_ = (s.rollouts_.getD
            ((costRanking s.rollouts_ s.num_rollouts_).getD r 0) default).state_costs_ ∧
          kept.control_costs_ = (s.rollouts_.getD
            ((costRanking s.rollouts_ s.num_rollouts_).getD r 0) default).control_costs_ ∧
          kept.parameters_noise_projected_ = (s.rollouts_.getD
            ((costRanking s.rollouts_ s.num_rollouts_).getD r 0)
              default).parameters_noise_projected_ ∧
          kept.getCost = (s.rollouts_.getD
            ((costRanking s.rollouts_ s.num_rollouts_).getD r 0) default).getCost) ∧
      (∀ i j, i ∈ (costRanking s.rollouts_ s.num_rollouts_).take
            (rolloutCounts s.num_rollouts_ s.min_rollouts_ s.max_rollouts_
              s.num_rollouts_per_iteration_).num_rollouts_reused.toNat →
          j < s.num_rollouts_.toNat →
          j ∉ (costRanking s.rollouts_ s.num_rollouts_).take
            (rolloutCounts s.num_rollouts_ s.min_rollouts_ s.max_rollouts_
              s.num_rollouts_per_iteration_).num_rollouts_reused.toNat →
          (s.rollouts_.getD i default).getCost ≤ (s.rollouts_.getD j default).getCost) := by
  refine ⟨_, generateRollouts_eq s policy noise_stddev sample parameters hinit hdim hpol,
    ranking_perm _ _, ranking_pairwise _ _, ?_, ?_⟩
  · intro r hr
    have hslot := generateRollouts_kept_slot s noise_stddev sample parameters hmm hper0 hper
      hn0 hpool hscratch r hr
    obtain ⟨a, b, c, e, hf⟩ := generateRollouts_frame s noise_stddev sample parameters
    have hgen : (generateNewRollouts (reusedState s parameters) noise_stddev
        sample).num_rollouts_gen_
        = (rolloutCounts s.num_rollouts_ s.min_rollouts_ s.max_rollouts_
            s.num_rollouts_per_iteration_).num_rollouts_gen := by
      rw [hf]; rfl
    rw [hgen]
    obtain ⟨h1, h2, h3, -⟩ := recenter_fields parameters s.inv_projection_matrix_
      s.num_dimensions_
      (s.rollouts_.getD ((costRanking s.rollouts_ s.num_rollouts_).getD r 0) default)
    exact ⟨_, hslot, h1, h2, h3, recenter_getCost _ _ _ _⟩
  · intro i j hi hj hjn
    exact ranking_take_le _ _ _ i j hi hj hjn

/-- C2 at the sample engine: three active rollouts, two of them kept. -/
theorem generateRollouts_keeps_cheapest_witness :
    ∃ t, generateRollouts (sampleEngine : PolicyImprovement ℚ) samplePolicy [1] sampleNoise
        = some (true, t) ∧
      (costRanking (sampleEngine : PolicyImprovement ℚ).rollouts_ 3).Perm
        (List.range (3 : Int).toNat) ∧
      (costRanking (sampleEngine : PolicyImprovement ℚ).rollouts_ 3).Pairwise (fun i j =>
        ((sampleEngine : PolicyImprovement ℚ).rollouts_.getD i default).getCost
          < ((sampleEngine : PolicyImprovement ℚ).rollouts_.getD j default).getCost ∨
        (((sampleEngine : PolicyImprovement ℚ).rollouts_.getD i default).getCost
          = ((sampleEngine : PolicyImprovement ℚ).rollouts_.getD j default).getCost ∧
          i < j)) ∧
      (∀ r, r < (rolloutCounts 3 2 4 2).num_rollouts_reused.toNat →
        ∃ kept, t.rollouts_[t.num_rollouts_gen_.toNat + r]? = some kept ∧
          kept.state_costs_ = ((sampleEngine : PolicyImprovement ℚ).rollouts_.getD
            ((costRanking (sampleEngine : PolicyImprovement ℚ).rollouts_ 3).getD r 0)
              default).state_costs_ ∧
          kept.control_costs_ = ((sampleEngine : PolicyImprovement ℚ).rollouts_.getD
            ((costRanking (sampleEngine : PolicyImprovement ℚ).rollouts_ 3).getD r 0)
              default).control_costs_ ∧
          kept.parameters_noise_projected_ = ((sampleEngine : PolicyImprovement ℚ).rollouts_.getD
            ((costRanking (sampleEngine : PolicyImprovement ℚ).rollouts_ 3).getD r 0)
              default).parameters_noise_projected_ ∧
          kept.getCost = ((sampleEngine : PolicyImprovement ℚ).rollouts_.getD
            ((costRanking (sampleEngine : PolicyImprovement ℚ).rollouts_ 3).getD r 0)
              default).getCost) ∧
      (∀ i j, i ∈ (costRanking (sampleEngine : PolicyImprovement ℚ).rollouts_ 3).take
            (rolloutCounts 3 2 4 2).num_rollouts_reused.toNat →
          j < (3 : Int).toNat →
          j ∉ (costRanking (sampleEngine : PolicyImprovement ℚ).rollouts_ 3).take
            (rolloutCounts 3 2 4 2).num_rollouts_reused.toNat →
          ((sampleEngine : PolicyImprovement ℚ).rollouts_.getD i default).getCost
            ≤ ((sampleEngine : PolicyImprovement ℚ).rollouts_.getD j default).getCost) :=
  generateRollouts_keeps_cheapest sampleEngine samplePolicy [1] sampleNoise [[3, 4]] rfl rfl
    rfl (by decide) (by decide) (by decide) (by decide) (by decide) (by decide)

end KeptClaims

section Recentre

variable {K : Type} [LinearOrderedField K]

/-- C3: for every rollout `generateRollouts` retains (position `r` of the cost ranking, kept
in pool slot `generated + r`) and every dimension `d`, the projected noisy parameters are
those before the call, the projected noise is their difference to the new mean, the raw
noise is `inv_projection_matrix_[d]` times the projected noise, and the noisy parameters are
the new mean plus the raw noise. -/
theorem generateRollouts_recentres_kept (s : PolicyImprovement K) (policy : Policy K)
    (noise_stddev : List K) (sample : Nat → Nat → Vec K) (parameters : List (Vec K))
    (hinit : s.initialized_ = true) (hdim : noise_stddev.length = s.num_dimensions_)
    (hpol : policy.getParameters = some parameters)
    (hmm : s.min_rollouts_ ≤ s.max_rollouts_)
    (hper0 : 0 ≤ s.num_rollouts_per_iteration_)
    (hper : s.num_rollouts_per_iteration_ ≤ s.max_rollouts_)
    (hn0 : 0 ≤ s.num_rollouts_) (hn : s.num_rollouts_ ≤ s.max_rollouts_)
    (halloc : PoolAllocated s)
    (r : Nat)
    (hr : r < (rolloutCounts s.num_rollouts_ s.min_rollouts_ s.max_rollouts_
      s.num_rollouts_per_iteration_).num_rollouts_reused.toNat)
    (d : Nat) (hd : d < s.num_dimensions_) :
    ∃ t kept, generateRollouts s policy noise_stddev sample = some (true, t) ∧
      t.rollouts_[t.num_rollouts_gen_.toNat + r]? = some kept ∧
      t.parameters_ = parameters ∧
      t.inv_projection_matrix_ = s.inv_projection_matrix_ ∧
      kept.parameters_ = parameters ∧
      kept.parameters_noise_projected_.getD d [] = (s.rollouts_.getD
        ((costRanking s.rollouts_ s.num_rollouts_).getD r 0)
          default).parameters_noise_projected_.getD d [] ∧
      kept.noise_projected_.getD d []
        = vsub (kept.parameters_noise_projected_.getD d []) (t.parameters_.getD d []) ∧
      kept.noise_.getD d []
        = mulVec (t.inv_projection_matrix_.getD d []) (kept.noise_projected_.getD d []) ∧
      kept.parameters_noise_.getD d []
        = vadd (t.parameters_.getD d []) (kept.noise_.getD d []) := by
  obtain ⟨hpool, hscratch, hsized⟩ := halloc
  have hslot := generateRollouts_kept_slot s noise_stddev sample parameters hmm hper0 hper
    hn0 hpool hscratch r hr
  obtain ⟨a, b, c, e, hf⟩ := generateRollouts_frame s noise_stddev sample parameters
  have hgen : (generateNewRollouts (reusedState s parameters) noise_stddev
      sample).num_rollouts_gen_
      = (rolloutCounts s.num_rollouts_ s.min_rollouts_ s.max_rollouts_
          s.num_rollouts_per_iteration_).num_rollouts_gen := by
    rw [hf]; rfl
  have hpar : (generateNewRollouts (reusedState s parameters) noise_stddev
      sample).parameters_ = parameters := by
    rw [hf]; rfl
  have hinv : (generateNewRollouts (reusedState s parameters) noise_stddev
      sample).inv_projection_matrix_ = s.inv_projection_matrix_ := by
    rw [hf]; rfl
  have hb := rolloutCounts_bounds s.num_rollouts_ s.min_rollouts_ s.max_rollouts_
    s.num_rollouts_per_iteration_ hmm hper0 hper hn0
  -- the retained rollout is a rollout of the pool
  have hidx := ranking_getD_lt s.rollouts_ s.num_rollouts_ r (by omega)
  have hlt : (costRanking s.rollouts_ s.num_rollouts_).getD r 0 < s.rollouts_.length := by
    omega
  have hmem : s.rollouts_.getD ((costRanking s.rollouts_ s.num_rollouts_).getD r 0) default
      ∈ s.rollouts_ := by
    rw [List.getD_eq_getElem _ _ hlt]
    exact List.getElem_mem _
  obtain ⟨-, l3, -, l1, l2, -⟩ := hsized _ hmem
  obtain ⟨-, -, f3, f4⟩ := recenter_fields parameters s.inv_projection_matrix_
    s.num_dimensions_
    (s.rollouts_.getD ((costRanking s.rollouts_ s.num_rollouts_).getD r 0) default)
  obtain ⟨n1, n2, n3⟩ := recenter_noise parameters s.inv_projection_matrix_ s.num_dimensions_
    (s.rollouts_.getD ((costRanking s.rollouts_ s.num_rollouts_).getD r 0) default)
    (by omega) (by omega) (by omega) d hd
  refine ⟨_, _, generateRollouts_eq s policy noise_stddev sample parameters hinit hdim hpol,
    ?_, hpar, hinv, f4, ?_, ?_, ?_, ?_⟩
  · rw [hgen]; exact hslot
  · rw [f3]
  · rw [hpar, f3]; exact n1
  · rw [hinv]; exact n2
  · rw [hpar]; exact n3

/-- C3 at the sample engine, for the cheapest rollout and dimension 0. -/
theorem generateRollouts_recentres_kept_witness :
    ∃ t kept, generateRollouts (sampleEngine : PolicyImprovement ℚ) samplePolicy [1]
        sampleNoise = some (true, t) ∧
      t.rollouts_[t.num_rollouts_gen_.toNat + 0]? = some kept ∧
      t.parameters_ = [[3, 4]] ∧
      t.inv_projection_matrix_ = (sampleEngine : PolicyImprovement ℚ).inv_projection_matrix_ ∧
      kept.parameters_ = [[3, 4]] ∧
      kept.parameters_noise_projected_.getD 0 []
        = ((sampleEngine : PolicyImprovement ℚ).rollouts_.getD
            ((costRanking (sampleEngine : PolicyImprovement ℚ).rollouts_ 3).getD 0 0)
              default).parameters_noise_projected_.getD 0 [] ∧
      kept.noise_projected_.getD 0 []
        = vsub (kept.parameters_noise_projected_.getD 0 []) (t.parameters_.getD 0 []) ∧
      kept.noise_.getD 0 []
        = mulVec (t.inv_projection_matrix_.getD 0 []) (kept.noise_projected_.getD 0 []) ∧
      kept.parameters_noise_.getD 0 []
        = vadd (t.parameters_.getD 0 []) (kept.noise_.getD 0 []) :=
  generateRollouts_recentres_kept sampleEngine samplePolicy [1] sampleNoise [[3, 4]] rfl rfl
    rfl (by decide) (by decide) (by decide) (by decide) (by decide) (by decide) 0 (by decide)
    0 (by decide)

end Recentre

/-! ## `setRolloutCosts` -/

section Costs

variable {K : Type} [LinearOrderedField K]

/-- The elements after a loop that updates slot `r` in iteration `r`. -/
theorem getElem?_forLoop_modifyAt {α : Type} (n : Nat) (g : Nat → α → α) (X : List α)
    (j : Nat) :
    (forLoop n (fun r X => modifyAt (g r) r X) X)[j]?
      = if j < n then (X[j]?).map (g j) else X[j]? := by
  induction n with
  | zero => simp [forLoop_zero]
  | succ n ih =>
    rw [forLoop_succ, getElem?_modifyAt, ih]
    by_cases h1 : n = j
    · subst h1
      simp
    · rw [if_neg h1]
      by_cases h2 : j < n
      · rw [if_pos h2, if_pos (by omega)]
      · rw [if_neg h2, if_neg (by omega)]

theorem length_forLoop_modifyAt {α : Type} (n : Nat) (g : Nat → α → α) (X : List α) :
    (forLoop n (fun r X => modifyAt (g r) r X) X).length = X.length := by
  induction n with
  | zero => rfl
  | succ n ih => rw [forLoop_succ, length_modifyAt, ih]

theorem length_resizeList {α : Type} (l : List α) (n : Nat) (fill : α) :
    (resizeList l n fill).length = n := by
  unfold resizeList
  rw [List.length_append, List.length_take, List.length_replicate]
  omega

/-- The sum the loop of `getCost` accumulates. -/
theorem forLoop_sum (l : List (Vec K)) (k : Nat) (hk : k ≤ l.length) :
    forLoop k (fun d cost => cost + vsum (l.getD d [])) 0 = ((l.map vsum).take k).sum := by
  induction k with
  | zero => simp [forLoop_zero]
  | succ k ih =>
    have hk2 : k < l.length := by omega
    have hk3 : k < (l.map vsum).length := by rw [List.length_map]; exact hk2
    rw [forLoop_succ, ih (by omega), List.take_succ, List.getElem?_eq_getElem hk3,
      List.getD_eq_getElem _ _ hk2]
    simp

/-- `getCost` is the sum of all control cost entries plus the sum of the state costs. -/
theorem getCost_eq (ro : Rollout K) :
    ro.getCost = (ro.control_costs_.map List.sum).sum + ro.state_costs_.sum := by
  unfold Rollout.getCost
  dsimp only
  rw [forLoop_sum _ _ (Nat.le_refl _), List.take_of_length_le (by rw [List.length_map])]
  rfl

omit [LinearOrderedField K] in
theorem computeRolloutControlCosts_eq (s : PolicyImprovement K) (policy : Policy K) :
    computeRolloutControlCosts s policy =
    { s with
      rollouts_ := forLoop s.num_rollouts_.toNat
        (fun r X => modifyAt (computeRolloutControlCostsOf s policy) r X) s.rollouts_ } := by
  unfold computeRolloutControlCosts
  exact forLoop_rollouts _ _ _ _ (fun i X => rfl)

omit [LinearOrderedField K] in
theorem setStateCosts_eq (s : PolicyImprovement K) (costs : Mat K) :
    setStateCosts s costs =
    { s with
      rollouts_ := forLoop s.num_rollouts_gen_.toNat
        (fun r X => modifyAt (fun ro => { ro with state_costs_ := costs.getD r [] }) r X)
        s.rollouts_ } := by
  unfold setStateCosts
  exact forLoop_rollouts _ _ _ _ (fun i X => rfl)

theorem length_collectTotalCosts (s : PolicyImprovement K) (old : List K) :
    (collectTotalCosts s old).length = s.num_rollouts_.toNat := by
  unfold collectTotalCosts
  dsimp only
  have h3 : ∀ (n : Nat) (g : Nat → K) (a : List K),
      forLoop n (fun r a => a.set r (g r)) a = forLoop n (fun r a => a.set (0 + r) (g r)) a := by
    intro n g a
    simp only [Nat.zero_add]
  rw [h3, length_forLoop_set, length_resizeList]

theorem getElem?_collectTotalCosts (s : PolicyImprovement K) (old : List K) (r : Nat)
    (hr : r < s.num_rollouts_.toNat) :
    (collectTotalCosts s old)[r]? = some (s.rollouts_.getD r default).getCost := by
  unfold collectTotalCosts
  dsimp only
  have h3 : ∀ (n : Nat) (g : Nat → K) (a : List K),
      forLoop n (fun r a => a.set r (g r)) a = forLoop n (fun r a => a.set (0 + r) (g r)) a := by
    intro n g a
    simp only [Nat.zero_add]
  rw [h3, getElem?_forLoop_set _ _ _ _ _ (by rw [length_resizeList]; omega),
    if_pos (by omega), Nat.sub_zero]

omit [LinearOrderedField K] in
/-- The pool after `setRolloutCosts`. -/
theorem setRolloutCosts_rollouts (s : PolicyImprovement K) (policy : Policy K) (costs : Mat K)
    (w : K) (r : Nat) :
    (setStateCosts (computeRolloutControlCosts { s with control_cost_weight_ := w } policy)
        costs).rollouts_[r]?
      = ((s.rollouts_[r]?).map (fun ro =>
          if r < s.num_rollouts_.toNat then
            computeRolloutControlCostsOf { s with control_cost_weight_ := w } policy ro
          else ro)).map (fun ro =>
          if r < s.num_rollouts_gen_.toNat then { ro with state_costs_ := costs.getD r [] }
          else ro) := by
  rw [setStateCosts_eq, computeRolloutControlCosts_eq]
  dsimp only
  rw [getElem?_forLoop_modifyAt, getElem?_forLoop_modifyAt]
  by_cases h1 : r < s.num_rollouts_.toNat <;> by_cases h2 : r < s.num_rollouts_gen_.toNat <;>
    simp only [h1, h2, if_true, if_false] <;> cases s.rollouts_[r]? <;> rfl

/-- A call of `setRolloutCosts` on an initialized engine returns `true`. -/
theorem setRolloutCosts_eq (s : PolicyImprovement K) (policy : Policy K) (costs : Mat K)
    (w : K) (old : List K) (hinit : s.initialized_ = true) :
    setRolloutCosts s policy costs w old
      = some (true,
          setStateCosts (computeRolloutControlCosts { s with control_cost_weight_ := w } policy)
            costs,
          collectTotalCosts (setStateCosts
            (computeRolloutControlCosts { s with control_cost_weight_ := w } policy) costs)
            old) := by
  simp only [setRolloutCosts, hinit, Bool.true_eq_false, if_false]

/-- C6: `setRolloutCosts` returns a vector with one entry per active rollout; entry `r` is the
sum of all control cost entries of rollout `r` (as the policy has just computed them) plus the
sum of its state cost entries, where the state costs of a rollout `r < generated` are row `r`
of the supplied matrix and those of a reused rollout are left unchanged. -/
theorem setRolloutCosts_total (s : PolicyImprovement K) (policy : Policy K) (costs : Mat K)
    (control_cost_weight : K) (rollout_costs_total : List K)
    (hinit : s.initialized_ = true)
    (hpool : s.num_rollouts_.toNat ≤ s.rollouts_.length)
    (hrows : s.num_rollouts_gen_.toNat ≤ costs.length) :
    ∃ t total, setRolloutCosts s policy costs control_cost_weight rollout_costs_total
        = some (true, t, total) ∧
      total.length = s.num_rollouts_.toNat ∧ t.num_rollouts_ = s.num_rollouts_ ∧
      t.num_rollouts_gen_ = s.num_rollouts_gen_ ∧
      ∀ r, r < s.num_rollouts_.toNat →
        ∃ before after, s.rollouts_[r]? = some before ∧ t.rollouts_[r]? = some after ∧
          after.control_costs_ = policy.computeControlCosts before.parameters_
            before.noise_projected_ control_cost_weight before.control_costs_ ∧
          (r < s.num_rollouts_gen_.toNat → costs[r]? = some after.state_costs_) ∧
          (s.num_rollouts_gen_.toNat ≤ r → after.state_costs_ = before.state_costs_) ∧
          total[r]? = some ((after.control_costs_.map List.sum).sum
            + after.state_costs_.sum) := by
  have hn : (setStateCosts (computeRolloutControlCosts
      { s with control_cost_weight_ := control_cost_weight } policy) costs).num_rollouts_
      = s.num_rollouts_ := by
    rw [setStateCosts_eq, computeRolloutControlCosts_eq]
  have hg : (setStateCosts (computeRolloutControlCosts
      { s with control_cost_weight_ := control_cost_weight } policy) costs).num_rollouts_gen_
      = s.num_rollouts_gen_ := by
    rw [setStateCosts_eq, computeRolloutControlCosts_eq]
  refine ⟨_, _, setRolloutCosts_eq s policy costs control_cost_weight rollout_costs_total
    hinit, ?_, hn, hg, ?_⟩
  · rw [length_collectTotalCosts, hn]
  · intro r hr
    have hr2 : r < s.rollouts_.length := by omega
    have hslot := setRolloutCosts_rollouts s policy costs control_cost_weight r
    simp only [List.getElem?_eq_getElem hr2, Option.map_some', hr, ↓reduceIte] at hslot
    refine ⟨s.rollouts_[r], _, List.getElem?_eq_getElem hr2, hslot, ?_, ?_, ?_, ?_⟩
    · by_cases h : r < s.num_rollouts_gen_.toNat
      · rw [if_pos h]; rfl
      · rw [if_neg h]; rfl
    · intro h
      rw [if_pos h, List.getElem?_eq_getElem (by omega)]
      simp only [List.getD_eq_getElem?_getD,
        List.getElem?_eq_getElem (show r < costs.length by omega), Option.getD_some]
    · intro h
      rw [if_neg (by omega)]
      rfl
    · rw [getElem?_collectTotalCosts _ _ _ (by rw [hn]; exact hr), ← getCost_eq,
        getD_eq_of_getElem? default hslot]

/-- C6 at the sample engine with two rows of state costs. -/
theorem setRolloutCosts_total_witness :
    ∃ t total, setRolloutCosts (sampleEngine : PolicyImprovement ℚ) samplePolicy
        [[1, 0], [0, 1]] 0 [] = some (true, t, total) ∧
      total.length = (3 : Int).toNat ∧ t.num_rollouts_ = 3 ∧ t.num_rollouts_gen_ = 2 ∧
      ∀ r, r < (3 : Int).toNat →
        ∃ before after, (sampleEngine : PolicyImprovement ℚ).rollouts_[r]? = some before ∧
          t.rollouts_[r]? = some after ∧
          after.control_costs_ = (samplePolicy : Policy ℚ).computeControlCosts
            before.parameters_ before.noise_projected_ 0 before.control_costs_ ∧
          (r < (2 : Int).toNat → ([[1, 0], [0, 1]] : Mat ℚ)[r]? = some after.state_costs_) ∧
          ((2 : Int).toNat ≤ r → after.state_costs_ = before.state_costs_) ∧
          total[r]? = some ((after.control_costs_.map List.sum).sum
            + after.state_costs_.sum) :=
  setRolloutCosts_total sampleEngine samplePolicy [[1, 0], [0, 1]] 0 [] rfl (by decide)
    (by decide)

end Costs

/-! ## Noise and projected noise -/

section Noise

variable {K : Type} [LinearOrderedField K]

theorem vsub_vadd_cancel (p n : Vec K) (h : n.length ≤ p.length) : vsub (vadd p n) p = n := by
  induction n generalizing p with
  | nil => simp [vsub, vadd]
  | cons x n ih =>
    cases p with
    | nil => simp at h
    | cons y p =>
      have h2 : n.length ≤ p.length := by simpa using h
      have := ih p h2
      simp only [vsub, vadd] at this
      simp only [vsub, vadd, List.zipWith_cons_cons, this, add_sub_cancel_left]

/-- The noise `computeNoise` stores in every dimension. -/
theorem computeNoise_noise (s : PolicyImprovement K) (ro : Rollout K)
    (h : s.num_dimensions_ ≤ ro.noise_.length) :
    (computeNoise s ro).parameters_ = ro.parameters_ ∧
    (computeNoise s ro).noise_projected_ = ro.noise_projected_ ∧
    (computeNoise s ro).parameters_noise_projected_ = ro.parameters_noise_projected_ ∧
    (computeNoise s ro).noise_.length = ro.noise_.length ∧
    ∀ d, d < s.num_dimensions_ →
      (computeNoise s ro).noise_.getD d []
        = vsub (ro.parameters_noise_.getD d []) (ro.parameters_.getD d []) := by
  have key := forLoop_induct (fun (k : Nat) (x : Rollout K) =>
      x.parameters_ = ro.parameters_ ∧ x.parameters_noise_ = ro.parameters_noise_ ∧
      x.noise_projected_ = ro.noise_projected_ ∧
      x.parameters_noise_projected_ = ro.parameters_noise_projected_ ∧
      x.noise_.length = ro.noise_.length ∧
      ∀ e, e < k → x.noise_.getD e []
        = vsub (ro.parameters_noise_.getD e []) (ro.parameters_.getD e []))
    s.num_dimensions_ (fun d ro =>
      let noise := vsub (ro.parameters_noise_.getD d []) (ro.parameters_.getD d [])
      { ro with noise_ := ro.noise_.set d noise }) ro
    ⟨rfl, rfl, rfl, rfl, rfl, fun e he => absurd he (Nat.not_lt_zero e)⟩ (by
      rintro i x hi ⟨h1, h2, h3, h4, h5, hx⟩
      refine ⟨h1, h2, h3, h4, ?_, ?_⟩
      · simp only [List.length_set, h5]
      · intro e he
        have hi1 : i < x.noise_.length := by omega
        by_cases hei : e = i
        · subst hei
          simp only [List.getD_eq_getElem?_getD, List.getElem?_set_self hi1, Option.getD_some,
            h1, h2]
        · have hne : i ≠ e := fun h => hei h.symm
          have e1 := hx e (by omega)
          simp only [List.getD_eq_getElem?_getD] at e1
          simp only [List.getD_eq_getElem?_getD, List.getElem?_set_ne hne]
          exact e1)
  exact ⟨key.1, key.2.2.1, key.2.2.2.1, key.2.2.2.2.1, key.2.2.2.2.2⟩

/-- The projected noise and the projected noisy parameters `computeProjectedNoise` stores in
every dimension. -/
theorem computeProjectedNoiseOf_projected (s : PolicyImprovement K) (ro : Rollout K)
    (h1 : s.num_dimensions_ ≤ ro.noise_projected_.length)
    (h2 : s.num_dimensions_ ≤ ro.parameters_noise_projected_.length) :
    ∀ d, d < s.num_dimensions_ →
      (computeProjectedNoiseOf s ro).noise_projected_.getD d []
        = mulVec (s.projection_matrix_.getD d []) (ro.noise_.getD d []) ∧
      (computeProjectedNoiseOf s ro).parameters_noise_projected_.getD d []
        = vadd (ro.parameters_.getD d [])
            (mulVec (s.projection_matrix_.getD d []) (ro.noise_.getD d [])) := by
  have key := forLoop_induct (fun (k : Nat) (x : Rollout K) =>
      x.parameters_ = ro.parameters_ ∧ x.noise_ = ro.noise_ ∧
      x.noise_projected_.length = ro.noise_projected_.length ∧
      x.parameters_noise_projected_.length = ro.parameters_noise_projected_.length ∧
      ∀ e, e < k →
        x.noise_projected_.getD e []
          = mulVec (s.projection_matrix_.getD e []) (ro.noise_.getD e []) ∧
        x.parameters_noise_projected_.getD e []
          = vadd (ro.parameters_.getD e [])
              (mulVec (s.projection_matrix_.getD e []) (ro.noise_.getD e [])))
    s.num_dimensions_ (fun d ro =>
      let noise_projected := mulVec (s.projection_matrix_.getD d []) (ro.noise_.getD d [])
      let ro := { ro with noise_projected_ := ro.noise_projected_.set d noise_projected }
      let projected := vadd (ro.parameters_.getD d []) (ro.noise_projected_.getD d [])
      { ro with parameters_noise_projected_ := ro.parameters_noise_projected_.set d projected })
    ro ⟨rfl, rfl, rfl, rfl, fun e he => absurd he (Nat.not_lt_zero e)⟩ (by
      rintro i x hi ⟨p1, p2, l1, l2, hx⟩
      refine ⟨p1, p2, ?_, ?_, ?_⟩
      · simp only [List.length_set, l1]
      · simp only [List.length_set, l2]
      · intro e he
        have hi1 : i < x.noise_projected_.length := by omega
        have hi2 : i < x.parameters_noise_projected_.length := by omega
        by_cases hei : e = i
        · subst hei
          simp only [List.getD_eq_getElem?_getD, List.getElem?_set_self hi1,
            List.getElem?_set_self hi2, Option.getD_some, p1, p2, and_self]
        · have hne : i ≠ e := fun h => hei h.symm
          obtain ⟨e1, e2⟩ := hx e (by omega)
          simp only [List.getD_eq_getElem?_getD] at e1 e2
          simp only [List.getD_eq_getElem?_getD, List.getElem?_set_ne hne]
          exact ⟨e1, e2⟩)
  exact key.2.2.2.2

/-- C8 (round trip): let the noisy parameters of a rollout with mean `p` be set to
`p[d] + n[d]` in every dimension; then `computeNoise` recovers `n[d]`, and
`computeProjectedNoise` after it yields `p[d] + projection_matrix_[d] * n[d]`, the projected
noisy parameters it yields for the rollout with raw noise `n`. -/
theorem computeNoise_computeProjectedNoise_roundtrip (s : PolicyImprovement K)
    (ro : Rollout K) (n : List (Vec K))
    (hnoise : s.num_dimensions_ ≤ ro.noise_.length)
    (hproj : s.num_dimensions_ ≤ ro.noise_projected_.length)
    (hpnp : s.num_dimensions_ ≤ ro.parameters_noise_projected_.length)
    (hp : s.num_dimensions_ ≤ ro.parameters_.length)
    (hn : s.num_dimensions_ ≤ n.length)
    (hsize : ∀ d, d < s.num_dimensions_ →
      (n.getD d []).length = (ro.parameters_.getD d []).length)
    (d : Nat) (hd : d < s.num_dimensions_) :
    (computeNoise s { ro with parameters_noise_ := List.zipWith vadd ro.parameters_ n }).noise_.getD
        d [] = n.getD d [] ∧
    (computeProjectedNoiseOf s (computeNoise s
        { ro with parameters_noise_ := List.zipWith vadd ro.parameters_ n })
      ).parameters_noise_projected_.getD d []
      = vadd (ro.parameters_.getD d []) (mulVec (s.projection_matrix_.getD d []) (n.getD d [])) ∧
    (computeProjectedNoiseOf s (computeNoise s
        { ro with parameters_noise_ := List.zipWith vadd ro.parameters_ n })
      ).parameters_noise_projected_.getD d []
      = (computeProjectedNoiseOf s { ro with noise_ := n }).parameters_noise_projected_.getD
          d [] := by
  obtain ⟨c1, c2, c3, c4, c5⟩ := computeNoise_noise s
    { ro with parameters_noise_ := List.zipWith vadd ro.parameters_ n } hnoise
  have hnd : (computeNoise s
      { ro with parameters_noise_ := List.zipWith vadd ro.parameters_ n }).noise_.getD d []
      = n.getD d [] := by
    rw [c5 d hd]
    have hz : (List.zipWith vadd ro.parameters_ n).getD d []
        = vadd (ro.parameters_.getD d []) (n.getD d []) := by
      have hd1 : d < ro.parameters_.length := by omega
      have hd2 : d < n.length := by omega
      simp only [List.getD_eq_getElem?_getD, List.getElem?_zipWith,
        List.getElem?_eq_getElem hd1, List.getElem?_eq_getElem hd2, Option.getD_some]
    show vsub ((List.zipWith vadd ro.parameters_ n).getD d []) (ro.parameters_.getD d [])
      = n.getD d []
    rw [hz, vsub_vadd_cancel _ _ (le_of_eq (hsize d hd))]
  obtain ⟨-, q2⟩ := computeProjectedNoiseOf_projected s (computeNoise s
    { ro with parameters_noise_ := List.zipWith vadd ro.parameters_ n })
    (by rw [c2]; exact hproj) (by rw [c3]; exact hpnp) d hd
  obtain ⟨-, q4⟩ := computeProjectedNoiseOf_projected s { ro with noise_ := n } hproj hpnp d hd
  refine ⟨hnd, ?_, ?_⟩
  · rw [q2, hnd, c1]
  · rw [q2, q4, hnd, c1]

/-- C8 at a sample rollout with noise `[5, 6]`. -/
theorem computeNoise_computeProjectedNoise_roundtrip_witness :
    (computeNoise (sampleEngine : PolicyImprovement ℚ)
      { (sampleRollout 1 0 : Rollout ℚ) with
        parameters_noise_ := List.zipWith vadd (sampleRollout 1 0 : Rollout ℚ).parameters_
          [[5, 6]] }).noise_.getD 0 [] = ([[5, 6]] : List (Vec ℚ)).getD 0 [] ∧
    (computeProjectedNoiseOf (sampleEngine : PolicyImprovement ℚ)
      (computeNoise (sampleEngine : PolicyImprovement ℚ)
        { (sampleRollout 1 0 : Rollout ℚ) with
          parameters_noise_ := List.zipWith vadd (sampleRollout 1 0 : Rollout ℚ).parameters_
            [[5, 6]] })).parameters_noise_projected_.getD 0 []
      = vadd ((sampleRollout 1 0 : Rollout ℚ).parameters_.getD 0 [])
          (mulVec ((sampleEngine : PolicyImprovement ℚ).projection_matrix_.getD 0 [])
            (([[5, 6]] : List (Vec ℚ)).getD 0 [])) ∧
    (computeProjectedNoiseOf (sampleEngine : PolicyImprovement ℚ)
      (computeNoise (sampleEngine : PolicyImprovement ℚ)
        { (sampleRollout 1 0 : Rollout ℚ) with
          parameters_noise_ := List.zipWith vadd (sampleRollout 1 0 : Rollout ℚ).parameters_
            [[5, 6]] })).parameters_noise_projected_.getD 0 []
      = (computeProjectedNoiseOf (sampleEngine : PolicyImprovement ℚ)
          { (sampleRollout 1 0 : Rollout ℚ) with
            noise_ := [[5, 6]] }).parameters_noise_projected_.getD 0 [] :=
  computeNoise_computeProjectedNoise_roundtrip sampleEngine (sampleRollout 1 0) [[5, 6]]
    (by decide) (by decide) (by decide) (by decide) (by decide) (by decide) 0 (by decide)

end Noise

/-! ## `computeRolloutProbabilities` -/

section Probabilities

variable {K : Type} [LinearOrderedField K]

theorem getD_modifyAt {α : Type} (f : α → α) (i : Nat) (l : List α) (j : Nat) (dflt : α) :
    (modifyAt f i l).getD j dflt
      = if i = j ∧ j < l.length then f (l.getD j dflt) else l.getD j dflt := by
  simp only [List.getD_eq_getElem?_getD, getElem?_modifyAt]
  by_cases h : i = j
  · subst h
    by_cases h2 : i < l.length
    · simp [h2]
    · simp [h2, List.getElem?_eq_none (Nat.le_of_not_lt h2)]
  · simp [h]

/-- Updating a probability leaves the cumulative costs alone. -/
theorem cumCost_modifyProb (f : K → K) (r d t : Nat) (X : List (Rollout K)) (r' d' t' : Nat) :
    cumCost (modifyProb f r d t X) r' d' t' = cumCost X r' d' t' := by
  unfold cumCost modifyProb
  rw [getD_modifyAt]
  split_ifs <;> rfl

omit [LinearOrderedField K] in
/-- Updating a probability leaves the sizes of the probability vectors alone. -/
theorem probLen_modifyProb (f : K → K) (r d t : Nat) (X : List (Rollout K)) (r' d' : Nat) :
    probLen (modifyProb f r d t X) r' d' = probLen X r' d' := by
  unfold probLen modifyProb
  rw [getD_modifyAt]
  split_ifs with h
  · obtain ⟨rfl, -⟩ := h
    dsimp only
    rw [getD_modifyAt]
    split_ifs with h2
    · exact length_modifyAt _ _ _
    · rfl
  · rfl

/-- The probabilities after the update of one of them. -/
theorem probAt_modifyProb (f : K → K) (r d t : Nat) (X : List (Rollout K)) (r' d' t' : Nat) :
    probAt (modifyProb f r d t X) r' d' t'
      = if r' = r ∧ d' = d ∧ t' = t ∧ t < probLen X r d then f (probAt X r d t)
        else probAt X r' d' t' := by
  unfold probAt probLen modifyProb
  rw [getD_modifyAt]
  by_cases h1 : r = r' ∧ r' < X.length
  · obtain ⟨rfl, hr⟩ := h1
    rw [if_pos ⟨rfl, hr⟩]
    dsimp only
    rw [getD_modifyAt]
    by_cases h2 : d = d' ∧ d' < (X.getD r default).probabilities_.length
    · obtain ⟨rfl, hd⟩ := h2
      rw [if_pos ⟨rfl, hd⟩, getD_modifyAt]
      by_cases h3 : t = t' ∧ t' < ((X.getD r default).probabilities_.getD d []).length
      · obtain ⟨rfl, ht⟩ := h3
        rw [if_pos ⟨rfl, ht⟩, if_pos ⟨rfl, rfl, rfl, ht⟩]
      · rw [if_neg h3, if_neg]
        rintro ⟨-, -, rfl, ht⟩
        exact h3 ⟨rfl, ht⟩
    · rw [if_neg h2, if_neg]
      rintro ⟨-, rfl, -, ht⟩
      apply h2
      refine ⟨rfl, ?_⟩
      by_contra hc
      rw [List.getD_eq_default _ _ (Nat.le_of_not_lt hc)] at ht
      exact absurd ht (Nat.not_lt_zero _)
  · rw [if_neg h1, if_neg]
    rintro ⟨rfl, -, -, ht⟩
    apply h1
    refine ⟨rfl, ?_⟩
    by_contra hc
    rw [List.getD_eq_default _ _ (Nat.le_of_not_lt hc)] at ht
    exact absurd ht (Nat.not_lt_zero _)

end Probabilities

section ProbabilityLoops

variable {K : Type} [LinearOrderedField K]

theorem probFrame_refl (s : PolicyImprovement K) : ProbFrame s s :=
  ⟨⟨_, _, rfl⟩, fun _ _ _ => rfl, fun _ _ => rfl⟩

theorem probFrame_trans {s u v : PolicyImprovement K} (h1 : ProbFrame s u)
    (h2 : ProbFrame u v) : ProbFrame s v := by
  obtain ⟨⟨a, w, rfl⟩, c1, l1⟩ := h1
  obtain ⟨⟨a', w', rfl⟩, c2, l2⟩ := h2
  exact ⟨⟨_, _, rfl⟩, fun r d t => (c2 r d t).trans (c1 r d t),
    fun r d => (l2 r d).trans (l1 r d)⟩

theorem probFrame_modifyProb {s u : PolicyImprovement K} (h : ProbFrame s u) (f : K → K)
    (r d t : Nat) : ProbFrame s { u with rollouts_ := modifyProb f r d t u.rollouts_ } := by
  obtain ⟨⟨a, w, rfl⟩, c1, l1⟩ := h
  exact ⟨⟨_, _, rfl⟩, fun r' d' t' => (cumCost_modifyProb _ _ _ _ _ _ _ _).trans (c1 r' d' t'),
    fun r' d' => (probLen_modifyProb _ _ _ _ _ _ _).trans (l1 r' d')⟩

theorem probFrame_num_rollouts {s u : PolicyImprovement K} (h : ProbFrame s u) :
    u.num_rollouts_ = s.num_rollouts_ := by
  obtain ⟨⟨a, w, rfl⟩, -, -⟩ := h
  rfl

/-- The first loop over the rollouts at `(d, t)` stores the unnormalised probabilities of the
active rollouts and returns their sum. -/
theorem computeExponentials_spec (expf : K → K) (d t : Nat) (mn dn : K)
    (s : PolicyImprovement K)
    (hsz : ∀ r, r < s.num_rollouts_.toNat → t < probLen s.rollouts_ r d) :
    ProbFrame s (computeExponentials expf d t mn dn s).1 ∧
    (∀ r' d' t', probAt (computeExponentials expf d t mn dn s).1.rollouts_ r' d' t'
      = if d' = d ∧ t' = t ∧ r' < s.num_rollouts_.toNat then
          expf (-10 * (cumCost s.rollouts_ r' d t - mn) / dn)
        else probAt s.rollouts_ r' d' t') ∧
    (computeExponentials expf d t mn dn s).2
      = ∑ r in Finset.range s.num_rollouts_.toNat,
          expf (-10 * (cumCost s.rollouts_ r d t - mn) / dn) := by
  have key := forLoop_induct (fun (k : Nat) (sp : PolicyImprovement K × K) =>
      ProbFrame s sp.1 ∧
      (∀ r' d' t', probAt sp.1.rollouts_ r' d' t'
        = if d' = d ∧ t' = t ∧ r' < k then expf (-10 * (cumCost s.rollouts_ r' d t - mn) / dn)
          else probAt s.rollouts_ r' d' t') ∧
      sp.2 = ∑ r in Finset.range k, expf (-10 * (cumCost s.rollouts_ r d t - mn) / dn))
    s.num_rollouts_.toNat (fun r (sp : PolicyImprovement K × K) =>
      let p := expf (-10 * (cumCost sp.1.rollouts_ r d t - mn) / dn)
      let pool := modifyProb (fun _ => p) r d t sp.1.rollouts_
      ({ sp.1 with rollouts_ := pool }, sp.2 + probAt pool r d t)) (s, 0)
    ⟨probFrame_refl s, fun r' d' t' => by
        rw [if_neg]; rintro ⟨-, -, h⟩; exact absurd h (Nat.not_lt_zero _), by simp⟩
    (by
      rintro i ⟨u, acc⟩ hi ⟨hf, hp, hacc⟩
      dsimp only at hf hp hacc ⊢
      have hlen : t < probLen u.rollouts_ i d := by rw [hf.2.2]; exact hsz i hi
      have hcum : cumCost u.rollouts_ i d t = cumCost s.rollouts_ i d t := hf.2.1 i d t
      refine ⟨probFrame_modifyProb hf _ _ _ _, ?_, ?_⟩
      · intro r' d' t'
        rw [probAt_modifyProb, hp r' d' t', hcum]
        by_cases h1 : r' = i ∧ d' = d ∧ t' = t
        · obtain ⟨rfl, rfl, rfl⟩ := h1
          rw [if_pos ⟨rfl, rfl, rfl, hlen⟩, if_pos ⟨rfl, rfl, Nat.lt_succ_self _⟩]
        · rw [if_neg (fun h => h1 ⟨h.1, h.2.1, h.2.2.1⟩)]
          by_cases h2 : d' = d ∧ t' = t ∧ r' < i
          · rw [if_pos h2, if_pos ⟨h2.1, h2.2.1, Nat.lt_succ_of_lt h2.2.2⟩]
          · rw [if_neg h2, if_neg]
            rintro ⟨hd, ht, hr⟩
            rcases Nat.lt_succ_iff_lt_or_eq.mp hr with h | h
            · exact h2 ⟨hd, ht, h⟩
            · exact h1 ⟨h, hd, ht⟩
      · rw [probAt_modifyProb, if_pos ⟨rfl, rfl, rfl, hlen⟩, hcum, hacc,
          Finset.sum_range_succ])
  exact key

/-- The second loop over the rollouts at `(d, t)` divides the probabilities of the active
rollouts by `p_sum`. -/
theorem normalizeProbabilities_spec (d t : Nat) (p_sum : K) (s : PolicyImprovement K)
    (hsz : ∀ r, r < s.num_rollouts_.toNat → t < probLen s.rollouts_ r d) :
    ProbFrame s (normalizeProbabilities d t p_sum s) ∧
    (∀ r' d' t', probAt (normalizeProbabilities d t p_sum s).rollouts_ r' d' t'
      = if d' = d ∧ t' = t ∧ r' < s.num_rollouts_.toNat then probAt s.rollouts_ r' d' t' / p_sum
        else probAt s.rollouts_ r' d' t') := by
  have key := forLoop_induct (fun (k : Nat) (u : PolicyImprovement K) =>
      ProbFrame s u ∧
      (∀ r' d' t', probAt u.rollouts_ r' d' t'
        = if d' = d ∧ t' = t ∧ r' < k then probAt s.rollouts_ r' d' t' / p_sum
          else probAt s.rollouts_ r' d' t'))
    s.num_rollouts_.toNat (fun r (s : PolicyImprovement K) =>
      { s with rollouts_ := modifyProb (fun p => p / p_sum) r d t s.rollouts_ }) s
    ⟨probFrame_refl s, fun r' d' t' => by
        rw [if_neg]; rintro ⟨-, -, h⟩; exact absurd h (Nat.not_lt_zero _)⟩
    (by
      rintro i u hi ⟨hf, hp⟩
      have hlen : t < probLen u.rollouts_ i d := by rw [hf.2.2]; exact hsz i hi
      refine ⟨probFrame_modifyProb hf _ _ _ _, ?_⟩
      intro r' d' t'
      dsimp only
      by_cases h1 : r' = i ∧ d' = d ∧ t' = t
      · obtain ⟨rfl, rfl, rfl⟩ := h1
        rw [probAt_modifyProb, if_pos ⟨rfl, rfl, rfl, hlen⟩, hp r' d' t',
          if_neg (fun h => absurd h.2.2 (Nat.lt_irrefl _)),
          if_pos ⟨rfl, rfl, Nat.lt_succ_self _⟩]
      · rw [probAt_modifyProb, if_neg (fun h => h1 ⟨h.1, h.2.1, h.2.2.1⟩), hp r' d' t']
        by_cases h2 : d' = d ∧ t' = t ∧ r' < i
        · rw [if_pos h2, if_pos ⟨h2.1, h2.2.1, Nat.lt_succ_of_lt h2.2.2⟩]
        · rw [if_neg h2, if_neg]
          rintro ⟨hd, ht, hr⟩
          rcases Nat.lt_succ_iff_lt_or_eq.mp hr with h | h
          · exact h2 ⟨hd, ht, h⟩
          · exact h1 ⟨h, hd, ht⟩)
  exact key

/-- One step of `computeRolloutProbabilities`: the probabilities of the active rollouts at
`(d, t)` become the normalised exponential weights; everything else in the pool stays. -/
theorem probabilitiesStep_spec (expf : K → K) (d t : Nat) (s : PolicyImprovement K)
    (hsz : ∀ r, r < s.num_rollouts_.toNat → t < probLen s.rollouts_ r d) :
    ProbFrame s (probabilitiesStep expf d t s) ∧
    (∀ r' d' t', probAt (probabilitiesStep expf d t s).rollouts_ r' d' t'
      = if d' = d ∧ t' = t ∧ r' < s.num_rollouts_.toNat then
          expWeight expf s.rollouts_ s.num_rollouts_ d t r'
            / expSum expf s.rollouts_ s.num_rollouts_ d t
        else probAt s.rollouts_ r' d' t') := by
  have hf0 : ProbFrame s { s with time_step_weights_ := modifyAt (fun w => w.set t
      ((minMaxCost s.rollouts_ s.num_rollouts_ d t).2
        - (minMaxCost s.rollouts_ s.num_rollouts_ d t).1)) d s.time_step_weights_ } :=
    ⟨⟨_, _, rfl⟩, fun _ _ _ => rfl, fun _ _ => rfl⟩
  obtain ⟨a1, a2, a3⟩ := computeExponentials_spec expf d t
    (minMaxCost s.rollouts_ s.num_rollouts_ d t).1
    (clipDenom ((minMaxCost s.rollouts_ s.num_rollouts_ d t).2
        - (minMaxCost s.rollouts_ s.num_rollouts_ d t).1))
    { s with time_step_weights_ := modifyAt (fun w => w.set t
      ((minMaxCost s.rollouts_ s.num_rollouts_ d t).2
        - (minMaxCost s.rollouts_ s.num_rollouts_ d t).1)) d s.time_step_weights_ } hsz
  have hn := probFrame_num_rollouts a1
  obtain ⟨b1, b2⟩ := normalizeProbabilities_spec d t
    (computeExponentials expf d t
      (minMaxCost s.rollouts_ s.num_rollouts_ d t).1
      (clipDenom ((minMaxCost s.rollouts_ s.num_rollouts_ d t).2
        - (minMaxCost s.rollouts_ s.num_rollouts_ d t).1))
      { s with time_step_weights_ := modifyAt (fun w => w.set t
        ((minMaxCost s.rollouts_ s.num_rollouts_ d t).2
          - (minMaxCost s.rollouts_ s.num_rollouts_ d t).1)) d s.time_step_weights_ }).2
    (computeExponentials expf d t
      (minMaxCost s.rollouts_ s.num_rollouts_ d t).1
      (clipDenom ((minMaxCost s.rollouts_ s.num_rollouts_ d t).2
        - (minMaxCost s.rollouts_ s.num_rollouts_ d t).1))
      { s with time_step_weights_ := modifyAt (fun w => w.set t
        ((minMaxCost s.rollouts_ s.num_rollouts_ d t).2
          - (minMaxCost s.rollouts_ s.num_rollouts_ d t).1)) d s.time_step_weights_ }).1
    (by
      intro r hr
      rw [a1.2.2]
      rw [hn] at hr
      exact hsz r hr)
  refine ⟨probFrame_trans hf0 (probFrame_trans a1 b1), ?_⟩
  intro r' d' t'
  have hstep : probabilitiesStep expf d t s = normalizeProbabilities d t _ _ := rfl
  rw [hstep, b2 r' d' t', a2 r' d' t', a3, hn]
  dsimp only
  by_cases h : d' = d ∧ t' = t ∧ r' < s.num_rollouts_.toNat
  · rw [if_pos h, if_pos h, if_pos h]
    obtain ⟨rfl, rfl, -⟩ := h
    rfl
  · rw [if_neg h, if_neg h, if_neg h]

end ProbabilityLoops

section ProbabilitiesAll

variable {K : Type} [LinearOrderedField K]

theorem probFrame_num_time_steps {s u : PolicyImprovement K} (h : ProbFrame s u) :
    u.num_time_steps_ = s.num_time_steps_ := by
  obtain ⟨⟨a, w, rfl⟩, -, -⟩ := h
  rfl

theorem minMaxCost_congr (X Y : List (Rollout K)) (n : Int) (d t : Nat)
    (h : ∀ r d t, cumCost X r d t = cumCost Y r d t) :
    minMaxCost X n d t = minMaxCost Y n d t := by
  simp only [minMaxCost, h]

theorem expWeight_congr (expf : K → K) (X Y : List (Rollout K)) (n : Int) (d t r : Nat)
    (h : ∀ r d t, cumCost X r d t = cumCost Y r d t) :
    expWeight expf X n d t r = expWeight expf Y n d t r := by
  simp only [expWeight, h, minMaxCost_congr X Y n d t h]

theorem expSum_congr (expf : K → K) (X Y : List (Rollout K)) (n : Int) (d t : Nat)
    (h : ∀ r d t, cumCost X r d t = cumCost Y r d t) :
    expSum expf X n d t = expSum expf Y n d t := by
  unfold expSum
  exact Finset.sum_congr rfl (fun r _ => expWeight_congr expf X Y n d t r h)

/-- The loop over the time steps of one dimension. -/
theorem probabilities_inner_spec (expf : K → K) (d : Nat) (s u : PolicyImprovement K)
    (hu : ProbFrame s u)
    (hsz : ∀ r, r < s.num_rollouts_.toNat → s.num_time_steps_ ≤ probLen s.rollouts_ r d) :
    ProbFrame s (forLoop u.num_time_steps_ (fun t s => probabilitiesStep expf d t s) u) ∧
    (∀ r' d' t',
      probAt (forLoop u.num_time_steps_ (fun t s => probabilitiesStep expf d t s) u).rollouts_
          r' d' t'
        = if d' = d ∧ t' < s.num_time_steps_ ∧ r' < s.num_rollouts_.toNat then
            expWeight expf s.rollouts_ s.num_rollouts_ d' t' r'
              / expSum expf s.rollouts_ s.num_rollouts_ d' t'
          else probAt u.rollouts_ r' d' t') := by
  rw [probFrame_num_time_steps hu]
  have key := forLoop_induct (fun (k : Nat) (v : PolicyImprovement K) =>
      ProbFrame s v ∧
      (∀ r' d' t', probAt v.rollouts_ r' d' t'
        = if d' = d ∧ t' < k ∧ r' < s.num_rollouts_.toNat then
            expWeight expf s.rollouts_ s.num_rollouts_ d' t' r'
              / expSum expf s.rollouts_ s.num_rollouts_ d' t'
          else probAt u.rollouts_ r' d' t'))
    s.num_time_steps_ (fun t s => probabilitiesStep expf d t s) u
    ⟨hu, fun r' d' t' => by
        rw [if_neg]; rintro ⟨-, h, -⟩; exact absurd h (Nat.not_lt_zero _)⟩
    (by
      rintro i v hi ⟨hf, hp⟩
      have hn := probFrame_num_rollouts hf
      obtain ⟨s1, s2⟩ := probabilitiesStep_spec expf d i v (by
        intro r hr
        rw [hf.2.2]
        rw [hn] at hr
        exact Nat.lt_of_lt_of_le hi (hsz r hr))
      refine ⟨probFrame_trans hf s1, ?_⟩
      intro r' d' t'
      rw [s2 r' d' t', hp r' d' t', hn, expSum_congr expf _ _ _ _ _ hf.2.1]
      by_cases h1 : d' = d ∧ t' = i ∧ r' < s.num_rollouts_.toNat
      · obtain ⟨rfl, rfl, hr⟩ := h1
        rw [if_pos ⟨rfl, rfl, hr⟩, if_pos ⟨rfl, Nat.lt_succ_self _, hr⟩,
          expWeight_congr expf _ _ _ _ _ _ hf.2.1]
      · rw [if_neg h1]
        by_cases h2 : d' = d ∧ t' < i ∧ r' < s.num_rollouts_.toNat
        · rw [if_pos h2, if_pos ⟨h2.1, Nat.lt_succ_of_lt h2.2.1, h2.2.2⟩]
        · rw [if_neg h2, if_neg]
          rintro ⟨hd, ht, hr⟩
          rcases Nat.lt_succ_iff_lt_or_eq.mp ht with h | h
          · exact h2 ⟨hd, h, hr⟩
          · exact h1 ⟨hd, h, hr⟩)
  exact key

/-- The result of `computeRolloutProbabilities`: at every dimension `d` and time step `t` the
probability of an active rollout is its exponential weight divided by the sum of the weights
of the active rollouts; the cumulative costs are unchanged. -/
theorem computeRolloutProbabilities_spec (expf : K → K) (s : PolicyImprovement K)
    (hsz : ProbabilitiesSized s) :
    ProbFrame s (computeRolloutProbabilities expf s) ∧
    (∀ r' d' t', probAt (computeRolloutProbabilities expf s).rollouts_ r' d' t'
      = if d' < s.num_dimensions_ ∧ t' < s.num_time_steps_ ∧ r' < s.num_rollouts_.toNat then
          expWeight expf s.rollouts_ s.num_rollouts_ d' t' r'
            / expSum expf s.rollouts_ s.num_rollouts_ d' t'
        else probAt s.rollouts_ r' d' t') := by
  have key := forLoop_induct (fun (k : Nat) (v : PolicyImprovement K) =>
      ProbFrame s v ∧
      (∀ r' d' t', probAt v.rollouts_ r' d' t'
        = if d' < k ∧ t' < s.num_time_steps_ ∧ r' < s.num_rollouts_.toNat then
            expWeight expf s.rollouts_ s.num_rollouts_ d' t' r'
              / expSum expf s.rollouts_ s.num_rollouts_ d' t'
          else probAt s.rollouts_ r' d' t'))
    s.num_dimensions_ (fun d s =>
      forLoop s.num_time_steps_ (fun t s => probabilitiesStep expf d t s) s) s
    ⟨probFrame_refl s, fun r' d' t' => by
        rw [if_neg]; rintro ⟨h, -, -⟩; exact absurd h (Nat.not_lt_zero _)⟩
    (by
      rintro i v hi ⟨hf, hp⟩
      obtain ⟨s1, s2⟩ := probabilities_inner_spec expf i s v hf (fun r hr => hsz r hr i hi)
      refine ⟨s1, ?_⟩
      intro r' d' t'
      dsimp only
      rw [s2 r' d' t', hp r' d' t']
      by_cases h1 : d' = i ∧ t' < s.num_time_steps_ ∧ r' < s.num_rollouts_.toNat
      · obtain ⟨rfl, ht, hr⟩ := h1
        rw [if_pos ⟨rfl, ht, hr⟩, if_pos ⟨Nat.lt_succ_self _, ht, hr⟩]
      · rw [if_neg h1]
        by_cases h2 : d' < i ∧ t' < s.num_time_steps_ ∧ r' < s.num_rollouts_.toNat
        · rw [if_pos h2, if_pos ⟨Nat.lt_succ_of_lt h2.1, h2.2.1, h2.2.2⟩]
        · rw [if_neg h2, if_neg]
          rintro ⟨hd, ht, hr⟩
          rcases Nat.lt_succ_iff_lt_or_eq.mp hd with h | h
          · exact h2 ⟨h, ht, hr⟩
          · exact h1 ⟨h, ht, hr⟩)
  exact key

end ProbabilitiesAll

section ProbabilityClaims

variable {K : Type} [LinearOrderedField K]

theorem expSum_pos (expf : K → K) (hpos : ∀ x, 0 < expf x) (X : List (Rollout K)) (n : Int)
    (hn : 0 < n) (d t : Nat) : 0 < expSum expf X n d t := by
  unfold expSum
  apply Finset.sum_pos
  · intro r _
    exact hpos _
  · exact ⟨0, Finset.mem_range.mpr (by omega)⟩

/-- For a positive function `expf` the probabilities of the active rollouts at `(d, t)` are
non-negative and sum to one. -/
theorem probabilities_sum_one (expf : K → K) (hpos : ∀ x, 0 < expf x)
    (s : PolicyImprovement K) (hn : 0 < s.num_rollouts_) (hsz : ProbabilitiesSized s)
    (d t : Nat) (hd : d < s.num_dimensions_) (ht : t < s.num_time_steps_) :
    (∀ r, r < s.num_rollouts_.toNat →
      0 ≤ probAt (computeRolloutProbabilities expf s).rollouts_ r d t) ∧
    ∑ r in Finset.range s.num_rollouts_.toNat,
      probAt (computeRolloutProbabilities expf s).rollouts_ r d t = 1 := by
  obtain ⟨-, hp⟩ := computeRolloutProbabilities_spec expf s hsz
  have hS := expSum_pos expf hpos s.rollouts_ s.num_rollouts_ hn d t
  constructor
  · intro r hr
    rw [hp r d t, if_pos ⟨hd, ht, hr⟩]
    exact div_nonneg (hpos _).le hS.le
  · have h : ∀ r ∈ Finset.range s.num_rollouts_.toNat,
        probAt (computeRolloutProbabilities expf s).rollouts_ r d t
          = expWeight expf s.rollouts_ s.num_rollouts_ d t r
            / expSum expf s.rollouts_ s.num_rollouts_ d t := by
      intro r hr
      rw [hp r d t, if_pos ⟨hd, ht, Finset.mem_range.mp hr⟩]
    rw [Finset.sum_congr rfl h, ← Finset.sum_div]
    exact div_self (ne_of_gt hS)

/-- When all active rollouts have the cumulative cost `c` at `(d, t)`, the search for the
minimum and the maximum finds `c` twice. -/
theorem minMaxCost_of_const (X : List (Rollout K)) (n : Int) (d t : Nat) (c : K)
    (hn : 0 < n) (hall : ∀ r, r < n.toNat → cumCost X r d t = c) :
    minMaxCost X n d t = (c, c) := by
  unfold minMaxCost
  dsimp only
  rw [hall 0 (by omega)]
  have key := forLoop_induct (fun (k : Nat) (mm : K × K) => mm = (c, c)) (n.toNat - 1)
    (fun i (mm : K × K) =>
      if cumCost X (i + 1) d t > (if cumCost X (i + 1) d t < mm.1 then
          (cumCost X (i + 1) d t, mm.2) else mm).2 then
        ((if cumCost X (i + 1) d t < mm.1 then (cumCost X (i + 1) d t, mm.2) else mm).1,
          cumCost X (i + 1) d t)
      else if cumCost X (i + 1) d t < mm.1 then (cumCost X (i + 1) d t, mm.2) else mm)
    (c, c) rfl (by
      rintro i mm hi rfl
      dsimp only
      rw [hall (i + 1) (by omega)]
      simp)
  exact key

/-- With `expf 0 = 1`, equal cumulative costs at `(d, t)` give every active rollout the
probability `1 / num_rollouts_`. -/
theorem probabilities_of_const (expf : K → K) (h0 : expf 0 = 1)
    (s : PolicyImprovement K) (hn : 0 < s.num_rollouts_) (hsz : ProbabilitiesSized s)
    (d t : Nat) (hd : d < s.num_dimensions_) (ht : t < s.num_time_steps_) (c : K)
    (hall : ∀ r, r < s.num_rollouts_.toNat → cumCost s.rollouts_ r d t = c)
    (r : Nat) (hr : r < s.num_rollouts_.toNat) :
    probAt (computeRolloutProbabilities expf s).rollouts_ r d t
      = 1 / (s.num_rollouts_.toNat : K) := by
  obtain ⟨-, hp⟩ := computeRolloutProbabilities_spec expf s hsz
  have hw : ∀ r', r' < s.num_rollouts_.toNat →
      expWeight expf s.rollouts_ s.num_rollouts_ d t r' = 1 := by
    intro r' hr'
    unfold expWeight
    rw [minMaxCost_of_const _ _ _ _ c hn hall, hall r' hr']
    simp only [sub_self, mul_zero, zero_div, h0]
  rw [hp r d t, if_pos ⟨hd, ht, hr⟩, hw r hr]
  unfold expSum
  rw [Finset.sum_congr rfl (fun r' hr' => hw r' (Finset.mem_range.mp hr'))]
  simp

/-- C4: with at least one active rollout, after `computeRolloutProbabilities` (over the reals,
with the real exponential function) the probabilities of the active rollouts at every
dimension `d` and time step `t` are non-negative and sum to 1. -/
theorem computeRolloutProbabilities_sum_one (s : PolicyImprovement ℝ)
    (hn : 0 < s.num_rollouts_) (hsz : ProbabilitiesSized s)
    (d t : Nat) (hd : d < s.num_dimensions_) (ht : t < s.num_time_steps_) :
    (computeRolloutProbabilities Real.exp s).num_rollouts_ = s.num_rollouts_ ∧
    (∀ r, r < s.num_rollouts_.toNat →
      0 ≤ probAt (computeRolloutProbabilities Real.exp s).rollouts_ r d t) ∧
    ∑ r in Finset.range s.num_rollouts_.toNat,
      probAt (computeRolloutProbabilities Real.exp s).rollouts_ r d t = 1 :=
  ⟨probFrame_num_rollouts (computeRolloutProbabilities_spec Real.exp s hsz).1,
    probabilities_sum_one Real.exp Real.exp_pos s hn hsz d t hd ht⟩

/-- C4 at the sample engine, dimension 0 and time step 1. -/
theorem computeRolloutProbabilities_sum_one_witness :
    (computeRolloutProbabilities Real.exp (sampleEngine : PolicyImprovement ℝ)).num_rollouts_
      = (sampleEngine : PolicyImprovement ℝ).num_rollouts_ ∧
    (∀ r, r < (sampleEngine : PolicyImprovement ℝ).num_rollouts_.toNat →
      0 ≤ probAt (computeRolloutProbabilities Real.exp
        (sampleEngine : PolicyImprovement ℝ)).rollouts_ r 0 1) ∧
    ∑ r in Finset.range (sampleEngine : PolicyImprovement ℝ).num_rollouts_.toNat,
      probAt (computeRolloutProbabilities Real.exp
        (sampleEngine : PolicyImprovement ℝ)).rollouts_ r 0 1 = 1 :=
  computeRolloutProbabilities_sum_one sampleEngine (by decide) (by decide) 0 1 (by decide)
    (by decide)

/-- C7: when all active rollouts (at least one) have the same cumulative cost at `(d, t)`,
`computeRolloutProbabilities` (over the reals, with the real exponential function) gives each
of them the probability `1 / active_count` at `(d, t)`. -/
theorem computeRolloutProbabilities_uniform (s : PolicyImprovement ℝ)
    (hn : 0 < s.num_rollouts_) (hsz : ProbabilitiesSized s)
    (d t : Nat) (hd : d < s.num_dimensions_) (ht : t < s.num_time_steps_) (c : ℝ)
    (hall : ∀ r, r < s.num_rollouts_.toNat → cumCost s.rollouts_ r d t = c)
    (r : Nat) (hr : r < s.num_rollouts_.toNat) :
    probAt (computeRolloutProbabilities Real.exp s).rollouts_ r d t
      = 1 / ((computeRolloutProbabilities Real.exp s).num_rollouts_.toNat : ℝ) := by
  rw [probFrame_num_rollouts (computeRolloutProbabilities_spec Real.exp s hsz).1]
  exact probabilities_of_const Real.exp Real.exp_zero s hn hsz d t hd ht c hall r hr

/-- C7 at an engine with three active rollouts of cumulative cost 1 at `(0, 0)`. -/
theorem computeRolloutProbabilities_uniform_witness :
    probAt (computeRolloutProbabilities Real.exp
        (uniformEngine : PolicyImprovement ℝ)).rollouts_ 0 0 0
      = 1 / ((computeRolloutProbabilities Real.exp
          (uniformEngine : PolicyImprovement ℝ)).num_rollouts_.toNat : ℝ) :=
  computeRolloutProbabilities_uniform uniformEngine (by decide) (by decide) 0 0 (by decide)
    (by decide) 1 (by
      intro r hr
      have hr3 : r < 3 := hr
      interval_cases r <;> rfl) 0 (by decide)

end ProbabilityClaims

/-! ## `computeParameterUpdates` -/

section Updates

variable {K : Type} [LinearOrderedField K]

theorem modifyAt_id {α : Type} (i : Nat) (l : List α) : modifyAt (fun a => a) i l = l := by
  induction l generalizing i with
  | nil => simp [modifyAt]
  | cons a l ih =>
    cases i with
    | zero => rfl
    | succ i => simp [modifyAt, ih]

/-- A vector is the list of its entries. -/
theorem eq_map_range_of_getD (l : List K) (T : Nat) (f : Nat → K) (hl : l.length = T)
    (h : ∀ t, t < T → l.getD t 0 = f t) : l = (List.range T).map f := by
  apply List.ext_getElem?
  intro t
  rw [List.getElem?_map]
  by_cases ht : t < T
  · rw [List.getElem?_range ht, List.getElem?_eq_getElem (by omega)]
    have := h t ht
    rw [List.getD_eq_getElem _ _ (by omega)] at this
    simp [this]
  · rw [List.getElem?_eq_none (by omega), List.getElem?_eq_none (by simp; omega)]
    rfl

theorem length_vadd (a b : Vec K) (h : a.length = b.length) : (vadd a b).length = a.length := by
  simp [vadd, h]

theorem length_vmul (a b : Vec K) (h : a.length = b.length) : (vmul a b).length = a.length := by
  simp [vmul, h]

theorem getD_vadd (a b : Vec K) (t : Nat) (ha : t < a.length) (hb : t < b.length) :
    (vadd a b).getD t 0 = a.getD t 0 + b.getD t 0 := by
  simp [vadd, List.getElem?_zipWith, List.getElem?_eq_getElem ha, List.getElem?_eq_getElem hb]

theorem getD_vmul (a b : Vec K) (t : Nat) (ha : t < a.length) (hb : t < b.length) :
    (vmul a b).getD t 0 = a.getD t 0 * b.getD t 0 := by
  simp [vmul, List.getElem?_zipWith, List.getElem?_eq_getElem ha, List.getElem?_eq_getElem hb]

/-- The accumulation loop of `computeParameterUpdates` on row 0: the sum over the rollouts of
the coefficient-wise products. -/
theorem accumulate_row (n T : Nat) (N P : Nat → Vec K)
    (hN : ∀ r, r < n → (N r).length = T) (hP : ∀ r, r < n → (P r).length = T) :
    forLoop n (fun r row => vadd row (vmul (N r) (P r))) (vzero T)
      = (List.range T).map (fun t =>
          ∑ r in Finset.range n, (N r).getD t 0 * (P r).getD t 0) := by
  induction n with
  | zero =>
    rw [forLoop_zero]
    apply eq_map_range_of_getD
    · simp [vzero]
    · intro t ht
      simp [vzero, List.getElem?_replicate, ht]
  | succ n ih =>
    rw [forLoop_succ, ih (fun r hr => hN r (by omega)) (fun r hr => hP r (by omega))]
    have hNn := hN n (Nat.lt_succ_self n)
    have hPn := hP n (Nat.lt_succ_self n)
    have hm : (vmul (N n) (P n)).length = T := by rw [length_vmul _ _ (by omega), hNn]
    apply eq_map_range_of_getD
    · rw [length_vadd _ _ (by simp [hm])]
      simp
    · intro t ht
      rw [getD_vadd _ _ _ (by simp [ht]) (by omega), getD_vmul _ _ _ (by omega) (by omega),
        Finset.sum_range_succ]
      congr 1
      simp [List.getElem?_range ht]

/-- The reweighting loop of `computeParameterUpdates` on row 0: entry `t` is multiplied by the
weight of time step `t`. -/
theorem reweight_row (T : Nat) (w : Nat → K) (row : Vec K) (hrow : row.length = T) :
    forLoop T (fun t row => modifyAt (fun x => x * w t) t row) row
      = (List.range T).map (fun t => row.getD t 0 * w t) := by
  apply eq_map_range_of_getD
  · rw [length_forLoop_modifyAt, hrow]
  · intro t ht
    simp only [List.getD_eq_getElem?_getD, getElem?_forLoop_modifyAt, if_pos ht]
    rw [List.getElem?_eq_getElem (by omega)]
    rfl

end Updates

section UpdateStep

variable {K : Type} [LinearOrderedField K]

/-- The matrix after the accumulation loop: row 0 holds the probability-weighted noise, the
other rows are zero. -/
theorem accumulateUpdates_eq (s : PolicyImprovement K) (d : Nat)
    (hT : 0 < s.num_time_steps_) (hnp : s.num_parameters_.getD d 0 = s.num_time_steps_)
    (hN : ∀ r, r < s.num_rollouts_.toNat →
      (((s.rollouts_.getD r default).noise_).getD d []).length = s.num_time_steps_)
    (hP : ∀ r, r < s.num_rollouts_.toNat → probLen s.rollouts_ r d = s.num_time_steps_) :
    accumulateUpdates s d
      = (List.range s.num_time_steps_).map (fun t => weightedNoise s d t)
        :: List.replicate (s.num_time_steps_ - 1) (vzero s.num_time_steps_) := by
  unfold accumulateUpdates
  dsimp only
  rw [forLoop_modifyAt, hnp]
  obtain ⟨T', hT'⟩ : ∃ T', s.num_time_steps_ = T' + 1 := ⟨s.num_time_steps_ - 1, by omega⟩
  have hz : mzero (K := K) s.num_time_steps_ s.num_time_steps_
      = vzero s.num_time_steps_ :: List.replicate (s.num_time_steps_ - 1)
          (vzero s.num_time_steps_) := by
    unfold mzero
    rw [hT']
    rfl
  rw [hz]
  show _ :: _ = _
  dsimp only
  rw [accumulate_row _ _ (fun r => ((s.rollouts_.getD r default).noise_).getD d [])
    (fun r => ((s.rollouts_.getD r default).probabilities_).getD d []) hN hP]
  rfl

/-- The reweighting loop: row 0 is reweighted, the weights are summed up, and `max_weight` is
the largest of 0 and the weights. -/
theorem reweightUpdates_spec (s : PolicyImprovement K) (d : Nat) (U : Mat K) :
    (reweightUpdates s d U).updates
      = modifyAt (fun row => forLoop s.num_time_steps_
          (fun t row => modifyAt (fun x => x * updateWeight s d t) t row) row) 0 U ∧
    (reweightUpdates s d U).weight_sum
      = ∑ t in Finset.range s.num_time_steps_, updateWeight s d t ∧
    (∀ t, t < s.num_time_steps_ → updateWeight s d t ≤ (reweightUpdates s d U).max_weight) ∧
    ((reweightUpdates s d U).max_weight = 0 ∨
      ∃ t, t < s.num_time_steps_ ∧ (reweightUpdates s d U).max_weight = updateWeight s d t) := by
  have key := forLoop_induct (fun (k : Nat) (w : Reweight K) =>
      w.updates = modifyAt (fun row => forLoop k
          (fun t row => modifyAt (fun x => x * updateWeight s d t) t row) row) 0 U ∧
      w.weight_sum = ∑ t in Finset.range k, updateWeight s d t ∧
      (∀ t, t < k → updateWeight s d t ≤ w.max_weight) ∧
      (w.max_weight = 0 ∨ ∃ t, t < k ∧ w.max_weight = updateWeight s d t))
    s.num_time_steps_ (fun t (w : Reweight K) =>
      let weight := (s.time_step_weights_.getD d []).getD t 0
      let weight_sum := w.weight_sum + weight
      let updates := modifyAt (fun row => modifyAt (fun x => x * weight) t row) 0 w.updates
      let max_weight := if weight > w.max_weight then weight else w.max_weight
      { updates := updates, weight := weight, weight_sum := weight_sum,
        max_weight := max_weight })
    { updates := U, weight := 0, weight_sum := 0, max_weight := 0 }
    ⟨(modifyAt_id 0 U).symm, by simp, fun t ht => absurd ht (Nat.not_lt_zero t), Or.inl rfl⟩
    (by
      rintro i w hi ⟨h1, h2, h3, h4⟩
      refine ⟨?_, ?_, ?_, ?_⟩
      · dsimp only
        rw [h1, modifyAt_modifyAt]
        rfl
      · dsimp only
        rw [h2, Finset.sum_range_succ]
        rfl
      · intro t ht
        dsimp only
        have hw : (s.time_step_weights_.getD d []).getD i 0 = updateWeight s d i := rfl
        rw [hw]
        rcases Nat.lt_succ_iff_lt_or_eq.mp ht with h | h
        · split_ifs with hc
          · exact (h3 t h).trans hc.le
          · exact h3 t h
        · subst h
          split_ifs with hc
          · exact le_refl _
          · exact not_lt.mp hc
      · dsimp only
        have hw : (s.time_step_weights_.getD d []).getD i 0 = updateWeight s d i := rfl
        rw [hw]
        split_ifs with hc
        · exact Or.inr ⟨i, Nat.lt_succ_self i, rfl⟩
        · rcases h4 with h | ⟨t, ht, h⟩
          · exact Or.inl h
          · exact Or.inr ⟨t, Nat.lt_succ_of_lt ht, h⟩)
  exact key

/-- The divisor is `max(max(weight_sum, 1e-6) / T, max_t w[t])`. -/
theorem updateDivisor_eq (T : Nat) (hT : 0 < T) (w : Nat → K) (M : K)
    (hle : ∀ t, t < T → w t ≤ M) (hM : M = 0 ∨ ∃ t, t < T ∧ M = w t) :
    updateDivisor (∑ t in Finset.range T, w t) M T
      = max (max (∑ t in Finset.range T, w t) (1 / 1000000) / (T : K))
          ((Finset.range T).sup' (Finset.nonempty_range_iff.mpr (Nat.pos_iff_ne_zero.mp hT)) w) := by
  have hTK : (0 : K) < (T : K) := Nat.cast_pos.mpr hT
  have hws : (if ∑ t in Finset.range T, w t < 1 / 1000000 then (1 / 1000000 : K)
      else ∑ t in Finset.range T, w t) = max (∑ t in Finset.range T, w t) (1 / 1000000) := by
    split_ifs with h
    · exact (max_eq_right h.le).symm
    · exact (max_eq_left (not_lt.mp h)).symm
  have hpos : (0 : K) < max (∑ t in Finset.range T, w t) (1 / 1000000) / (T : K) :=
    div_pos (lt_max_of_lt_right (by norm_num)) hTK
  unfold updateDivisor
  dsimp only
  rw [hws]
  have hsup_le : (Finset.range T).sup'
      (Finset.nonempty_range_iff.mpr (Nat.pos_iff_ne_zero.mp hT)) w ≤ M :=
    Finset.sup'_le _ _ (fun t ht => hle t (Finset.mem_range.mp ht))
  rcases hM with h0 | ⟨t, ht, hMt⟩
  · -- all weights are at most 0
    rw [h0] at hsup_le ⊢
    rw [if_neg (not_lt.mpr hpos.le), max_eq_left (hsup_le.trans hpos.le)]
  · have hsup : (Finset.range T).sup'
        (Finset.nonempty_range_iff.mpr (Nat.pos_iff_ne_zero.mp hT)) w = M :=
      le_antisymm hsup_le (hMt ▸ Finset.le_sup' w (Finset.mem_range.mpr ht))
    rw [hsup]
    split_ifs with h
    · exact (max_eq_right h.le).symm
    · exact (max_eq_left (not_lt.mp h)).symm

end UpdateStep

section UpdateClaim

variable {K : Type} [LinearOrderedField K]

omit [LinearOrderedField K] in
/-- A loop that only assigns to `parameter_updates_` is a loop on that container. -/
theorem forLoop_parameter_updates (n : Nat)
    (body : Nat → PolicyImprovement K → PolicyImprovement K)
    (G : Nat → List (Mat K) → List (Mat K)) (s : PolicyImprovement K)
    (h : ∀ i X, body i { s with parameter_updates_ := X }
      = { s with parameter_updates_ := G i X }) :
    forLoop n body s = { s with parameter_updates_ := forLoop n G s.parameter_updates_ } := by
  induction n with
  | zero => rfl
  | succ n ih => rw [forLoop_succ, ih, h]; rfl

theorem computeParameterUpdates_eq (s : PolicyImprovement K) :
    computeParameterUpdates s =
    { s with
      parameter_updates_ := forLoop s.num_dimensions_
        (fun d X => X.set (0 + d) (updatesMatrix d s)) s.parameter_updates_ } := by
  unfold computeParameterUpdates
  exact forLoop_parameter_updates _ _ _ _ (fun i X => by
    simp only [parameterUpdatesStep, Nat.zero_add]
    rfl)

/-- The matrix `computeParameterUpdates` stores for dimension `d`. -/
theorem computeParameterUpdates_getD (s : PolicyImprovement K) (d : Nat)
    (hd : d < s.num_dimensions_) (hupd : s.num_dimensions_ ≤ s.parameter_updates_.length) :
    (computeParameterUpdates s).parameter_updates_.getD d [] = updatesMatrix d s := by
  rw [computeParameterUpdates_eq]
  dsimp only
  apply getD_eq_of_getElem?
  rw [getElem?_forLoop_set _ _ _ _ _ (by omega), if_pos (by omega), Nat.sub_zero]

/-- The matrix built for dimension `d`: row 0 is the projected, reweighted update, the other
rows are zero. -/
theorem updatesMatrix_eq (s : PolicyImprovement K) (d : Nat)
    (hT : 0 < s.num_time_steps_) (hnp : s.num_parameters_.getD d 0 = s.num_time_steps_)
    (hN : ∀ r, r < s.num_rollouts_.toNat →
      (((s.rollouts_.getD r default).noise_).getD d []).length = s.num_time_steps_)
    (hP : ∀ r, r < s.num_rollouts_.toNat → probLen s.rollouts_ r d = s.num_time_steps_) :
    updatesMatrix d s
      = mulVec (s.projection_matrix_.getD d [])
          ((List.range s.num_time_steps_).map (fun t =>
            updateWeight s d t * weightedNoise s d t
              / max (max (∑ t in Finset.range s.num_time_steps_, updateWeight s d t)
                      (1 / 1000000) / (s.num_time_steps_ : K))
                  ((Finset.range s.num_time_steps_).sup'
                    (Finset.nonempty_range_iff.mpr (Nat.pos_iff_ne_zero.mp hT))
                    (fun t => updateWeight s d t))))
        :: List.replicate (s.num_time_steps_ - 1) (vzero s.num_time_steps_) := by
  obtain ⟨r1, r2, r3, r4⟩ := reweightUpdates_spec s d (accumulateUpdates s d)
  unfold updatesMatrix
  dsimp only
  rw [r1, r2, updateDivisor_eq _ hT _ _ r3 r4, accumulateUpdates_eq s d hT hnp hN hP]
  show _ :: _ = _
  dsimp only
  congr 2
  rw [reweight_row _ _ _ (by simp)]
  unfold vdiv
  rw [List.map_map]
  apply List.map_congr_left
  intro t ht
  have ht2 : t < s.num_time_steps_ := List.mem_range.mp ht
  simp only [Function.comp, List.getD_eq_getElem?_getD, List.getElem?_map,
    List.getElem?_range ht2, Option.map_some', Option.getD_some]
  rw [mul_comm]

end UpdateClaim

section UpdateRow

variable {K : Type} [LinearOrderedField K]

/-- C5: for a dimension `d` whose parameter count is the number `T` of time steps,
`computeParameterUpdates` stores a `T x T` matrix whose row 0 is `projection_matrix_[d] * u`
with `u[t] = w[t] * (sum over the active rollouts of noise[d][t] * probability[d][t]) /
divisor`, where `w` are the stored update weights and
`divisor = max(max(sum_t w[t], 1e-6) / T, max_t w[t])`; the other rows are zero. -/
theorem computeParameterUpdates_row (s : PolicyImprovement K) (d : Nat)
    (hd : d < s.num_dimensions_) (hT : 0 < s.num_time_steps_)
    (hnp : s.num_parameters_.getD d 0 = s.num_time_steps_)
    (hupd : s.num_dimensions_ ≤ s.parameter_updates_.length)
    (hproj : (s.projection_matrix_.getD d []).length = s.num_time_steps_)
    (hN : ∀ r, r < s.num_rollouts_.toNat →
      (((s.rollouts_.getD r default).noise_).getD d []).length = s.num_time_steps_)
    (hP : ∀ r, r < s.num_rollouts_.toNat → probLen s.rollouts_ r d = s.num_time_steps_) :
    ((computeParameterUpdates s).parameter_updates_.getD d []).length = s.num_time_steps_ ∧
    (∀ i, i < s.num_time_steps_ →
      (((computeParameterUpdates s).parameter_updates_.getD d []).getD i []).length
        = s.num_time_steps_) ∧
    ((computeParameterUpdates s).parameter_updates_.getD d []).getD 0 []
      = mulVec (s.projection_matrix_.getD d [])
          ((List.range s.num_time_steps_).map (fun t =>
            updateWeight s d t * weightedNoise s d t
              / max (max (∑ t in Finset.range s.num_time_steps_, updateWeight s d t)
                      (1 / 1000000) / (s.num_time_steps_ : K))
                  ((Finset.range s.num_time_steps_).sup'
                    (Finset.nonempty_range_iff.mpr (Nat.pos_iff_ne_zero.mp hT))
                    (fun t => updateWeight s d t)))) ∧
    (∀ i, 0 < i → i < s.num_time_steps_ →
      ((computeParameterUpdates s).parameter_updates_.getD d []).getD i []
        = vzero s.num_time_steps_) := by
  rw [computeParameterUpdates_getD s d hd hupd, updatesMatrix_eq s d hT hnp hN hP]
  refine ⟨?_, ?_, rfl, ?_⟩
  · rw [List.length_cons, List.length_replicate]
    omega
  · intro i hi
    cases i with
    | zero =>
      show (mulVec _ _).length = _
      unfold mulVec
      rw [List.length_map, hproj]
    | succ i =>
      simp only [List.getD_eq_getElem?_getD, List.getElem?_cons_succ,
        List.getElem?_replicate, if_pos (show i < s.num_time_steps_ - 1 by omega),
        Option.getD_some]
      simp [vzero]
  · intro i hi0 hi
    cases i with
    | zero => exact absurd hi0 (Nat.lt_irrefl 0)
    | succ i =>
      simp only [List.getD_eq_getElem?_getD, List.getElem?_cons_succ,
        List.getElem?_replicate, if_pos (show i < s.num_time_steps_ - 1 by omega),
        Option.getD_some]

/-- C5 at the sample engine, dimension 0. -/
theorem computeParameterUpdates_row_witness :
    ((computeParameterUpdates (sampleEngine : PolicyImprovement ℚ)).parameter_updates_.getD
      0 []).length = (sampleEngine : PolicyImprovement ℚ).num_time_steps_ ∧
    (∀ i, i < (sampleEngine : PolicyImprovement ℚ).num_time_steps_ →
      (((computeParameterUpdates (sampleEngine : PolicyImprovement ℚ)).parameter_updates_.getD
        0 []).getD i []).length = (sampleEngine : PolicyImprovement ℚ).num_time_steps_) ∧
    ((computeParameterUpdates (sampleEngine : PolicyImprovement ℚ)).parameter_updates_.getD
      0 []).getD 0 []
      = mulVec ((sampleEngine : PolicyImprovement ℚ).projection_matrix_.getD 0 [])
          ((List.range (sampleEngine : PolicyImprovement ℚ).num_time_steps_).map (fun t =>
            updateWeight (sampleEngine : PolicyImprovement ℚ) 0 t
                * weightedNoise (sampleEngine : PolicyImprovement ℚ) 0 t
              / max (max (∑ t in Finset.range (sampleEngine : PolicyImprovement ℚ).num_time_steps_,
                        updateWeight (sampleEngine : PolicyImprovement ℚ) 0 t)
                      (1 / 1000000)
                    / ((sampleEngine : PolicyImprovement ℚ).num_time_steps_ : ℚ))
                  ((Finset.range (sampleEngine : PolicyImprovement ℚ).num_time_steps_).sup'
                    (Finset.nonempty_range_iff.mpr (Nat.pos_iff_ne_zero.mp (by decide)))
                    (fun t => updateWeight (sampleEngine : PolicyImprovement ℚ) 0 t)))) ∧
    (∀ i, 0 < i → i < (sampleEngine : PolicyImprovement ℚ).num_time_steps_ →
      ((computeParameterUpdates (sampleEngine : PolicyImprovement ℚ)).parameter_updates_.getD
        0 []).getD i [] = vzero (sampleEngine : PolicyImprovement ℚ).num_time_steps_) :=
  computeParameterUpdates_row sampleEngine 0 (by decide) (by decide) (by decide) (by decide)
    (by decide) (by decide) (by decide)

end UpdateRow

/-! ## Initialization -/

section Init

variable {K : Type} [LinearOrderedField K]

/-- The pool and the scratch buffer after `setNumRollouts`: `max_rollouts` zero rollouts are
appended to each. -/
theorem setNumRollouts_eq (s : PolicyImprovement K) (mn mx per : Int) :
    setNumRollouts s mn mx per = (true,
      { s with
        min_rollouts_ := mn
        max_rollouts_ := mx
        num_rollouts_per_iteration_ := per
        num_rollouts_ := 0
        num_rollouts_gen_ := 0
        rollouts_ := s.rollouts_ ++ List.replicate mx.toNat
          (zeroRollout s.num_dimensions_ s.num_time_steps_ s.num_parameters_)
        reused_rollouts_ := s.reused_rollouts_ ++ List.replicate mx.toNat
          (zeroRollout s.num_dimensions_ s.num_time_steps_ s.num_parameters_) }) := by
  have h : ∀ (n : Nat) (z : Rollout K) (u : PolicyImprovement K),
      forLoop n (fun _ (s : PolicyImprovement K) =>
        { s with rollouts_ := s.rollouts_ ++ [z],
                 reused_rollouts_ := s.reused_rollouts_ ++ [z] }) u
      = { u with rollouts_ := u.rollouts_ ++ List.replicate n z,
                 reused_rollouts_ := u.reused_rollouts_ ++ List.replicate n z } := by
    intro n z u
    induction n with
    | zero => simp [forLoop_zero]
    | succ n ih =>
      rw [forLoop_succ, ih]
      simp only [List.replicate_succ', List.append_assoc]
  unfold setNumRollouts
  dsimp only
  rw [h]

/-- `preAllocateTempVariables` only assigns to the temporaries. -/
theorem preAllocateTempVariables_frame (s : PolicyImprovement K) :
    ∃ a b c d, preAllocateTempVariables s = (true,
      { s with tmp_noise_ := a, tmp_parameters_ := b, parameter_updates_ := c,
               time_step_weights_ := d }) := by
  unfold preAllocateTempVariables
  dsimp only
  have key := forLoop_preserves (fun u : PolicyImprovement K =>
      ∃ a b c d, u = { s with tmp_noise_ := a, tmp_parameters_ := b, parameter_updates_ := c,
                              time_step_weights_ := d })
    s.num_dimensions_ (fun d (s : PolicyImprovement K) =>
      { s with tmp_noise_ := s.tmp_noise_ ++ [vzero (s.num_parameters_.getD d 0)],
               tmp_parameters_ := s.tmp_parameters_ ++ [vzero (s.num_parameters_.getD d 0)],
               parameter_updates_ := s.parameter_updates_
                 ++ [mzero s.num_time_steps_ (s.num_parameters_.getD d 0)],
               time_step_weights_ := s.time_step_weights_ ++ [vzero s.num_time_steps_] })
    { s with tmp_noise_ := [], tmp_parameters_ := [], parameter_updates_ := [] }
    ⟨_, _, _, _, rfl⟩ (by
      rintro i u - ⟨a, b, c, d, rfl⟩
      exact ⟨_, _, _, _, rfl⟩)
  obtain ⟨a, b, c, d, h⟩ := key
  exact ⟨a, b, c, d, by rw [← h]⟩

/-- `preComputeProjectionMatrices` only assigns to the projection matrices. -/
theorem preComputeProjectionMatrices_frame (inverse : Mat K → Mat K)
    (s : PolicyImprovement K) :
    ∃ a b, preComputeProjectionMatrices inverse s = (true,
      { s with projection_matrix_ := a, inv_projection_matrix_ := b }) := by
  unfold preComputeProjectionMatrices
  dsimp only
  have key := forLoop_preserves (fun u : PolicyImprovement K =>
      ∃ a b, u = { s with projection_matrix_ := a, inv_projection_matrix_ := b })
    s.num_dimensions_ (fun d (s : PolicyImprovement K) =>
      { s with
        projection_matrix_ := s.projection_matrix_.set d
          (normalizeColumns (s.inv_control_costs_.getD d []) (s.num_parameters_.getD d 0))
        inv_projection_matrix_ := s.inv_projection_matrix_.set d
          (inverse ((s.projection_matrix_.set d
            (normalizeColumns (s.inv_control_costs_.getD d [])
              (s.num_parameters_.getD d 0))).getD d [])) })
    { s with
      projection_matrix_ := resizeList s.projection_matrix_ s.num_dimensions_ []
      inv_projection_matrix_ := resizeList s.inv_projection_matrix_ s.num_dimensions_ [] }
    ⟨_, _, rfl⟩ (by
      rintro i u - ⟨a, b, rfl⟩
      exact ⟨_, _, rfl⟩)
  obtain ⟨a, b, h⟩ := key
  exact ⟨a, b, by rw [← h]⟩

omit [LinearOrderedField K] in
/-- The inversion loop of `initialize` only assigns to `inv_control_costs_`. -/
theorem invertControlCosts_frame (inverse : Mat K → Mat K) (s : PolicyImprovement K) :
    ∃ a, forLoop s.num_dimensions_ (fun d (s : PolicyImprovement K) =>
        { s with inv_control_costs_ :=
            s.inv_control_costs_ ++ [inverse (s.control_costs_.getD d [])] }) s
      = { s with inv_control_costs_ := a } := by
  refine forLoop_preserves (fun u : PolicyImprovement K =>
      ∃ a, u = { s with inv_control_costs_ := a }) _ _ _ ⟨_, rfl⟩ ?_
  rintro i u - ⟨a, rfl⟩
  exact ⟨_, rfl⟩

/-- When the policy answers all queries, `initialize` returns `true`, the engine is
initialized and configured as asked, no rollout is active and the pool has grown by
`max_rollouts` zero rollouts. -/
theorem initializeEngine_fields (inverse : Mat K → Mat K) (s : PolicyImprovement K)
    (T : Nat) (mn mx per : Int) (policy : Policy K) (flag : Bool)
    (cc : List (Mat K)) (D : Nat) (np : List Nat) (parameters : List (Vec K))
    (h1 : policy.setNumTimeSteps T = true) (h2 : policy.getControlCosts = some cc)
    (h3 : policy.getNumDimensions = some D) (h4 : policy.getNumParameters = some np)
    (h5 : policy.getBasisFunctions = true) (h6 : policy.getParameters = some parameters) :
    ∃ t, initializeEngine inverse s T mn mx per policy flag = some (true, t) ∧
      t.initialized_ = true ∧ t.num_time_steps_ = T ∧ t.num_dimensions_ = D ∧
      t.num_parameters_ = np ∧ t.min_rollouts_ = mn ∧ t.max_rollouts_ = mx ∧
      t.num_rollouts_per_iteration_ = per ∧ t.num_rollouts_ = 0 ∧ t.num_rollouts_gen_ = 0 ∧
      t.use_cumulative_costs_ = flag ∧
      t.rollouts_ = s.rollouts_ ++ List.replicate mx.toNat (zeroRollout D T np) ∧
      t.reused_rollouts_ = s.reused_rollouts_ ++ List.replicate mx.toNat
        (zeroRollout D T np) := by
  unfold initializeEngine
  simp only [h1, h2, h3, h4, h5, h6, Bool.true_eq_false, if_false]
  obtain ⟨a, ha⟩ := invertControlCosts_frame inverse
    { s with num_time_steps_ := T, use_cumulative_costs_ := flag, control_costs_ := cc,
             num_dimensions_ := D, num_parameters_ := np, parameters_ := parameters,
             inv_control_costs_ := [] }
  dsimp only at ha
  rw [ha, setNumRollouts_eq]
  dsimp only
  obtain ⟨b1, b2, b3, b4, hb⟩ := preAllocateTempVariables_frame
    { s with
      num_time_steps_ := T
      use_cumulative_costs_ := flag
      control_costs_ := cc
      num_dimensions_ := D
      num_parameters_ := np
      parameters_ := parameters
      inv_control_costs_ := a
      min_rollouts_ := mn
      max_rollouts_ := mx
      num_rollouts_per_iteration_ := per
      num_rollouts_ := 0
      num_rollouts_gen_ := 0
      rollouts_ := s.rollouts_ ++ List.replicate mx.toNat (zeroRollout D T np)
      reused_rollouts_ := s.reused_rollouts_ ++ List.replicate mx.toNat (zeroRollout D T np) }
  rw [hb]
  dsimp only
  obtain ⟨c1, c2, hc⟩ := preComputeProjectionMatrices_frame inverse
    { s with
      num_time_steps_ := T
      use_cumulative_costs_ := flag
      control_costs_ := cc
      num_dimensions_ := D
      num_parameters_ := np
      parameters_ := parameters
      inv_control_costs_ := a
      min_rollouts_ := mn
      max_rollouts_ := mx
      num_rollouts_per_iteration_ := per
      num_rollouts_ := 0
      num_rollouts_gen_ := 0
      rollouts_ := s.rollouts_ ++ List.replicate mx.toNat (zeroRollout D T np)
      reused_rollouts_ := s.reused_rollouts_ ++ List.replicate mx.toNat (zeroRollout D T np)
      tmp_noise_ := b1
      tmp_parameters_ := b2
      parameter_updates_ := b3
      time_step_weights_ := b4 }
  rw [hc]
  simp only [Bool.true_eq_false, if_false]
  exact ⟨_, rfl, rfl, rfl, rfl, rfl, rfl, rfl, rfl, rfl, rfl, rfl, rfl, rfl⟩

end Init

/-! ## The first iteration -/

section Scenario

variable {K : Type} [LinearOrderedField K]

theorem map_modifyAt_of_eq {α β : Type} (g : α → β) (f : α → α) (h : ∀ a, g (f a) = g a)
    (i : Nat) (l : List α) : (modifyAt f i l).map g = l.map g := by
  induction l generalizing i with
  | nil => simp [modifyAt]
  | cons a l ih =>
    cases i with
    | zero => simp [modifyAt, h]
    | succ i => simp [modifyAt, ih]

/-- The generation loops assign to `noise_`, `parameters_` and `parameters_noise_` only. -/
theorem generateNewRollouts_evaluated (s : PolicyImprovement K) (noise_stddev : List K)
    (sample : Nat → Nat → Vec K) :
    (generateNewRollouts s noise_stddev sample).rollouts_.map Rollout.evaluated
      = s.rollouts_.map Rollout.evaluated := by
  unfold generateNewRollouts
  refine forLoop_preserves (fun t : PolicyImprovement K =>
    t.rollouts_.map Rollout.evaluated = s.rollouts_.map Rollout.evaluated) _ _ _ rfl ?_
  rintro d t - ht
  refine forLoop_preserves (fun t : PolicyImprovement K =>
    t.rollouts_.map Rollout.evaluated = s.rollouts_.map Rollout.evaluated) _ _ _ ht ?_
  rintro r u - hu
  dsimp only
  refine Eq.trans (map_modifyAt_of_eq _ _ ?_ _ _) hu
  intro a
  rfl

/-- The pool after `computeRolloutCumulativeCosts`. -/
theorem computeRolloutCumulativeCosts_eq (s : PolicyImprovement K) :
    computeRolloutCumulativeCosts s =
    { s with
      rollouts_ := forLoop s.num_rollouts_.toNat (fun r X => modifyAt (fun ro =>
          forLoop s.num_dimensions_
            (cumulativeCostsStep s.use_cumulative_costs_ s.num_time_steps_) ro) r X)
        s.rollouts_ } := by
  unfold computeRolloutCumulativeCosts
  refine forLoop_rollouts _ _ _ s ?_
  intro i X
  rw [forLoop_rollouts s.num_dimensions_ _ (fun d Y =>
    modifyAt (cumulativeCostsStep s.use_cumulative_costs_ s.num_time_steps_ d) i Y) _
    (fun d Y => rfl)]
  dsimp only
  rw [forLoop_modifyAt]

/-- One dimension, two time steps: the cumulative costs of a rollout. -/
theorem cumulativeCosts_two_steps (flag : Bool) (ro : Rollout K) (a0 a1 b0 b1 : K)
    (hs : ro.state_costs_ = [a0, a1]) (hc : ro.control_costs_ = [[b0, b1]])
    (ht : ro.total_costs_.length = 1) (hu : ro.cumulative_costs_.length = 1) :
    (forLoop 1 (cumulativeCostsStep flag 2) ro).cumulative_costs_
      = [[if flag = true then a0 + b0 + (a1 + b1) else a0 + b0, a1 + b1]] ∧
    (forLoop 1 (cumulativeCostsStep flag 2) ro).probabilities_ = ro.probabilities_ := by
  obtain ⟨x, hx⟩ := List.length_eq_one.mp ht
  obtain ⟨y, hy⟩ := List.length_eq_one.mp hu
  cases flag <;>
    simp [forLoop, cumulativeCostsStep, forDown, modifyAt, vadd, hs, hc, hx, hy]

end Scenario

section FirstIteration

variable {K : Type} [LinearOrderedField K]

/-- With two active rollouts the search finds the smaller and the larger cumulative cost. -/
theorem minMaxCost_two (X : List (Rollout K)) (d t : Nat) :
    minMaxCost X 2 d t
      = (min (cumCost X 0 d t) (cumCost X 1 d t), max (cumCost X 0 d t) (cumCost X 1 d t)) := by
  have h2 : (2 : Int).toNat - 1 = 1 := by decide
  unfold minMaxCost
  dsimp only
  rw [h2]
  simp only [forLoop, Nat.zero_add]
  rcases lt_trichotomy (cumCost X 1 d t) (cumCost X 0 d t) with h | h | h
  · simp [h, not_lt.mpr h.le, min_eq_right h.le, max_eq_left h.le]
  · simp [h]
  · simp [h, not_lt.mpr h.le, min_eq_left h.le, max_eq_right h.le]

/-- The first call of `generateRollouts` in the scenario (one dimension, two time steps,
`min_rollouts = 2`, `max_rollouts = 4`, two rollouts per iteration): two rollouts are
generated, none is reused, and the pool still has the cost vectors `initialize` allocated. -/
theorem firstIteration_generate (inverse : Mat K → Mat K)
    (s0 : PolicyImprovement K) (policy : Policy K) (flag : Bool) (noise_stddev : List K)
    (sample : Nat → Nat → Vec K) (cc : List (Mat K)) (parameters : List (Vec K))
    (hfresh : s0.rollouts_ = [])
    (h1 : policy.setNumTimeSteps 2 = true) (h2 : policy.getControlCosts = some cc)
    (h3 : policy.getNumDimensions = some 1) (h4 : policy.getNumParameters = some [2])
    (h5 : policy.getBasisFunctions = true) (h6 : policy.getParameters = some parameters)
    (hdim : noise_stddev.length = 1) :
    ∃ s1 s2,
      initializeEngine inverse s0 2 2 4 2 policy flag = some (true, s1) ∧
      generateRollouts s1 policy noise_stddev sample = some (true, s2) ∧
      (rolloutCounts s1.num_rollouts_ s1.min_rollouts_ s1.max_rollouts_
        s1.num_rollouts_per_iteration_).num_rollouts_reused = 0 ∧
      s2.initialized_ = true ∧ s2.num_rollouts_gen_ = 2 ∧ s2.num_rollouts_ = 2 ∧
      s2.num_dimensions_ = 1 ∧ s2.num_time_steps_ = 2 ∧ s2.use_cumulative_costs_ = flag ∧
      s2.rollouts_.map Rollout.evaluated
        = List.replicate 4 (Rollout.evaluated (zeroRollout 1 2 [2] : Rollout K)) := by
  obtain ⟨s1, e1, i1, i2, i3, i4, i5, i6, i7, i8, i9, i10, i11, -⟩ :=
    initializeEngine_fields inverse s0 2 2 4 2 policy flag cc 1 [2] parameters h1 h2 h3 h4 h5 h6
  have hpool1 : s1.rollouts_ = List.replicate 4 (zeroRollout 1 2 [2]) := by
    rw [i11, hfresh]; rfl
  have e2 := generateRollouts_eq s1 policy noise_stddev sample parameters i1
    (by rw [i3]; exact hdim) h6
  have hcounts : rolloutCounts s1.num_rollouts_ s1.min_rollouts_ s1.max_rollouts_
      s1.num_rollouts_per_iteration_ = ⟨2, 0, 0, 2⟩ := by
    rw [i8, i5, i6, i7]; decide
  have hre : reusedState s1 parameters = countedState s1 parameters := by
    unfold reusedState
    dsimp only
    rw [hcounts, if_neg (by decide)]
  obtain ⟨fa, fb, fc, fd, hf⟩ := generateRollouts_frame s1 noise_stddev sample parameters
  have hev := generateNewRollouts_evaluated (reusedState s1 parameters) noise_stddev sample
  refine ⟨s1, _, e1, e2, by rw [hcounts], ?_, ?_, ?_, ?_, ?_, ?_, ?_⟩
  · rw [hf]; exact i1
  · rw [hf]
    show (rolloutCounts s1.num_rollouts_ s1.min_rollouts_ s1.max_rollouts_
      s1.num_rollouts_per_iteration_).num_rollouts_gen = 2
    rw [hcounts]
  · rw [hf]
    show (rolloutCounts s1.num_rollouts_ s1.min_rollouts_ s1.max_rollouts_
      s1.num_rollouts_per_iteration_).num_rollouts = 2
    rw [hcounts]
  · rw [hf]; exact i3
  · rw [hf]; exact i2
  · rw [hf]; exact i10
  · rw [hev, hre, show (countedState s1 parameters).rollouts_ = s1.rollouts_ from rfl, hpool1,
      List.map_replicate]

/-- The costs `improvePolicy` sees in the scenario: after state costs `[1, 0]` and `[0, 1]`
have been supplied for two fresh rollouts with zero control costs, the cumulative costs at
time step 0 are 1 and 0, or 1 and 1 in cumulative mode. -/
theorem firstIteration_costs (expf : K → K) (s2 : PolicyImprovement K) (policy : Policy K)
    (flag : Bool) (w : K) (old : List K)
    (hzero : ∀ p q x c, policy.computeControlCosts p q x c = [[0, 0]])
    (g1 : s2.initialized_ = true) (g2 : s2.num_rollouts_gen_ = 2) (g3 : s2.num_rollouts_ = 2)
    (g4 : s2.num_dimensions_ = 1) (g5 : s2.num_time_steps_ = 2)
    (g6 : s2.use_cumulative_costs_ = flag)
    (g7 : s2.rollouts_.map Rollout.evaluated
      = List.replicate 4 (Rollout.evaluated (zeroRollout 1 2 [2] : Rollout K))) :
    ∃ s3 total upd u,
      setRolloutCosts s2 policy [[1, 0], [0, 1]] w old = some (true, s3, total) ∧
      improvePolicy expf s3
        = some (true, computeParameterUpdates (computeRolloutProbabilities expf u), upd) ∧
      (computeParameterUpdates (computeRolloutProbabilities expf u)).rollouts_
        = (computeRolloutProbabilities expf u).rollouts_ ∧
      u.num_rollouts_ = 2 ∧ u.num_dimensions_ = 1 ∧ u.num_time_steps_ = 2 ∧
      ProbabilitiesSized u ∧
      cumCost u.rollouts_ 0 0 0 = 1 ∧
      cumCost u.rollouts_ 1 0 0 = (if flag = true then 1 else 0) := by
  -- the state after setRolloutCosts
  obtain ⟨S3, hS3⟩ : ∃ S3, S3 = setStateCosts (computeRolloutControlCosts
      { s2 with control_cost_weight_ := w } policy) [[1, 0], [0, 1]] := ⟨_, rfl⟩
  have e3 : setRolloutCosts s2 policy [[1, 0], [0, 1]] w old
      = some (true, S3, collectTotalCosts S3 old) := by
    rw [hS3]; exact setRolloutCosts_eq s2 policy [[1, 0], [0, 1]] w old g1
  have k1 : S3.initialized_ = true := by
    rw [hS3, setStateCosts_eq, computeRolloutControlCosts_eq]; exact g1
  have k3 : S3.num_rollouts_ = 2 := by
    rw [hS3, setStateCosts_eq, computeRolloutControlCosts_eq]; exact g3
  have k4 : S3.num_dimensions_ = 1 := by
    rw [hS3, setStateCosts_eq, computeRolloutControlCosts_eq]; exact g4
  have k5 : S3.num_time_steps_ = 2 := by
    rw [hS3, setStateCosts_eq, computeRolloutControlCosts_eq]; exact g5
  have k6 : S3.use_cumulative_costs_ = flag := by
    rw [hS3, setStateCosts_eq, computeRolloutControlCosts_eq]; exact g6
  -- its rollouts 0 and 1
  have hslot : ∀ r, r < 2 → ∃ ro, S3.rollouts_[r]? = some ro ∧
      ro.state_costs_ = ([[1, 0], [0, 1]] : Mat K).getD r [] ∧ ro.control_costs_ = [[0, 0]] ∧
      ro.total_costs_ = [[0, 0]] ∧ ro.cumulative_costs_ = [[0, 0]] ∧
      ro.probabilities_ = [[0, 0]] := by
    intro r hr
    have hm : (s2.rollouts_.map Rollout.evaluated)[r]?
        = some (Rollout.evaluated (zeroRollout 1 2 [2] : Rollout K)) := by
      rw [g7, List.getElem?_replicate, if_pos (by omega)]
    rw [List.getElem?_map] at hm
    obtain ⟨ro2, hro2, hev⟩ := Option.map_eq_some'.mp hm
    have hev' : (ro2.parameters_noise_projected_, ro2.noise_projected_, ro2.control_costs_,
        ro2.total_costs_, ro2.cumulative_costs_, ro2.probabilities_, ro2.state_costs_)
        = (([[0, 0]] : List (Vec K)), ([[0, 0]] : List (Vec K)), ([[0, 0]] : List (Vec K)),
            ([[0, 0]] : List (Vec K)), ([[0, 0]] : List (Vec K)), ([[0, 0]] : List (Vec K)),
            ([0, 0] : Vec K)) := hev
    simp only [Prod.mk.injEq] at hev'
    obtain ⟨-, -, -, q4, q5, q6, -⟩ := hev'
    have hs := setRolloutCosts_rollouts s2 policy [[1, 0], [0, 1]] w r
    have hr1 : r < s2.num_rollouts_.toNat := by rw [g3]; exact hr
    have hr2 : r < s2.num_rollouts_gen_.toNat := by rw [g2]; exact hr
    simp only [hro2, Option.map_some', hr1, hr2, ↓reduceIte] at hs
    rw [hS3]
    exact ⟨_, hs, rfl, hzero _ _ _ _, q4, q5, q6⟩
  -- the state after computeRolloutCumulativeCosts
  obtain ⟨U, hU⟩ : ∃ U, U = computeRolloutCumulativeCosts S3 := ⟨_, rfl⟩
  have hn : U.num_rollouts_ = 2 := by
    rw [hU, computeRolloutCumulativeCosts_eq]; exact k3
  have hD : U.num_dimensions_ = 1 := by
    rw [hU, computeRolloutCumulativeCosts_eq]; exact k4
  have hT : U.num_time_steps_ = 2 := by
    rw [hU, computeRolloutCumulativeCosts_eq]; exact k5
  have hu : ∀ r, r < 2 → ∃ ro, U.rollouts_[r]? = some ro ∧
      ro.cumulative_costs_ = [[if flag = true then
          (([[1, 0], [0, 1]] : Mat K).getD r []).getD 0 0 + 0
            + ((([[1, 0], [0, 1]] : Mat K).getD r []).getD 1 0 + 0)
          else (([[1, 0], [0, 1]] : Mat K).getD r []).getD 0 0 + 0,
        (([[1, 0], [0, 1]] : Mat K).getD r []).getD 1 0 + 0]] ∧
      ro.probabilities_ = [[0, 0]] := by
    intro r hr
    obtain ⟨ro, h1, h2, h3, h4, h5, h6⟩ := hslot r hr
    rw [hU, computeRolloutCumulativeCosts_eq]
    dsimp only
    rw [getElem?_forLoop_modifyAt, k3, if_pos (show r < (2 : Int).toNat from hr), h1, k4, k5, k6]
    have hst : ro.state_costs_ = [(([[1, 0], [0, 1]] : Mat K).getD r []).getD 0 0,
        (([[1, 0], [0, 1]] : Mat K).getD r []).getD 1 0] := by
      rw [h2]
      interval_cases r <;> rfl
    obtain ⟨c1, c2⟩ := cumulativeCosts_two_steps flag ro _ _ 0 0 hst h3 (by rw [h4]; rfl)
      (by rw [h5]; rfl)
    exact ⟨_, rfl, c1, c2.trans h6⟩
  refine ⟨S3, collectTotalCosts S3 old,
    (computeParameterUpdates (computeRolloutProbabilities expf U)).parameter_updates_, U, e3,
    ?_, ?_, hn, hD, hT, ?_, ?_, ?_⟩
  · simp only [improvePolicy, k1, Bool.true_eq_false, if_false, hU]
  · rw [computeParameterUpdates_eq]
  · intro r hr d hd
    rw [hn] at hr
    rw [hD] at hd
    rw [hT]
    obtain ⟨ro, h1, -, h3⟩ := hu r hr
    have hd0 : d = 0 := by omega
    subst hd0
    unfold probLen
    rw [getD_eq_of_getElem? default h1, h3]
    exact Nat.le_refl 2
  · obtain ⟨ro, h1, h2, -⟩ := hu 0 (by decide)
    unfold cumCost
    rw [getD_eq_of_getElem? default h1, h2]
    cases flag <;> simp
  · obtain ⟨ro, h1, h2, -⟩ := hu 1 (by decide)
    unfold cumCost
    rw [getD_eq_of_getElem? default h1, h2]
    cases flag <;> simp

end FirstIteration

section FirstIterationClaim

/-- Two active rollouts with cumulative costs 1 and 0 at `(0, 0)`: the cheaper one gets the
probability `1 / (exp(-10) + 1)`. -/
theorem probabilities_one_zero (u : PolicyImprovement ℝ) (hn : u.num_rollouts_ = 2)
    (hD : u.num_dimensions_ = 1) (hT : u.num_time_steps_ = 2) (hsz : ProbabilitiesSized u)
    (c0 : cumCost u.rollouts_ 0 0 0 = 1) (c1 : cumCost u.rollouts_ 1 0 0 = 0) :
    probAt (computeRolloutProbabilities Real.exp u).rollouts_ 1 0 0
      = 1 / (Real.exp (-10) + 1) := by
  obtain ⟨-, hp⟩ := computeRolloutProbabilities_spec Real.exp u hsz
  rw [hp 1 0 0, if_pos ⟨by omega, by omega, by rw [hn]; decide⟩]
  have hmm : minMaxCost u.rollouts_ u.num_rollouts_ 0 0 = (0, 1) := by
    rw [hn, minMaxCost_two, c0, c1]
    simp
  have hclip : clipDenom ((1 : ℝ) - 0) = 1 := by
    unfold clipDenom
    norm_num
  have hw0 : expWeight Real.exp u.rollouts_ u.num_rollouts_ 0 0 0 = Real.exp (-10) := by
    unfold expWeight
    rw [hmm, c0, hclip]
    norm_num
  have hw1 : expWeight Real.exp u.rollouts_ u.num_rollouts_ 0 0 1 = 1 := by
    unfold expWeight
    rw [hmm, c1, hclip]
    norm_num
  have hs : expSum Real.exp u.rollouts_ u.num_rollouts_ 0 0 = Real.exp (-10) + 1 := by
    unfold expSum
    rw [show u.num_rollouts_.toNat = 2 by rw [hn]; rfl, Finset.sum_range_succ,
      Finset.sum_range_one, hw0, hw1]
  rw [hw1, hs]

/-- The probability of the rollout with state costs `[0, 1]` at time step 0 after the first
iteration of the scenario: `1 / (exp(-10) + 1)`, and `1 / 2` in cumulative mode. -/
theorem firstIteration_spec (inverse : Mat ℝ → Mat ℝ)
    (s0 : PolicyImprovement ℝ) (policy : Policy ℝ) (flag : Bool) (noise_stddev : List ℝ)
    (sample : Nat → Nat → Vec ℝ) (w : ℝ) (old : List ℝ)
    (cc : List (Mat ℝ)) (parameters : List (Vec ℝ))
    (hfresh : s0.rollouts_ = [])
    (h1 : policy.setNumTimeSteps 2 = true) (h2 : policy.getControlCosts = some cc)
    (h3 : policy.getNumDimensions = some 1) (h4 : policy.getNumParameters = some [2])
    (h5 : policy.getBasisFunctions = true) (h6 : policy.getParameters = some parameters)
    (hzero : ∀ p q x c, policy.computeControlCosts p q x c = [[0, 0]])
    (hdim : noise_stddev.length = 1) :
    ∃ s1 s2 s3 total s4 upd,
      initializeEngine inverse s0 2 2 4 2 policy flag = some (true, s1) ∧
      generateRollouts s1 policy noise_stddev sample = some (true, s2) ∧
      s2.num_rollouts_gen_ = 2 ∧
      (rolloutCounts s1.num_rollouts_ s1.min_rollouts_ s1.max_rollouts_
        s1.num_rollouts_per_iteration_).num_rollouts_reused = 0 ∧
      s2.num_rollouts_ = 2 ∧
      setRolloutCosts s2 policy [[1, 0], [0, 1]] w old = some (true, s3, total) ∧
      improvePolicy Real.exp s3 = some (true, s4, upd) ∧
      probAt s4.rollouts_ 1 0 0 = (if flag = true then 1 / 2 else 1 / (Real.exp (-10) + 1)) := by
  obtain ⟨s1, s2, e1, e2, hre, g1, g2, g3, g4, g5, g6, g7⟩ :=
    firstIteration_generate inverse s0 policy flag noise_stddev sample cc parameters hfresh
      h1 h2 h3 h4 h5 h6 hdim
  obtain ⟨s3, total, upd, u, e3, e4, hroll, hn, hD, hT, hsz, c0, c1⟩ :=
    firstIteration_costs Real.exp s2 policy flag w old hzero g1 g2 g3 g4 g5 g6 g7
  refine ⟨s1, s2, s3, total, _, upd, e1, e2, g2, hre, g3, e3, e4, ?_⟩
  rw [hroll]
  cases flag with
  | false =>
    rw [if_neg (by decide)]
    rw [if_neg (by decide)] at c1
    exact probabilities_one_zero u hn hD hT hsz c0 c1
  | true =>
    rw [if_pos rfl]
    rw [if_pos rfl] at c1
    have h := probabilities_of_const Real.exp Real.exp_zero u (by rw [hn]; decide) hsz 0 0
      (by omega) (by omega) 1 (by
        intro r hr
        have hr2 : r < 2 := by rw [hn] at hr; exact hr
        interval_cases r
        · exact c0
        · exact c1) 1 (by rw [hn]; decide)
    rw [h, hn]
    norm_num [Int.toNat]

/-- C9 (as amended): in the scenario (1 dimension, 2 parameters = 2 time steps,
`min_rollouts = 2`, `max_rollouts = 4`, 2 rollouts per iteration, zero control costs) the
first `generateRollouts` generates 2 rollouts and reuses none; after the state costs `[1, 0]`
and `[0, 1]` have been supplied and `improvePolicy` has run, the rollout whose state cost at
time step 0 is 0 has a probability above 1/2 at time step 0 when costs are not accumulated,
and exactly 1/2 in cumulative mode. -/
theorem firstIteration_favours_cheaper (inverse : Mat ℝ → Mat ℝ)
    (s0 : PolicyImprovement ℝ) (policy : Policy ℝ) (flag : Bool) (noise_stddev : List ℝ)
    (sample : Nat → Nat → Vec ℝ) (w : ℝ) (old : List ℝ)
    (cc : List (Mat ℝ)) (parameters : List (Vec ℝ))
    (hfresh : s0.rollouts_ = [])
    (h1 : policy.setNumTimeSteps 2 = true) (h2 : policy.getControlCosts = some cc)
    (h3 : policy.getNumDimensions = some 1) (h4 : policy.getNumParameters = some [2])
    (h5 : policy.getBasisFunctions = true) (h6 : policy.getParameters = some parameters)
    (hzero : ∀ p q x c, policy.computeControlCosts p q x c = [[0, 0]])
    (hdim : noise_stddev.length = 1) :
    ∃ s1 s2 s3 total s4 upd,
      initializeEngine inverse s0 2 2 4 2 policy flag = some (true, s1) ∧
      generateRollouts s1 policy noise_stddev sample = some (true, s2) ∧
      s2.num_rollouts_gen_ = 2 ∧
      (rolloutCounts s1.num_rollouts_ s1.min_rollouts_ s1.max_rollouts_
        s1.num_rollouts_per_iteration_).num_rollouts_reused = 0 ∧
      s2.num_rollouts_ = 2 ∧
      setRolloutCosts s2 policy [[1, 0], [0, 1]] w old = some (true, s3, total) ∧
      improvePolicy Real.exp s3 = some (true, s4, upd) ∧
      (flag = false → 1 / 2 < probAt s4.rollouts_ 1 0 0) ∧
      (flag = true → probAt s4.rollouts_ 1 0 0 = 1 / 2) := by
  obtain ⟨s1, s2, s3, total, s4, upd, e1, e2, a1, a2, a3, e3, e4, hp⟩ :=
    firstIteration_spec inverse s0 policy flag noise_stddev sample w old cc parameters hfresh
      h1 h2 h3 h4 h5 h6 hzero hdim
  refine ⟨s1, s2, s3, total, s4, upd, e1, e2, a1, a2, a3, e3, e4, ?_, ?_⟩
  · intro hf
    rw [hp, hf, if_neg (by decide)]
    have hlt : Real.exp (-10) < 1 := Real.exp_lt_one_iff.mpr (by norm_num)
    have hpos : 0 < Real.exp (-10) := Real.exp_pos _
    rw [div_lt_div_iff₀ (by norm_num) (by linarith)]
    linarith
  · intro hf
    rw [hp, hf, if_pos rfl]

/-- C9 (as amended) at a fresh engine with the sample policy, costs not accumulated. -/
theorem firstIteration_favours_cheaper_witness :
    ∃ s1 s2 s3 total s4 upd,
      initializeEngine id (newEngine : PolicyImprovement ℝ) 2 2 4 2 samplePolicy false
        = some (true, s1) ∧
      generateRollouts s1 samplePolicy [1] sampleNoise = some (true, s2) ∧
      s2.num_rollouts_gen_ = 2 ∧
      (rolloutCounts s1.num_rollouts_ s1.min_rollouts_ s1.max_rollouts_
        s1.num_rollouts_per_iteration_).num_rollouts_reused = 0 ∧
      s2.num_rollouts_ = 2 ∧
      setRolloutCosts s2 samplePolicy [[1, 0], [0, 1]] 0 [] = some (true, s3, total) ∧
      improvePolicy Real.exp s3 = some (true, s4, upd) ∧
      (false = false → 1 / 2 < probAt s4.rollouts_ 1 0 0) ∧
      (false = true → probAt s4.rollouts_ 1 0 0 = 1 / 2) :=
  firstIteration_favours_cheaper id newEngine samplePolicy false [1] sampleNoise 0 []
    [[[1, 0], [0, 1]]] [[3, 4]] rfl rfl rfl rfl rfl rfl rfl (fun _ _ _ _ => rfl) rfl

/-- C9 fails as stated: in cumulative mode both rollouts of the scenario have the cumulative
cost 1 at time step 0, and the rollout whose state cost at time step 0 is 0 gets the
probability 1/2, which is not above 1/2. -/
theorem firstIteration_favours_cheaper_counterexample :
    ∃ s1 s2 s3 total s4 upd,
      initializeEngine id (newEngine : PolicyImprovement ℝ) 2 2 4 2 samplePolicy true
        = some (true, s1) ∧
      generateRollouts s1 samplePolicy [1] sampleNoise = some (true, s2) ∧
      s2.num_rollouts_gen_ = 2 ∧
      setRolloutCosts s2 samplePolicy [[1, 0], [0, 1]] 0 [] = some (true, s3, total) ∧
      improvePolicy Real.exp s3 = some (true, s4, upd) ∧
      ¬ (1 / 2 < probAt s4.rollouts_ 1 0 0) := by
  obtain ⟨s1, s2, s3, total, s4, upd, e1, e2, a1, -, -, e3, e4, hp⟩ :=
    firstIteration_spec id newEngine samplePolicy true [1] sampleNoise 0 []
      [[[1, 0], [0, 1]]] [[3, 4]] rfl rfl rfl rfl rfl rfl rfl (fun _ _ _ _ => rfl) rfl
  refine ⟨s1, s2, s3, total, s4, upd, e1, e2, a1, e3, e4, ?_⟩
  rw [hp, if_pos rfl]
  exact lt_irrefl _

end FirstIterationClaim

/-! ## Failed preconditions of `generateRollouts` -/

section Rejects

variable {K : Type} [LinearOrderedField K]

/-- Whenever `generateRollouts` returns, it returns `true`: no path of the function returns
`false`. -/
theorem generateRollouts_returns_true (s : PolicyImprovement K) (policy : Policy K)
    (noise_stddev : List K) (sample : Nat → Nat → Vec K) (b : Bool) (t : PolicyImprovement K)
    (h : generateRollouts s policy noise_stddev sample = some (b, t)) : b = true := by
  unfold generateRollouts at h
  split_ifs at h
  cases hp : policy.getParameters with
  | none => rw [hp] at h; cases h
  | some parameters =>
    rw [hp] at h
    simp only [Option.some.injEq, Prod.mk.injEq] at h
    exact h.1.symm

/-- C11 (amended): when the standard-deviation vector has not one entry per dimension, or the
engine is not initialized, an assertion at the head of `generateRollouts` fails: the call is
aborted before any member is written and returns nothing, in particular no failure value; and
the only value `generateRollouts` ever returns is `true`. -/
theorem generateRollouts_rejects (s : PolicyImprovement K) (policy : Policy K)
    (noise_stddev : List K) (sample : Nat → Nat → Vec K)
    (h : noise_stddev.length ≠ s.num_dimensions_ ∨ s.initialized_ = false) :
    generateRollouts s policy noise_stddev sample = none ∧
    (∀ t, generateRollouts s policy noise_stddev sample ≠ some (false, t)) ∧
    ∀ (s' : PolicyImprovement K) (policy' : Policy K) (noise_stddev' : List K)
      (sample' : Nat → Nat → Vec K) (b : Bool) (t : PolicyImprovement K),
      generateRollouts s' policy' noise_stddev' sample' = some (b, t) → b = true := by
  have hnone : generateRollouts s policy noise_stddev sample = none := by
    unfold generateRollouts
    rcases h with h | h
    · by_cases hi : s.initialized_ = false
      · rw [if_pos hi]
      · rw [if_neg hi, if_pos h]
    · rw [if_pos h]
  refine ⟨hnone, ?_, ?_⟩
  · intro t ht
    rw [hnone] at ht
    cases ht
  · intro s' policy' noise_stddev' sample' b t ht
    exact generateRollouts_returns_true s' policy' noise_stddev' sample' b t ht

/-- C11 (as amended) at the sample engine of one dimension, given two standard deviations. -/
theorem generateRollouts_rejects_witness :
    generateRollouts (sampleEngine : PolicyImprovement ℚ) samplePolicy [1, 1] sampleNoise
      = none ∧
    (∀ t, generateRollouts (sampleEngine : PolicyImprovement ℚ) samplePolicy [1, 1] sampleNoise
      ≠ some (false, t)) ∧
    ∀ (s' : PolicyImprovement ℚ) (policy' : Policy ℚ) (noise_stddev' : List ℚ)
      (sample' : Nat → Nat → Vec ℚ) (b : Bool) (t : PolicyImprovement ℚ),
      generateRollouts s' policy' noise_stddev' sample' = some (b, t) → b = true :=
  generateRollouts_rejects sampleEngine samplePolicy [1, 1] sampleNoise (Or.inl (by decide))

/-- C11 fails as stated: on an engine that is not initialized, and on an initialized engine of
one dimension given two standard deviations, `generateRollouts` returns no failure value (the
call is aborted by the failed assertion). -/
theorem generateRollouts_rejects_counterexample :
    (newEngine : PolicyImprovement ℚ).initialized_ = false ∧
    generateRollouts (newEngine : PolicyImprovement ℚ) samplePolicy [] sampleNoise = none ∧
    (¬ ∃ t, generateRollouts (newEngine : PolicyImprovement ℚ) samplePolicy [] sampleNoise
      = some (false, t)) ∧
    (sampleEngine : PolicyImprovement ℚ).initialized_ = true ∧
    ([1, 1] : List ℚ).length ≠ (sampleEngine : PolicyImprovement ℚ).num_dimensions_ ∧
    generateRollouts (sampleEngine : PolicyImprovement ℚ) samplePolicy [1, 1] sampleNoise
      = none ∧
    ¬ ∃ t, generateRollouts (sampleEngine : PolicyImprovement ℚ) samplePolicy [1, 1]
      sampleNoise = some (false, t) := by
  have h1 : generateRollouts (newEngine : PolicyImprovement ℚ) samplePolicy [] sampleNoise
      = none := rfl
  have h2 : generateRollouts (sampleEngine : PolicyImprovement ℚ) samplePolicy [1, 1]
      sampleNoise = none := rfl
  refine ⟨rfl, h1, ?_, rfl, by decide, h2, ?_⟩
  · rintro ⟨t, ht⟩
    rw [h1] at ht
    cases ht
  · rintro ⟨t, ht⟩
    rw [h2] at ht
    cases ht

end Rejects

/-! ## `initialize` and singular control costs -/

section Singular

variable {K : Type} [LinearOrderedField K]

/-- C12 (amended): `initialize` does not test the control cost matrices: for every policy that
answers the queries and whose control cost matrix of some dimension is singular, `initialize`
returns `true` and sets `initialized_`, whatever the inversion call returns. -/
theorem initializeEngine_singular (inverse : Mat K → Mat K) (s : PolicyImprovement K)
    (T : Nat) (mn mx per : Int) (policy : Policy K) (flag : Bool)
    (cc : List (Mat K)) (D : Nat) (np : List Nat) (parameters : List (Vec K))
    (h1 : policy.setNumTimeSteps T = true) (h2 : policy.getControlCosts = some cc)
    (h3 : policy.getNumDimensions = some D) (h4 : policy.getNumParameters = some np)
    (h5 : policy.getBasisFunctions = true) (h6 : policy.getParameters = some parameters)
    (d : Nat) (_hd : d < D)
    (_hsing : (toMatrix (cc.getD d []) (np.getD d 0)).det = 0) :
    ∃ t, initializeEngine inverse s T mn mx per policy flag = some (true, t) ∧
      t.initialized_ = true := by
  obtain ⟨t, ht, hi, -⟩ :=
    initializeEngine_fields inverse s T mn mx per policy flag cc D np parameters
      h1 h2 h3 h4 h5 h6
  exact ⟨t, ht, hi⟩

/-- C12 (as amended) at a fresh engine and a policy whose control cost matrix has two equal rows. -/
theorem initializeEngine_singular_witness :
    ∃ t, initializeEngine id (newEngine : PolicyImprovement ℚ) 2 2 4 2 singularPolicy false
        = some (true, t) ∧ t.initialized_ = true :=
  initializeEngine_singular id newEngine 2 2 4 2 singularPolicy false [[[1, 1], [1, 1]]] 1 [2]
    [[3, 4]] rfl rfl rfl rfl rfl rfl 0 (by decide)
    (by simp [toMatrix, mcoeff, Matrix.det_fin_two])

/-- C12 fails as stated: the control cost matrix of the policy has two equal rows, its
determinant is 0, and `initialize` returns `true` with `initialized_` set. -/
theorem initializeEngine_singular_counterexample :
    (singularPolicy : Policy ℚ).getControlCosts = some [[[1, 1], [1, 1]]] ∧
    (toMatrix ([[1, 1], [1, 1]] : Mat ℚ) 2).det = 0 ∧
    ∃ t, initializeEngine id (newEngine : PolicyImprovement ℚ) 2 2 4 2 singularPolicy false
        = some (true, t) ∧ t.initialized_ = true := by
  refine ⟨rfl, by simp [toMatrix, mcoeff, Matrix.det_fin_two], ?_⟩
  obtain ⟨t, ht, hi, -⟩ :=
    initializeEngine_fields id (newEngine : PolicyImprovement ℚ) 2 2 4 2 singularPolicy false
      [[[1, 1], [1, 1]]] 1 [2] [[3, 4]] rfl rfl rfl rfl rfl rfl
  exact ⟨t, ht, hi⟩

end Singular

/-! ## The first `generateRollouts` after a reset -/

section AfterReset

variable {K : Type} [LinearOrderedField K]

/-- The counting block with no active rollout: nothing is reused or discarded and
`max(per_iteration, min_rollouts)` rollouts are generated, when this is at most
`max_rollouts`. -/
theorem rolloutCounts_of_none_active (mn mx per : Int) (hle : max per mn ≤ mx) :
    rolloutCounts 0 mn mx per = ⟨max per mn, 0, 0, max per mn⟩ := by
  have h1 : per ≤ mx := le_trans (le_max_left _ _) hle
  have h2 : mn ≤ mx := le_trans (le_max_right _ _) hle
  unfold rolloutCounts
  dsimp only
  by_cases h : 0 + per < mn
  · have hgt : ¬ (0 + (mn - 0) > mx) := by omega
    have : max per mn = mn := max_eq_right (by omega)
    rw [if_pos h]
    dsimp only
    rw [if_neg hgt, this]
    simp
  · have hgt : ¬ (0 + per > mx) := by omega
    have : max per mn = per := max_eq_left (by omega)
    rw [if_neg h]
    dsimp only
    rw [if_neg hgt, this]
    simp

/-- A call of `initialize` that returns has set `initialized_` and the configuration, and left
no rollout active. -/
theorem initializeEngine_success (inverse : Mat K → Mat K) (s : PolicyImprovement K)
    (T : Nat) (mn mx per : Int) (policy : Policy K) (flag : Bool) (b : Bool)
    (t : PolicyImprovement K)
    (h : initializeEngine inverse s T mn mx per policy flag = some (b, t)) :
    b = true ∧ t.initialized_ = true ∧ t.num_rollouts_ = 0 ∧ t.min_rollouts_ = mn ∧
    t.max_rollouts_ = mx ∧ t.num_rollouts_per_iteration_ = per ∧
    policy.getNumDimensions = some t.num_dimensions_ := by
  cases h1 : policy.setNumTimeSteps T with
  | false => simp [initializeEngine, h1] at h
  | true =>
  cases h2 : policy.getControlCosts with
  | none => simp [initializeEngine, h1, h2] at h
  | some cc =>
  cases h3 : policy.getNumDimensions with
  | none => simp [initializeEngine, h1, h2, h3] at h
  | some D =>
  cases h4 : policy.getNumParameters with
  | none => simp [initializeEngine, h1, h2, h3, h4] at h
  | some np =>
  cases h5 : policy.getBasisFunctions with
  | false => simp [initializeEngine, h1, h2, h3, h4, h5] at h
  | true =>
  cases h6 : policy.getParameters with
  | none => simp [initializeEngine, h1, h2, h3, h4, h5, h6] at h
  | some parameters =>
  obtain ⟨t', ht', a1, -, a3, -, a5, a6, a7, a8, -⟩ :=
    initializeEngine_fields inverse s T mn mx per policy flag cc D np parameters
      h1 h2 h3 h4 h5 h6
  rw [ht'] at h
  simp only [Option.some.injEq, Prod.mk.injEq] at h
  obtain ⟨hb, ht⟩ := h
  subst hb ht
  exact ⟨rfl, a1, a8, a5, a6, a7, by rw [a3]⟩

/-- With no active rollout, `generateRollouts` skips the reuse block. -/
theorem generateRollouts_of_none_active (s : PolicyImprovement K) (policy : Policy K)
    (noise_stddev : List K) (sample : Nat → Nat → Vec K) (parameters : List (Vec K))
    (hinit : s.initialized_ = true) (hdim : noise_stddev.length = s.num_dimensions_)
    (hpol : policy.getParameters = some parameters) (hn : s.num_rollouts_ = 0)
    (hle : max s.num_rollouts_per_iteration_ s.min_rollouts_ ≤ s.max_rollouts_) :
    rolloutCounts s.num_rollouts_ s.min_rollouts_ s.max_rollouts_
        s.num_rollouts_per_iteration_
      = ⟨max s.num_rollouts_per_iteration_ s.min_rollouts_, 0, 0,
          max s.num_rollouts_per_iteration_ s.min_rollouts_⟩ ∧
    ∃ t, generateRollouts s policy noise_stddev sample = some (true, t) ∧
      t = generateNewRollouts (countedState s parameters) noise_stddev sample ∧
      t.num_rollouts_gen_ = max s.num_rollouts_per_iteration_ s.min_rollouts_ ∧
      t.num_rollouts_ = max s.num_rollouts_per_iteration_ s.min_rollouts_ := by
  have hc : rolloutCounts s.num_rollouts_ s.min_rollouts_ s.max_rollouts_
        s.num_rollouts_per_iteration_
      = ⟨max s.num_rollouts_per_iteration_ s.min_rollouts_, 0, 0,
          max s.num_rollouts_per_iteration_ s.min_rollouts_⟩ := by
    rw [hn]
    exact rolloutCounts_of_none_active s.min_rollouts_ s.max_rollouts_
      s.num_rollouts_per_iteration_ hle
  refine ⟨hc, _, generateRollouts_eq s policy noise_stddev sample parameters hinit hdim hpol,
    ?_⟩
  have hre : reusedState s parameters = countedState s parameters := by
    unfold reusedState
    dsimp only
    rw [hc]
    simp
  obtain ⟨a, b, c, d, hf⟩ := generateNewRollouts_frame (countedState s parameters) noise_stddev
    sample
  rw [hre]
  refine ⟨rfl, ?_, ?_⟩
  · rw [hf]
    show (rolloutCounts _ _ _ _).num_rollouts_gen = _
    rw [hc]
  · rw [hf]
    show (rolloutCounts _ _ _ _).num_rollouts = _
    rw [hc]

/-- C13: after `clearReusedRollouts`, and likewise after a call of `initialize` that returned,
no rollout is active, and the next `generateRollouts` reuses and discards nothing: it skips
the reuse block, and the number of generated rollouts and the new number of active rollouts
are both `max(per_iteration, min_rollouts)`, provided this is at most `max_rollouts`. -/
theorem generateRollouts_after_reset (inverse : Mat K → Mat K) (s0 : PolicyImprovement K)
    (T : Nat) (mn mx per : Int) (policy0 : Policy K) (flag b0 : Bool)
    (s : PolicyImprovement K) (policy : Policy K)
    (noise_stddev : List K) (sample : Nat → Nat → Vec K) (parameters : List (Vec K))
    (hstart : s = clearReusedRollouts s0 ∨
      initializeEngine inverse s0 T mn mx per policy0 flag = some (b0, s))
    (hinit : s.initialized_ = true) (hdim : noise_stddev.length = s.num_dimensions_)
    (hpol : policy.getParameters = some parameters)
    (hle : max s.num_rollouts_per_iteration_ s.min_rollouts_ ≤ s.max_rollouts_) :
    s.num_rollouts_ = 0 ∧
    rolloutCounts s.num_rollouts_ s.min_rollouts_ s.max_rollouts_
        s.num_rollouts_per_iteration_
      = ⟨max s.num_rollouts_per_iteration_ s.min_rollouts_, 0, 0,
          max s.num_rollouts_per_iteration_ s.min_rollouts_⟩ ∧
    ∃ t, generateRollouts s policy noise_stddev sample = some (true, t) ∧
      t = generateNewRollouts (countedState s parameters) noise_stddev sample ∧
      t.num_rollouts_gen_ = max s.num_rollouts_per_iteration_ s.min_rollouts_ ∧
      t.num_rollouts_ = max s.num_rollouts_per_iteration_ s.min_rollouts_ := by
  have hn : s.num_rollouts_ = 0 := by
    rcases hstart with h | h
    · rw [h]
      rfl
    · exact (initializeEngine_success inverse s0 T mn mx per policy0 flag b0 s h).2.2.1
  exact ⟨hn, generateRollouts_of_none_active s policy noise_stddev sample parameters hinit hdim
    hpol hn hle⟩

/-- C13 at the sample engine after `clearReusedRollouts`: two rollouts are generated. -/
theorem generateRollouts_after_reset_witness :
    (clearReusedRollouts (sampleEngine : PolicyImprovement ℚ)).num_rollouts_ = 0 ∧
    rolloutCounts 0 2 4 2 = ⟨2, 0, 0, 2⟩ ∧
    ∃ t, generateRollouts (clearReusedRollouts (sampleEngine : PolicyImprovement ℚ))
        samplePolicy [1] sampleNoise = some (true, t) ∧
      t = generateNewRollouts
        (countedState (clearReusedRollouts (sampleEngine : PolicyImprovement ℚ)) [[3, 4]])
        [1] sampleNoise ∧
      t.num_rollouts_gen_ = 2 ∧ t.num_rollouts_ = 2 :=
  generateRollouts_after_reset id sampleEngine 0 0 0 0 samplePolicy false false
    (clearReusedRollouts sampleEngine) samplePolicy [1] sampleNoise [[3, 4]] (Or.inl rfl)
    rfl rfl rfl (by decide)

end AfterReset

/-! ## Cumulative costs -/

section CumulativeCosts

variable {K : Type} [LinearOrderedField K]

/-- The cost-to-go loop on a rollout only acts on the vector `cumulative_costs_[d]`. -/
theorem forDown_cumulative (n d : Nat) (ro : Rollout K) :
    forDown n (fun t (ro : Rollout K) =>
        { ro with
          cumulative_costs_ :=
            modifyAt (fun c =>
                modifyAt (fun x => x + (ro.cumulative_costs_.getD d []).getD (t + 1) 0) t c) d
              ro.cumulative_costs_ }) ro
      = { ro with
          cumulative_costs_ :=
            modifyAt (fun c =>
                forDown n (fun t c => modifyAt (fun x => x + c.getD (t + 1) 0) t c) c) d
              ro.cumulative_costs_ } := by
  induction n generalizing ro with
  | zero =>
    show ro = _
    rw [show (fun c : Vec K => forDown 0 (fun t c => modifyAt (fun x => x + c.getD (t + 1) 0) t c)
      c) = fun c => c from rfl, modifyAt_id]
  | succ n ih =>
    show forDown n _ _ = _
    rw [ih]
    dsimp only
    rw [modifyAt_modifyAt, modifyAt_eq_set _ d ro.cumulative_costs_ [],
      modifyAt_eq_set _ d ro.cumulative_costs_ []]
    rfl

/-- The loop `for (t = n-1; t >= 0; --t) c(t) += c(t+1)` leaves in `c(t)` the sum of the
entries `t`, ..., `n` of `c`. -/
theorem getD_forDown_costToGo (n : Nat) (c : Vec K) (t : Nat) :
    (forDown n (fun t c => modifyAt (fun x => x + c.getD (t + 1) 0) t c) c).getD t 0
      = if t ≤ n then ∑ i in Finset.Ico t (n + 1), c.getD i 0 else c.getD t 0 := by
  induction n generalizing c with
  | zero =>
    show c.getD t 0 = _
    by_cases h : t ≤ 0
    · have : t = 0 := by omega
      subst this
      simp
    · rw [if_neg h]
  | succ n ih =>
    show (forDown n _ (modifyAt (fun x => x + c.getD (n + 1) 0) n c)).getD t 0 = _
    rw [ih]
    have hn : (modifyAt (fun x => x + c.getD (n + 1) 0) n c).getD n 0
        = c.getD n 0 + c.getD (n + 1) 0 := by
      rw [getD_modifyAt]
      by_cases hl : n < c.length
      · rw [if_pos ⟨rfl, hl⟩]
      · rw [if_neg (fun h => hl h.2), List.getD_eq_default _ _ (by omega),
          List.getD_eq_default _ _ (by omega)]
        simp
    have hne : ∀ i, i ≠ n → (modifyAt (fun x => x + c.getD (n + 1) 0) n c).getD i 0
        = c.getD i 0 := by
      intro i hi
      rw [getD_modifyAt, if_neg (fun h => hi h.1.symm)]
    by_cases h : t ≤ n
    · rw [if_pos h, if_pos (by omega), Finset.sum_Ico_succ_top h, hn,
        Finset.sum_Ico_succ_top (by omega : t ≤ n + 1), Finset.sum_Ico_succ_top h]
      rw [Finset.sum_congr rfl (fun i hi => hne i (by
        have := (Finset.mem_Ico.mp hi).2
        omega))]
      ring
    · rw [if_neg h, hne t (by omega)]
      by_cases h2 : t ≤ n + 1
      · have : t = n + 1 := by omega
        subst this
        rw [if_pos (le_refl _)]
        simp
      · rw [if_neg h2]

theorem length_forDown_costToGo (n : Nat) (c : Vec K) :
    (forDown n (fun t c => modifyAt (fun x => x + c.getD (t + 1) 0) t c) c).length
      = c.length := by
  induction n generalizing c with
  | zero => rfl
  | succ n ih =>
    show (forDown n _ (modifyAt (fun x => x + c.getD (n + 1) 0) n c)).length = _
    rw [ih, length_modifyAt]

/-- The cost to go: entry `t` is the sum of the entries `t`, ..., `T-1`. -/
theorem getD_costToGo (T : Nat) (c : Vec K) (t : Nat) (ht : t < T) :
    (costToGo T c).getD t 0 = ∑ i in Finset.Ico t T, c.getD i 0 := by
  unfold costToGo
  rw [getD_forDown_costToGo, if_pos (by omega), show T - 1 + 1 = T by omega]

theorem length_costToGo (T : Nat) (c : Vec K) : (costToGo T c).length = c.length :=
  length_forDown_costToGo _ c

/-- The body of the loops of `computeRolloutCumulativeCosts` in closed form. -/
theorem cumulativeCostsStep_eq (flag : Bool) (T d : Nat) (ro : Rollout K)
    (hd : d < ro.total_costs_.length) :
    cumulativeCostsStep flag T d ro
      = { ro with
          total_costs_ := ro.total_costs_.set d (vadd ro.state_costs_ (ro.control_costs_.getD d []))
          cumulative_costs_ := ro.cumulative_costs_.set d
            (if flag = true then costToGo T (vadd ro.state_costs_ (ro.control_costs_.getD d []))
              else vadd ro.state_costs_ (ro.control_costs_.getD d [])) } := by
  have hget : (ro.total_costs_.set d (vadd ro.state_costs_ (ro.control_costs_.getD d []))).getD d []
      = vadd ro.state_costs_ (ro.control_costs_.getD d []) := by
    rw [List.getD_eq_getElem?_getD, List.getElem?_set_self hd]
    rfl
  unfold cumulativeCostsStep
  dsimp only
  rw [hget]
  cases flag with
  | false => rfl
  | true =>
    rw [if_pos rfl, if_pos rfl, forDown_cumulative]
    dsimp only
    rw [modifyAt_set]
    rfl

/-- A loop that assigns to the entries `0`, ..., `n-1` of a container of size `n`. -/
theorem forLoop_set_eq_map {α : Type} (n : Nat) (g : Nat → α) (l : List α)
    (hl : l.length = n) :
    forLoop n (fun d l => l.set d (g d)) l = (List.range n).map g := by
  have hbody : (fun d (l : List α) => l.set d (g d))
      = fun d l => modifyAt (fun _ => g d) d l := by
    funext d l
    rw [modifyAt_eq_set _ d l (g d)]
  rw [hbody]
  apply List.ext_getElem?
  intro j
  rw [getElem?_forLoop_modifyAt, List.getElem?_map]
  by_cases hj : j < n
  · rw [if_pos hj, List.getElem?_range hj, List.getElem?_eq_getElem (by omega)]
    rfl
  · rw [if_neg hj, List.getElem?_eq_none (by omega), List.getElem?_eq_none (by simp; omega)]
    rfl

theorem length_forLoop_set_index {α : Type} (n : Nat) (g : Nat → α) (l : List α) :
    (forLoop n (fun d l => l.set d (g d)) l).length = l.length := by
  induction n with
  | zero => rfl
  | succ n ih => rw [forLoop_succ, List.length_set, ih]

/-- The loop over the dimensions of `computeRolloutCumulativeCosts` on one rollout, in closed
form: the total and the cumulative costs are computed from the state and the control costs
alone. -/
theorem cumulativeCosts_rollout_eq (flag : Bool) (T D : Nat) (ro : Rollout K)
    (h1 : ro.total_costs_.length = D) (h2 : ro.cumulative_costs_.length = D) :
    forLoop D (cumulativeCostsStep flag T) ro
      = { ro with
          total_costs_ := (List.range D).map (fun d =>
            vadd ro.state_costs_ (ro.control_costs_.getD d []))
          cumulative_costs_ := (List.range D).map (fun d =>
            if flag = true then costToGo T (vadd ro.state_costs_ (ro.control_costs_.getD d []))
            else vadd ro.state_costs_ (ro.control_costs_.getD d [])) } := by
  have key := forLoop_induct (fun k (u : Rollout K) => u =
      { ro with
        total_costs_ := forLoop k (fun d l => l.set d
          (vadd ro.state_costs_ (ro.control_costs_.getD d []))) ro.total_costs_
        cumulative_costs_ := forLoop k (fun d l => l.set d
          (if flag = true then costToGo T (vadd ro.state_costs_ (ro.control_costs_.getD d []))
            else vadd ro.state_costs_ (ro.control_costs_.getD d []))) ro.cumulative_costs_ })
    D (cumulativeCostsStep flag T) ro rfl (by
      intro i u hi hu
      rw [hu, cumulativeCostsStep_eq]
      · rfl
      · dsimp only
        rw [length_forLoop_set_index]
        omega)
  rw [key, forLoop_set_eq_map _ _ _ h1, forLoop_set_eq_map _ _ _ h2]

/-- Two pools on which a loop `for r < n: X[r] = F(X[r])` has the same effect. -/
theorem forLoop_modifyAt_congr {α : Type} (n : Nat) (F : α → α) (X Y : List α)
    (h : ∀ j, (if j < n then (Y[j]?).map F else Y[j]?)
      = (if j < n then (X[j]?).map F else X[j]?)) :
    forLoop n (fun r Z => modifyAt F r Z) Y = forLoop n (fun r Z => modifyAt F r Z) X := by
  apply List.ext_getElem?
  intro j
  rw [getElem?_forLoop_modifyAt n (fun _ => F), getElem?_forLoop_modifyAt n (fun _ => F)]
  exact h j

theorem getD_map_range {α : Type} (D : Nat) (f : Nat → α) (d : Nat) (hd : d < D) (dflt : α) :
    ((List.range D).map f).getD d dflt = f d := by
  simp [List.getD_eq_getElem?_getD, List.getElem?_map, List.getElem?_range hd]

/-- C14: `computeRolloutCumulativeCosts` stores, for every active rollout, dimension `d` and
time step `t`, `total_cost[d][t] = state_cost[t] + control_cost[d][t]`; with cumulative costs
switched on `cumulative_cost[d][t]` is the sum of `total_cost[d][i]` over `i = t .. T-1`, and
otherwise it is `total_cost[d][t]`. The result does not depend on the previous cumulative
costs: running the operation twice gives the same state as running it once, and so does
overwriting the cumulative costs of the active rollouts before the call. -/
theorem computeRolloutCumulativeCosts_costs (s : PolicyImprovement K) (np : List Nat)
    (hpool : s.num_rollouts_.toNat ≤ s.rollouts_.length)
    (hsz : ∀ r, r < s.num_rollouts_.toNat →
      (s.rollouts_.getD r default).Sized s.num_dimensions_ s.num_time_steps_ np)
    (junk : Nat → List (Vec K)) (hjunk : ∀ r, (junk r).length = s.num_dimensions_)
    (r d t : Nat) (hr : r < s.num_rollouts_.toNat) (hd : d < s.num_dimensions_)
    (ht : t < s.num_time_steps_) :
    (∃ before after, s.rollouts_[r]? = some before ∧
      (computeRolloutCumulativeCosts s).rollouts_[r]? = some after ∧
      after.state_costs_ = before.state_costs_ ∧
      after.control_costs_ = before.control_costs_ ∧
      (after.total_costs_.getD d []).getD t 0
        = before.state_costs_.getD t 0 + (before.control_costs_.getD d []).getD t 0 ∧
      (s.use_cumulative_costs_ = true →
        (after.cumulative_costs_.getD d []).getD t 0
          = ∑ i in Finset.Ico t s.num_time_steps_, (after.total_costs_.getD d []).getD i 0) ∧
      (s.use_cumulative_costs_ = false →
        (after.cumulative_costs_.getD d []).getD t 0
          = (after.total_costs_.getD d []).getD t 0)) ∧
    computeRolloutCumulativeCosts (computeRolloutCumulativeCosts s)
      = computeRolloutCumulativeCosts s ∧
    computeRolloutCumulativeCosts (overwriteCumulativeCosts s junk)
      = computeRolloutCumulativeCosts s := by
  have hgetr : ∀ j, j < s.num_rollouts_.toNat →
      s.rollouts_[j]? = some (s.rollouts_.getD j default) := by
    intro j hj
    have hlen : j < s.rollouts_.length := by omega
    rw [List.getD_eq_getElem _ _ hlen, List.getElem?_eq_getElem hlen]
  have hF : ∀ j, j < s.num_rollouts_.toNat →
      forLoop s.num_dimensions_
          (cumulativeCostsStep s.use_cumulative_costs_ s.num_time_steps_)
          (s.rollouts_.getD j default)
        = { s.rollouts_.getD j default with
            total_costs_ := (List.range s.num_dimensions_).map (fun d =>
              vadd (s.rollouts_.getD j default).state_costs_
                ((s.rollouts_.getD j default).control_costs_.getD d []))
            cumulative_costs_ := (List.range s.num_dimensions_).map (fun d =>
              if s.use_cumulative_costs_ = true then
                costToGo s.num_time_steps_ (vadd (s.rollouts_.getD j default).state_costs_
                  ((s.rollouts_.getD j default).control_costs_.getD d []))
              else vadd (s.rollouts_.getD j default).state_costs_
                ((s.rollouts_.getD j default).control_costs_.getD d [])) } := by
    intro j hj
    obtain ⟨-, -, -, -, -, -, ht1, ht2, -⟩ := hsz j hj
    exact cumulativeCosts_rollout_eq _ _ _ _ ht1 ht2
  refine ⟨?_, ?_, ?_⟩
  · obtain ⟨-, -, -, -, -, -, -, -, -, hs, hvec⟩ := hsz r hr
    obtain ⟨-, -, -, -, -, hc, -⟩ := hvec d hd
    have hafter : (computeRolloutCumulativeCosts s).rollouts_[r]?
        = some (forLoop s.num_dimensions_
          (cumulativeCostsStep s.use_cumulative_costs_ s.num_time_steps_)
          (s.rollouts_.getD r default)) := by
      rw [computeRolloutCumulativeCosts_eq]
      dsimp only
      rw [getElem?_forLoop_modifyAt, if_pos hr, hgetr r hr, Option.map_some']
    refine ⟨s.rollouts_.getD r default, _, hgetr r hr, hafter, ?_⟩
    have hlen : (vadd (s.rollouts_.getD r default).state_costs_
        ((s.rollouts_.getD r default).control_costs_.getD d [])).length
        = s.num_time_steps_ := by
      rw [length_vadd _ _ (by rw [hs, hc]), hs]
    have hent : ∀ i, i < s.num_time_steps_ →
        (vadd (s.rollouts_.getD r default).state_costs_
          ((s.rollouts_.getD r default).control_costs_.getD d [])).getD i 0
        = (s.rollouts_.getD r default).state_costs_.getD i 0
          + ((s.rollouts_.getD r default).control_costs_.getD d []).getD i 0 := by
      intro i hi
      exact getD_vadd _ _ i (by omega) (by omega)
    rw [hF r hr]
    dsimp only
    rw [getD_map_range _ _ _ hd, getD_map_range _ _ _ hd]
    refine ⟨rfl, rfl, hent t ht, ?_, ?_⟩
    · intro hflag
      rw [if_pos hflag, getD_costToGo _ _ _ ht]
    · intro hflag
      rw [if_neg (by rw [hflag]; decide)]
  · have e1 := computeRolloutCumulativeCosts_eq s
    rw [e1, computeRolloutCumulativeCosts_eq]
    dsimp only
    congr 1
    apply forLoop_modifyAt_congr
    intro j
    by_cases hj : j < s.num_rollouts_.toNat
    · rw [if_pos hj, if_pos hj, getElem?_forLoop_modifyAt, if_pos hj, hgetr j hj]
      simp only [Option.map_some']
      rw [hF j hj, cumulativeCosts_rollout_eq _ _ _ _ (by simp) (by simp)]
    · rw [if_neg hj, if_neg hj, getElem?_forLoop_modifyAt, if_neg hj]
  · rw [computeRolloutCumulativeCosts_eq, computeRolloutCumulativeCosts_eq]
    unfold overwriteCumulativeCosts
    dsimp only
    congr 1
    apply forLoop_modifyAt_congr
    intro j
    by_cases hj : j < s.num_rollouts_.toNat
    · obtain ⟨-, -, -, -, -, -, ht1, -⟩ := hsz j hj
      rw [if_pos hj, if_pos hj, getElem?_forLoop_modifyAt, if_pos hj, hgetr j hj]
      simp only [Option.map_some']
      rw [hF j hj, cumulativeCosts_rollout_eq _ _ _
        { s.rollouts_.getD j default with cumulative_costs_ := junk j } ht1 (hjunk j)]
    · rw [if_neg hj, if_neg hj, getElem?_forLoop_modifyAt, if_neg hj]

/-- C14 at the sample engine, rollout 0, dimension 0 and time step 0. -/
theorem computeRolloutCumulativeCosts_costs_witness :
    (∃ before after, (sampleEngine : PolicyImprovement ℚ).rollouts_[0]? = some before ∧
      (computeRolloutCumulativeCosts (sampleEngine : PolicyImprovement ℚ)).rollouts_[0]?
        = some after ∧
      after.state_costs_ = before.state_costs_ ∧
      after.control_costs_ = before.control_costs_ ∧
      (after.total_costs_.getD 0 []).getD 0 0
        = before.state_costs_.getD 0 0 + (before.control_costs_.getD 0 []).getD 0 0 ∧
      ((sampleEngine : PolicyImprovement ℚ).use_cumulative_costs_ = true →
        (after.cumulative_costs_.getD 0 []).getD 0 0
          = ∑ i in Finset.Ico 0 (sampleEngine : PolicyImprovement ℚ).num_time_steps_,
              (after.total_costs_.getD 0 []).getD i 0) ∧
      ((sampleEngine : PolicyImprovement ℚ).use_cumulative_costs_ = false →
        (after.cumulative_costs_.getD 0 []).getD 0 0
          = (after.total_costs_.getD 0 []).getD 0 0)) ∧
    computeRolloutCumulativeCosts
        (computeRolloutCumulativeCosts (sampleEngine : PolicyImprovement ℚ))
      = computeRolloutCumulativeCosts (sampleEngine : PolicyImprovement ℚ) ∧
    computeRolloutCumulativeCosts
        (overwriteCumulativeCosts (sampleEngine : PolicyImprovement ℚ) (fun _ => [[7, 7]]))
      = computeRolloutCumulativeCosts (sampleEngine : PolicyImprovement ℚ) :=
  computeRolloutCumulativeCosts_costs sampleEngine [2] (by decide) (by decide)
    (fun _ => [[7, 7]]) (fun _ => rfl) 0 0 0 (by decide) (by decide) (by decide)

end CumulativeCosts

/-! ## The probabilities favour the cheaper rollout -/

section Favour

variable {K : Type} [LinearOrderedField K]

end Favour

section Projection

variable {K : Type} [LinearOrderedField K]

/-- The inner loop of `preComputeProjectionMatrices` finds the maximal absolute value of the
column: it bounds all entries of the column and is attained. -/
theorem columnMax_spec (M : Mat K) (n p : Nat) (hn : 0 < n) :
    (∀ i, i < n → |mcoeff M i p| ≤ columnMax M n p) ∧
    ∃ i, i < n ∧ |mcoeff M i p| = columnMax M n p := by
  have key := forLoop_induct (fun k (cm : K) =>
      (∀ i, i ≤ k → |mcoeff M i p| ≤ cm) ∧ ∃ i, i ≤ k ∧ |mcoeff M i p| = cm)
    (n - 1) (fun i column_max =>
      if |mcoeff M (i + 1) p| > column_max then |mcoeff M (i + 1) p| else column_max)
    |mcoeff M 0 p|
    ⟨fun i hi => by rw [Nat.le_zero.mp hi], 0, le_refl _, rfl⟩ (by
      rintro i cm - ⟨hle, j, hj, hjc⟩
      dsimp only
      by_cases h : |mcoeff M (i + 1) p| > cm
      · rw [if_pos h]
        refine ⟨fun k hk => ?_, i + 1, le_refl _, rfl⟩
        by_cases hk2 : k ≤ i
        · exact le_trans (hle k hk2) (le_of_lt h)
        · have : k = i + 1 := by omega
          rw [this]
      · rw [if_neg h]
        refine ⟨fun k hk => ?_, j, by omega, hjc⟩
        by_cases hk2 : k ≤ i
        · exact hle k hk2
        · have : k = i + 1 := by omega
          rw [this]
          exact not_lt.mp h)
  obtain ⟨h1, j, hj, hjc⟩ := key
  exact ⟨fun i hi => h1 i (by omega), j, by omega, hjc⟩

/-- The column maximum as a supremum. -/
theorem columnMax_eq_sup (M : Mat K) (n p : Nat) (hn : 0 < n) :
    columnMax M n p
      = (Finset.range n).sup' (Finset.nonempty_range_iff.mpr (Nat.pos_iff_ne_zero.mp hn))
          (fun i => |mcoeff M i p|) := by
  obtain ⟨h1, j, hj, hjc⟩ := columnMax_spec M n p hn
  apply le_antisymm
  · rw [← hjc]
    exact Finset.le_sup' (fun i => |mcoeff M i p|) (Finset.mem_range.mpr hj)
  · exact Finset.sup'_le _ _ (fun i hi => h1 i (Finset.mem_range.mp hi))

/-- A column with a non-zero entry has a positive maximum. -/
theorem columnMax_pos (M : Mat K) (n p : Nat) (i : Nat) (hi : i < n) (h : mcoeff M i p ≠ 0) :
    0 < columnMax M n p :=
  lt_of_lt_of_le (abs_pos.mpr h) ((columnMax_spec M n p (by omega)).1 i hi)

/-- The column normalisation in closed form: entry `p` of every row is multiplied by
`1 / (n * column_max(p))`. -/
theorem normalizeColumns_eq (M : Mat K) (n : Nat) (hrows : ∀ row ∈ M, row.length = n) :
    normalizeColumns M n
      = M.map (fun row => (List.range n).map (fun p =>
          row.getD p 0 * (1 / ((n : K) * columnMax M n p)))) := by
  unfold normalizeColumns
  have hmap : ∀ k, forLoop k (fun p (P : Mat K) =>
        P.map (fun row => modifyAt (fun x => x * (1 / ((n : K) * columnMax M n p))) p row)) M
      = M.map (fun row => forLoop k (fun p row =>
          modifyAt (fun x => x * (1 / ((n : K) * columnMax M n p))) p row) row) := by
    intro k
    induction k with
    | zero => simp [forLoop]
    | succ k ih => rw [forLoop_succ, ih, List.map_map]; rfl
  rw [hmap]
  apply List.map_congr_left
  intro row hrow
  exact reweight_row n (fun p => 1 / ((n : K) * columnMax M n p)) row (hrows row hrow)

theorem mcoeff_normalizeColumns (M : Mat K) (n : Nat) (hrows : ∀ row ∈ M, row.length = n)
    (i p : Nat) (hi : i < M.length) (hp : p < n) :
    mcoeff (normalizeColumns M n) i p = mcoeff M i p / ((n : K) * columnMax M n p) := by
  have hrow : ∀ F : Vec K → Vec K, (M.map F).getD i [] = F (M.getD i []) := by
    intro F
    simp [List.getD_eq_getElem?_getD, List.getElem?_map, List.getElem?_eq_getElem hi]
  rw [normalizeColumns_eq M n hrows]
  unfold mcoeff
  rw [hrow, getD_map_range _ _ _ hp, mul_one_div]

/-- The matrices `preComputeProjectionMatrices` stores for the dimension `d`: the normalised
inverse control costs and the result of the inversion call on them. -/
theorem preComputeProjectionMatrices_getD (inverse : Mat K → Mat K) (s : PolicyImprovement K)
    (d : Nat) (hd : d < s.num_dimensions_) :
    ∃ t, preComputeProjectionMatrices inverse s = (true, t) ∧
      t.inv_control_costs_ = s.inv_control_costs_ ∧
      t.num_parameters_ = s.num_parameters_ ∧ t.num_dimensions_ = s.num_dimensions_ ∧
      t.projection_matrix_.getD d []
        = normalizeColumns (s.inv_control_costs_.getD d []) (s.num_parameters_.getD d 0) ∧
      t.inv_projection_matrix_.getD d []
        = inverse (normalizeColumns (s.inv_control_costs_.getD d [])
            (s.num_parameters_.getD d 0)) := by
  unfold preComputeProjectionMatrices
  dsimp only
  have key := forLoop_induct (fun k (u : PolicyImprovement K) =>
      u.inv_control_costs_ = s.inv_control_costs_ ∧ u.num_parameters_ = s.num_parameters_ ∧
      u.num_dimensions_ = s.num_dimensions_ ∧
      u.projection_matrix_.length = s.num_dimensions_ ∧
      u.inv_projection_matrix_.length = s.num_dimensions_ ∧
      ∀ e, e < k →
        u.projection_matrix_.getD e []
          = normalizeColumns (s.inv_control_costs_.getD e []) (s.num_parameters_.getD e 0) ∧
        u.inv_projection_matrix_.getD e []
          = inverse (normalizeColumns (s.inv_control_costs_.getD e [])
              (s.num_parameters_.getD e 0)))
    s.num_dimensions_ (fun d (s : PolicyImprovement K) =>
      { s with
        projection_matrix_ := s.projection_matrix_.set d
          (normalizeColumns (s.inv_control_costs_.getD d []) (s.num_parameters_.getD d 0))
        inv_projection_matrix_ := s.inv_projection_matrix_.set d
          (inverse ((s.projection_matrix_.set d
            (normalizeColumns (s.inv_control_costs_.getD d [])
              (s.num_parameters_.getD d 0))).getD d [])) })
    { s with
      projection_matrix_ := resizeList s.projection_matrix_ s.num_dimensions_ []
      inv_projection_matrix_ := resizeList s.inv_projection_matrix_ s.num_dimensions_ [] }
    ⟨rfl, rfl, rfl, length_resizeList _ _ _, length_resizeList _ _ _,
      fun e he => absurd he (Nat.not_lt_zero e)⟩ (by
      rintro i u hi ⟨a1, a2, a3, a4, a5, a6⟩
      dsimp only
      refine ⟨a1, a2, a3, by rw [List.length_set, a4], by rw [List.length_set, a5], ?_⟩
      intro e he
      have hself : ∀ (l : List (Mat K)) (x : Mat K), l.length = s.num_dimensions_ →
          (l.set i x).getD i [] = x := by
        intro l x hl
        rw [List.getD_eq_getElem?_getD, List.getElem?_set_self (by omega)]
        rfl
      have hother : ∀ (l : List (Mat K)) (x : Mat K), e ≠ i →
          (l.set i x).getD e [] = l.getD e [] := by
        intro l x hne
        rw [List.getD_eq_getElem?_getD, List.getD_eq_getElem?_getD,
          List.getElem?_set_ne (fun h => hne h.symm)]
      by_cases hei : e = i
      · subst hei
        rw [hself _ _ a4, hself _ _ a5, a1, a2]
        exact ⟨rfl, rfl⟩
      · rw [hother _ _ hei, hother _ _ hei]
        exact a6 e (by omega))
  obtain ⟨a1, a2, a3, -, -, a6⟩ := key
  exact ⟨_, rfl, a1, a2, a3, a6 d hd⟩

/-- C16 (as amended): in exact arithmetic, for a dimension `d` with `N` parameters whose
inverse control cost matrix (an `N × N` matrix) has no all-zero column,
`preComputeProjectionMatrices` stores the projection matrix with the entries
`inv_control_cost(i,p) / (N * max_i |inv_control_cost(i,p)|)`: the largest absolute value of
every column is exactly `1/N`, and every entry has an absolute value of at most `1/N`. -/
theorem preComputeProjectionMatrices_normalised (inverse : Mat K → Mat K)
    (s : PolicyImprovement K) (d : Nat) (hd : d < s.num_dimensions_)
    (hN : 0 < s.num_parameters_.getD d 0)
    (hsq : IsSquare (s.inv_control_costs_.getD d []) (s.num_parameters_.getD d 0))
    (hcol : ∀ p, p < s.num_parameters_.getD d 0 →
      ∃ i, i < s.num_parameters_.getD d 0 ∧ mcoeff (s.inv_control_costs_.getD d []) i p ≠ 0) :
    ∃ t, preComputeProjectionMatrices inverse s = (true, t) ∧
      t.inv_control_costs_ = s.inv_control_costs_ ∧ t.num_parameters_ = s.num_parameters_ ∧
      ∀ p, p < s.num_parameters_.getD d 0 →
        (∀ i, i < s.num_parameters_.getD d 0 →
          mcoeff (t.projection_matrix_.getD d []) i p
            = mcoeff (s.inv_control_costs_.getD d []) i p
              / ((s.num_parameters_.getD d 0 : K)
                * (Finset.range (s.num_parameters_.getD d 0)).sup'
                    (Finset.nonempty_range_iff.mpr (Nat.pos_iff_ne_zero.mp hN))
                    (fun i => |mcoeff (s.inv_control_costs_.getD d []) i p|))) ∧
        (∀ i, i < s.num_parameters_.getD d 0 →
          |mcoeff (t.projection_matrix_.getD d []) i p|
            ≤ 1 / (s.num_parameters_.getD d 0 : K)) ∧
        (Finset.range (s.num_parameters_.getD d 0)).sup'
            (Finset.nonempty_range_iff.mpr (Nat.pos_iff_ne_zero.mp hN))
            (fun i => |mcoeff (t.projection_matrix_.getD d []) i p|)
          = 1 / (s.num_parameters_.getD d 0 : K) := by
  obtain ⟨t, ht, a1, a2, -, hP, -⟩ := preComputeProjectionMatrices_getD inverse s d hd
  refine ⟨t, ht, a1, a2, ?_⟩
  intro p hp
  obtain ⟨i0, hi0, hne⟩ := hcol p hp
  have hcm := columnMax_pos _ _ p i0 hi0 hne
  obtain ⟨hle, j, hj, hjc⟩ := columnMax_spec (s.inv_control_costs_.getD d [])
    (s.num_parameters_.getD d 0) p hN
  have hNpos : (0 : K) < (s.num_parameters_.getD d 0 : K) := by exact_mod_cast hN
  have hent : ∀ i, i < s.num_parameters_.getD d 0 →
      mcoeff (t.projection_matrix_.getD d []) i p
        = mcoeff (s.inv_control_costs_.getD d []) i p
          / ((s.num_parameters_.getD d 0 : K)
            * columnMax (s.inv_control_costs_.getD d []) (s.num_parameters_.getD d 0) p) := by
    intro i hi
    rw [hP, mcoeff_normalizeColumns _ _ hsq.2 i p (by rw [hsq.1]; exact hi) hp]
  have habs : ∀ i, i < s.num_parameters_.getD d 0 →
      |mcoeff (t.projection_matrix_.getD d []) i p|
        = |mcoeff (s.inv_control_costs_.getD d []) i p|
          / ((s.num_parameters_.getD d 0 : K)
            * columnMax (s.inv_control_costs_.getD d []) (s.num_parameters_.getD d 0) p) := by
    intro i hi
    rw [hent i hi, abs_div, abs_of_pos (mul_pos hNpos hcm)]
  have hone : columnMax (s.inv_control_costs_.getD d []) (s.num_parameters_.getD d 0) p
      / ((s.num_parameters_.getD d 0 : K)
        * columnMax (s.inv_control_costs_.getD d []) (s.num_parameters_.getD d 0) p)
      = 1 / (s.num_parameters_.getD d 0 : K) := by
    have gen : ∀ a b : K, 0 < a → 0 < b → b / (a * b) = 1 / a := by
      intro a b ha hb
      field_simp
      ring
    exact gen _ _ hNpos hcm
  have hbound : ∀ i, i < s.num_parameters_.getD d 0 →
      |mcoeff (t.projection_matrix_.getD d []) i p|
        ≤ 1 / (s.num_parameters_.getD d 0 : K) := by
    intro i hi
    rw [habs i hi, ← hone, div_le_div_iff_of_pos_right (mul_pos hNpos hcm)]
    exact hle i hi
  refine ⟨?_, hbound, ?_⟩
  · intro i hi
    rw [hent i hi, columnMax_eq_sup _ _ _ hN]
  · apply le_antisymm
    · exact Finset.sup'_le _ _ (fun i hi => hbound i (Finset.mem_range.mp hi))
    · have := Finset.le_sup' (fun i => |mcoeff (t.projection_matrix_.getD d []) i p|)
        (Finset.mem_range.mpr hj)
      rw [habs j hj, hjc, hone] at this
      exact this

/-- C16 (as amended) at the sample engine, whose inverse control cost matrix is the
identity. -/
theorem preComputeProjectionMatrices_normalised_witness :
    ∃ t, preComputeProjectionMatrices id (sampleEngine : PolicyImprovement ℚ) = (true, t) ∧
      t.inv_control_costs_ = (sampleEngine : PolicyImprovement ℚ).inv_control_costs_ ∧
      t.num_parameters_ = (sampleEngine : PolicyImprovement ℚ).num_parameters_ ∧
      ∀ p, p < (sampleEngine : PolicyImprovement ℚ).num_parameters_.getD 0 0 →
        (∀ i, i < (sampleEngine : PolicyImprovement ℚ).num_parameters_.getD 0 0 →
          mcoeff (t.projection_matrix_.getD 0 []) i p
            = mcoeff ((sampleEngine : PolicyImprovement ℚ).inv_control_costs_.getD 0 []) i p
              / (((sampleEngine : PolicyImprovement ℚ).num_parameters_.getD 0 0 : ℚ)
                * (Finset.range ((sampleEngine : PolicyImprovement ℚ).num_parameters_.getD 0 0)).sup'
                    (Finset.nonempty_range_iff.mpr (Nat.pos_iff_ne_zero.mp (by decide)))
                    (fun i => |mcoeff
                      ((sampleEngine : PolicyImprovement ℚ).inv_control_costs_.getD 0 []) i p|))) ∧
        (∀ i, i < (sampleEngine : PolicyImprovement ℚ).num_parameters_.getD 0 0 →
          |mcoeff (t.projection_matrix_.getD 0 []) i p|
            ≤ 1 / ((sampleEngine : PolicyImprovement ℚ).num_parameters_.getD 0 0 : ℚ)) ∧
        (Finset.range ((sampleEngine : PolicyImprovement ℚ).num_parameters_.getD 0 0)).sup'
            (Finset.nonempty_range_iff.mpr (Nat.pos_iff_ne_zero.mp (by decide)))
            (fun i => |mcoeff (t.projection_matrix_.getD 0 []) i p|)
          = 1 / ((sampleEngine : PolicyImprovement ℚ).num_parameters_.getD 0 0 : ℚ) :=
  preComputeProjectionMatrices_normalised id sampleEngine 0 (by decide) (by decide) (by decide)
    (by decide)

end Projection

/-! ## Invertibility of the projection matrices -/

section Invertible

variable {K : Type} [LinearOrderedField K]

/-- The normalised matrix has the shape of the matrix it is computed from. -/
theorem isSquare_normalizeColumns (M : Mat K) (n : Nat) (hsq : IsSquare M n) :
    IsSquare (normalizeColumns M n) n := by
  rw [normalizeColumns_eq M n hsq.2]
  refine ⟨by rw [List.length_map]; exact hsq.1, ?_⟩
  intro row hrow
  obtain ⟨r, -, rfl⟩ := List.mem_map.mp hrow
  simp

end Invertible

/-! ## The projected noise handed to the control cost function -/

section ProjectedNoise

variable {K : Type} [LinearOrderedField K]

omit [LinearOrderedField K] in
theorem getElem?_of_map_eq {α β : Type} (f : α → β) (X Y : List α) (h : X.map f = Y.map f)
    (j : Nat) (y : α) (hy : Y[j]? = some y) : ∃ x, X[j]? = some x ∧ f x = f y := by
  have h2 : (X.map f)[j]? = (Y.map f)[j]? := by rw [h]
  rw [List.getElem?_map, List.getElem?_map, hy] at h2
  cases hx : X[j]? with
  | none => rw [hx] at h2; cases h2
  | some x =>
    rw [hx] at h2
    exact ⟨x, rfl, Option.some.inj h2⟩

/-- Re-centring a rollout keeps the number of projected-noise vectors. -/
theorem recenter_noise_projected_length (parameters : List (Vec K)) (invP : List (Mat K))
    (D : Nat) (ro : Rollout K) :
    (recenter parameters invP D ro).noise_projected_.length = ro.noise_projected_.length := by
  unfold recenter
  refine forLoop_preserves (fun x : Rollout K =>
    x.noise_projected_.length = ro.noise_projected_.length) _ _ _ rfl ?_
  intro i x _ hx
  unfold recenterStep
  dsimp only
  rw [List.length_set, hx]

/-- After `generateRollouts` every active rollout is a rollout of the pool with one
projected-noise vector per dimension. -/
theorem generateRollouts_active_sized (s : PolicyImprovement K) (noise_stddev : List K)
    (sample : Nat → Nat → Vec K) (parameters : List (Vec K))
    (hmm : s.min_rollouts_ ≤ s.max_rollouts_)
    (hper0 : 0 ≤ s.num_rollouts_per_iteration_)
    (hper : s.num_rollouts_per_iteration_ ≤ s.max_rollouts_)
    (hn0 : 0 ≤ s.num_rollouts_) (hn : s.num_rollouts_ ≤ s.max_rollouts_)
    (halloc : PoolAllocated s) (r : Nat)
    (hr : r < (rolloutCounts s.num_rollouts_ s.min_rollouts_ s.max_rollouts_
      s.num_rollouts_per_iteration_).num_rollouts.toNat) :
    ∃ ro, (generateNewRollouts (reusedState s parameters) noise_stddev sample).rollouts_[r]?
        = some ro ∧
      s.num_dimensions_ ≤ ro.noise_projected_.length ∧
      s.num_dimensions_ ≤ ro.parameters_noise_projected_.length := by
  obtain ⟨hpool, hscratch, hsized⟩ := halloc
  obtain ⟨hb0, -, hb2, hb3, hb4, hb5, -, -⟩ := rolloutCounts_bounds s.num_rollouts_
    s.min_rollouts_ s.max_rollouts_ s.num_rollouts_per_iteration_ hmm hper0 hper hn0
  have hQ : ∀ ro ∈ s.rollouts_, s.num_dimensions_ ≤ ro.noise_projected_.length ∧
      s.num_dimensions_ ≤ ro.parameters_noise_projected_.length := by
    intro ro hro
    obtain ⟨-, -, l3, -, l5, -⟩ := hsized ro hro
    exact ⟨by omega, by omega⟩
  have hrlen : r < s.rollouts_.length := by omega
  have hg : (countedState s parameters).num_rollouts_gen_
      = (rolloutCounts s.num_rollouts_ s.min_rollouts_ s.max_rollouts_
          s.num_rollouts_per_iteration_).num_rollouts_gen := rfl
  -- the rollout in slot `r` after the reuse block
  have hstep : ∃ ro, (reusedState s parameters).rollouts_[r]? = some ro ∧
      s.num_dimensions_ ≤ ro.noise_projected_.length ∧
      s.num_dimensions_ ≤ ro.parameters_noise_projected_.length := by
    unfold reusedState
    dsimp only
    by_cases hpos : (rolloutCounts s.num_rollouts_ s.min_rollouts_ s.max_rollouts_
        s.num_rollouts_per_iteration_).num_rollouts_reused > 0
    · rw [if_pos hpos, reuseRollouts_rollouts _ _ _ hb3
        (by show _ ≤ s.rollouts_.length; omega) (by show _ ≤ s.reused_rollouts_.length; omega)]
      by_cases hin : (countedState s parameters).num_rollouts_gen_.toNat ≤ r ∧
          r < (countedState s parameters).num_rollouts_gen_.toNat
            + (rolloutCounts s.num_rollouts_ s.min_rollouts_ s.max_rollouts_
                s.num_rollouts_per_iteration_).num_rollouts_reused.toNat
      · rw [if_pos hin]
        have hidx := ranking_getD_lt s.rollouts_ s.num_rollouts_
          (r - (countedState s parameters).num_rollouts_gen_.toNat) (by omega)
        have hmem : s.rollouts_.getD ((costRanking s.rollouts_ s.num_rollouts_).getD
            (r - (countedState s parameters).num_rollouts_gen_.toNat) 0) default
            ∈ s.rollouts_ := by
          rw [List.getD_eq_getElem _ _ (by omega)]
          exact List.getElem_mem _
        obtain ⟨q1, q2⟩ := hQ _ hmem
        refine ⟨_, rfl, ?_, ?_⟩
        · rw [recenter_noise_projected_length]
          exact q1
        · rw [(recenter_fields _ _ _ _).2.2.1]
          exact q2
      · rw [if_neg hin]
        refine ⟨s.rollouts_[r], List.getElem?_eq_getElem hrlen, hQ _ (List.getElem_mem _)⟩
    · rw [if_neg hpos]
      exact ⟨s.rollouts_[r], List.getElem?_eq_getElem hrlen, hQ _ (List.getElem_mem _)⟩
  obtain ⟨ro', hro', q1, q2⟩ := hstep
  obtain ⟨ro, hro, hev⟩ := getElem?_of_map_eq Rollout.evaluated _ _
    (generateNewRollouts_evaluated (reusedState s parameters) noise_stddev sample) r ro' hro'
  unfold Rollout.evaluated at hev
  simp only [Prod.mk.injEq] at hev
  exact ⟨ro, hro, by rw [hev.2.1]; exact q1, by rw [hev.1]; exact q2⟩

/-- The projection of one rollout leaves its mean, its raw noise and its costs alone. -/
theorem computeProjectedNoiseOf_frame (s : PolicyImprovement K) (ro : Rollout K) :
    (computeProjectedNoiseOf s ro).parameters_ = ro.parameters_ ∧
    (computeProjectedNoiseOf s ro).noise_ = ro.noise_ ∧
    (computeProjectedNoiseOf s ro).control_costs_ = ro.control_costs_ := by
  unfold computeProjectedNoiseOf
  refine forLoop_preserves (fun x : Rollout K =>
    x.parameters_ = ro.parameters_ ∧ x.noise_ = ro.noise_ ∧
      x.control_costs_ = ro.control_costs_) _ _ _ ⟨rfl, rfl, rfl⟩ ?_
  rintro i x - ⟨h1, h2, h3⟩
  exact ⟨h1, h2, h3⟩

/-- The call `computeProjectedNoise()` projects the active rollouts of the pool. -/
theorem computeProjectedNoise_eq (s : PolicyImprovement K) :
    computeProjectedNoise s = (true,
      { s with
        rollouts_ := forLoop s.num_rollouts_.toNat
          (fun r X => modifyAt (computeProjectedNoiseOf s) r X) s.rollouts_ }) := by
  unfold computeProjectedNoise
  congr 1
  exact forLoop_rollouts _ _ _ s (fun i X => rfl)

/-- C18 (amended): neither `generateRollouts` nor `setRolloutCosts` applies the forward
projection; `setRolloutCosts` hands the stored `noise_projected_` of every active rollout to
the control cost function of the policy as it is. When `computeProjectedNoise()` is called
between the two, the vector handed over for every active rollout (the freshly generated ones
included) and dimension `d` is `projection_matrix_[d] * noise_[d]` of the raw noise
`generateRollouts` has left in the rollout. -/
theorem setRolloutCosts_projected_noise (s : PolicyImprovement K) (policy : Policy K)
    (noise_stddev : List K) (sample : Nat → Nat → Vec K) (parameters : List (Vec K))
    (costs : Mat K) (w : K) (old : List K)
    (hinit : s.initialized_ = true) (hdim : noise_stddev.length = s.num_dimensions_)
    (hpol : policy.getParameters = some parameters)
    (hmm : s.min_rollouts_ ≤ s.max_rollouts_)
    (hper0 : 0 ≤ s.num_rollouts_per_iteration_)
    (hper : s.num_rollouts_per_iteration_ ≤ s.max_rollouts_)
    (hn0 : 0 ≤ s.num_rollouts_) (hn : s.num_rollouts_ ≤ s.max_rollouts_)
    (halloc : PoolAllocated s) :
    ∃ s2 s3 s4 total,
      generateRollouts s policy noise_stddev sample = some (true, s2) ∧
      computeProjectedNoise s2 = (true, s3) ∧
      setRolloutCosts s3 policy costs w old = some (true, s4, total) ∧
      s3.num_rollouts_ = s2.num_rollouts_ ∧ s3.projection_matrix_ = s2.projection_matrix_ ∧
      ∀ r, r < s2.num_rollouts_.toNat →
        ∃ generated projected after, s2.rollouts_[r]? = some generated ∧
          s3.rollouts_[r]? = some projected ∧ s4.rollouts_[r]? = some after ∧
          projected.noise_ = generated.noise_ ∧
          projected.parameters_ = generated.parameters_ ∧
          (∀ d, d < s2.num_dimensions_ →
            projected.noise_projected_.getD d []
              = mulVec (s2.projection_matrix_.getD d []) (generated.noise_.getD d [])) ∧
          after.control_costs_ = policy.computeControlCosts projected.parameters_
            projected.noise_projected_ w projected.control_costs_ := by
  obtain ⟨a, b, c, e, hf⟩ := generateRollouts_frame s noise_stddev sample parameters
  obtain ⟨S2, hS2⟩ : ∃ S2, S2 = generateNewRollouts (reusedState s parameters) noise_stddev
    sample := ⟨_, rfl⟩
  rw [← hS2] at hf
  have g1 : S2.initialized_ = true := by rw [hf]; exact hinit
  have g2 : S2.num_rollouts_ = (rolloutCounts s.num_rollouts_ s.min_rollouts_ s.max_rollouts_
      s.num_rollouts_per_iteration_).num_rollouts := by rw [hf]; rfl
  have g3 : S2.num_dimensions_ = s.num_dimensions_ := by rw [hf]; rfl
  obtain ⟨S3, hS3⟩ : ∃ S3 : PolicyImprovement K, S3 = { S2 with
      rollouts_ := forLoop S2.num_rollouts_.toNat
        (fun r X => modifyAt (computeProjectedNoiseOf S2) r X) S2.rollouts_ } := ⟨_, rfl⟩
  have e3 : computeProjectedNoise S2 = (true, S3) := by
    rw [hS3]
    exact computeProjectedNoise_eq S2
  have i3 : S3.initialized_ = true := by rw [hS3]; exact g1
  have n3 : S3.num_rollouts_ = S2.num_rollouts_ := by rw [hS3]
  have p3 : S3.projection_matrix_ = S2.projection_matrix_ := by rw [hS3]
  refine ⟨S2, S3, _, _, ?_, e3, setRolloutCosts_eq S3 policy costs w old i3, n3, p3, ?_⟩
  · rw [hS2]
    exact generateRollouts_eq s policy noise_stddev sample parameters hinit hdim hpol
  intro r hr
  obtain ⟨ro, hro, q1, q2⟩ := generateRollouts_active_sized s noise_stddev sample parameters
    hmm hper0 hper hn0 hn halloc r (by rw [← g2]; exact hr)
  rw [← hS2] at hro
  obtain ⟨f1, f2, -⟩ := computeProjectedNoiseOf_frame S2 ro
  have h3 : S3.rollouts_[r]? = some (computeProjectedNoiseOf S2 ro) := by
    rw [hS3]
    dsimp only
    rw [getElem?_forLoop_modifyAt, if_pos hr, hro, Option.map_some']
  have h4 := setRolloutCosts_rollouts S3 policy costs w r
  have hr3 : r < S3.num_rollouts_.toNat := by rw [n3]; exact hr
  rw [h3, Option.map_some', Option.map_some', if_pos hr3] at h4
  refine ⟨ro, _, _, hro, h3, h4, f2, f1, ?_, ?_⟩
  · intro d hd
    exact (computeProjectedNoiseOf_projected S2 ro (by omega) (by omega) d hd).1
  · split_ifs <;> rfl

/-- C18 (as amended) at the sample engine. -/
theorem setRolloutCosts_projected_noise_witness :
    ∃ s2 s3 s4 total,
      generateRollouts (sampleEngine : PolicyImprovement ℚ) echoPolicy [1] sampleNoise
        = some (true, s2) ∧
      computeProjectedNoise s2 = (true, s3) ∧
      setRolloutCosts s3 echoPolicy [[1, 0], [0, 1]] 0 [] = some (true, s4, total) ∧
      s3.num_rollouts_ = s2.num_rollouts_ ∧ s3.projection_matrix_ = s2.projection_matrix_ ∧
      ∀ r, r < s2.num_rollouts_.toNat →
        ∃ generated projected after, s2.rollouts_[r]? = some generated ∧
          s3.rollouts_[r]? = some projected ∧ s4.rollouts_[r]? = some after ∧
          projected.noise_ = generated.noise_ ∧
          projected.parameters_ = generated.parameters_ ∧
          (∀ d, d < s2.num_dimensions_ →
            projected.noise_projected_.getD d []
              = mulVec (s2.projection_matrix_.getD d []) (generated.noise_.getD d [])) ∧
          after.control_costs_ = (echoPolicy : Policy ℚ).computeControlCosts
            projected.parameters_ projected.noise_projected_ 0 projected.control_costs_ :=
  setRolloutCosts_projected_noise sampleEngine echoPolicy [1] sampleNoise [[3, 4]]
    [[1, 0], [0, 1]] 0 [] rfl rfl rfl (by decide) (by decide) (by decide) (by decide)
    (by decide) (by decide)

/-- C18 fails as stated: a fresh engine is initialized, `generateRollouts` generates two
rollouts with the raw noise `(1, 1)`, and `setRolloutCosts` hands the projected noise `(0, 0)`
of the rollout 0 to the control cost function (which returns it as the control costs), while
`projection_matrix_[0] * noise_[0]` is `(1/2, 1/2)`. -/
theorem setRolloutCosts_projected_noise_counterexample :
    ∃ s1 s2 s3 total,
      initializeEngine exactInverse (newEngine : PolicyImprovement ℚ) 2 2 4 2 echoPolicy false
        = some (true, s1) ∧
      generateRollouts s1 echoPolicy [1] sampleNoise = some (true, s2) ∧
      setRolloutCosts s2 echoPolicy [[1, 0], [0, 1]] 0 [] = some (true, s3, total) ∧
      s2.num_rollouts_ = 2 ∧
      (s2.rollouts_.getD 0 default).noise_ = [[1, 1]] ∧
      (s2.rollouts_.getD 0 default).noise_projected_ = [[0, 0]] ∧
      (s3.rollouts_.getD 0 default).control_costs_ = [[0, 0]] ∧
      mulVec (s2.projection_matrix_.getD 0 [])
        ((s2.rollouts_.getD 0 default).noise_.getD 0 []) = [1 / 2, 1 / 2] :=
  ⟨_, _, _, _, rfl, rfl, rfl, by with_unfolding_all rfl, by with_unfolding_all rfl,
    by with_unfolding_all rfl, by with_unfolding_all rfl, by with_unfolding_all rfl⟩

end ProjectedNoise

/-! ## The projected noise of a reused rollout -/

section ReusedNoise

variable {K : Type} [LinearOrderedField K]

end ReusedNoise

/-! ## The divisions of the update rule -/

section WellDefined

variable {K : Type} [LinearOrderedField K]

/-- The search for the minimal and the maximal cumulative cost finds bounds of the costs of
all active rollouts, and both are attained by an active rollout. -/
theorem minMaxCost_spec (X : List (Rollout K)) (n : Int) (d t : Nat) (hn : 0 < n) :
    (∀ r, r < n.toNat →
      (minMaxCost X n d t).1 ≤ cumCost X r d t ∧ cumCost X r d t ≤ (minMaxCost X n d t).2) ∧
    (∃ r, r < n.toNat ∧ cumCost X r d t = (minMaxCost X n d t).1) ∧
    ∃ r, r < n.toNat ∧ cumCost X r d t = (minMaxCost X n d t).2 := by
  have key := forLoop_induct (fun k (mm : K × K) =>
      (∀ r, r ≤ k → mm.1 ≤ cumCost X r d t ∧ cumCost X r d t ≤ mm.2) ∧
      (∃ r, r ≤ k ∧ cumCost X r d t = mm.1) ∧ ∃ r, r ≤ k ∧ cumCost X r d t = mm.2)
    (n.toNat - 1) (fun i mm =>
      let c := cumCost X (i + 1) d t
      let mm := if c < mm.1 then (c, mm.2) else mm
      if c > mm.2 then (mm.1, c) else mm)
    (cumCost X 0 d t, cumCost X 0 d t)
    ⟨fun r hr => by rw [Nat.le_zero.mp hr]; exact ⟨le_refl _, le_refl _⟩,
      ⟨0, le_refl _, rfl⟩, ⟨0, le_refl _, rfl⟩⟩ (by
      rintro i ⟨lo, hi⟩ - ⟨hb, ⟨r1, hr1, e1⟩, ⟨r2, hr2, e2⟩⟩
      dsimp only at hb e1 e2 ⊢
      have hlohi : lo ≤ hi := le_trans (hb r1 hr1).1 (hb r1 hr1).2
      by_cases h1 : cumCost X (i + 1) d t < lo
      · have h2 : ¬ cumCost X (i + 1) d t > hi := not_lt.mpr (le_trans h1.le hlohi)
        rw [if_pos h1]
        dsimp only
        rw [if_neg h2]
        refine ⟨fun r hr => ?_, ⟨i + 1, le_refl _, rfl⟩, ⟨r2, by omega, e2⟩⟩
        by_cases hri : r ≤ i
        · exact ⟨le_trans h1.le (hb r hri).1, (hb r hri).2⟩
        · have : r = i + 1 := by omega
          rw [this]
          exact ⟨le_refl _, le_trans h1.le hlohi⟩
      · rw [if_neg h1]
        by_cases h2 : cumCost X (i + 1) d t > hi
        · rw [if_pos h2]
          refine ⟨fun r hr => ?_, ⟨r1, by omega, e1⟩, ⟨i + 1, le_refl _, rfl⟩⟩
          by_cases hri : r ≤ i
          · exact ⟨(hb r hri).1, le_trans (hb r hri).2 (le_of_lt h2)⟩
          · have : r = i + 1 := by omega
            rw [this]
            exact ⟨not_lt.mp h1, le_refl _⟩
        · rw [if_neg h2]
          refine ⟨fun r hr => ?_, ⟨r1, by omega, e1⟩, ⟨r2, by omega, e2⟩⟩
          by_cases hri : r ≤ i
          · exact hb r hri
          · have : r = i + 1 := by omega
            rw [this]
            exact ⟨not_lt.mp h1, not_lt.mp h2⟩)
  obtain ⟨hb, ⟨r1, hr1, e1⟩, ⟨r2, hr2, e2⟩⟩ := key
  have hpos : 0 < n.toNat := by omega
  exact ⟨fun r hr => hb r (by omega), ⟨r1, by omega, e1⟩, ⟨r2, by omega, e2⟩⟩

end WellDefined

section IndexSafety

variable {K : Type} [LinearOrderedField K]

/-- The reuse block does not resize the pool or the scratch buffer. -/
theorem reuseRollouts_lengths (s : PolicyImprovement K) (prev reused : Int) :
    (reuseRollouts s prev reused).rollouts_.length = s.rollouts_.length ∧
    (reuseRollouts s prev reused).reused_rollouts_.length = s.reused_rollouts_.length := by
  unfold reuseRollouts
  dsimp only
  have h1 : (copyBestRollouts
      { s with rollout_cost_sorter_ := sortPairs (fillCostSorter s.rollouts_ prev) }
      reused).rollouts_.length = s.rollouts_.length ∧
      (copyBestRollouts
      { s with rollout_cost_sorter_ := sortPairs (fillCostSorter s.rollouts_ prev) }
      reused).reused_rollouts_.length = s.reused_rollouts_.length := by
    unfold copyBestRollouts
    refine forLoop_preserves (fun u : PolicyImprovement K =>
      u.rollouts_.length = s.rollouts_.length ∧
        u.reused_rollouts_.length = s.reused_rollouts_.length) _ _ _ ⟨rfl, rfl⟩ ?_
    rintro i u - ⟨a, b⟩
    exact ⟨a, by dsimp only; rw [List.length_set, b]⟩
  unfold copyBackRollouts
  refine forLoop_preserves (fun u : PolicyImprovement K =>
    u.rollouts_.length = s.rollouts_.length ∧
      u.reused_rollouts_.length = s.reused_rollouts_.length) _ _ _ h1 ?_
  rintro i u - ⟨a, b⟩
  dsimp only
  refine forLoop_preserves (fun v : PolicyImprovement K =>
    v.rollouts_.length = s.rollouts_.length ∧
      v.reused_rollouts_.length = s.reused_rollouts_.length) _ _ _ ?_ ?_
  · exact ⟨by dsimp only; rw [length_modifyAt, List.length_set, a], b⟩
  · rintro j v - ⟨a', b'⟩
    exact ⟨by dsimp only; rw [length_modifyAt, a'], b'⟩

/-- The generation of the new rollouts does not resize the pool or the scratch buffer. -/
theorem generateNewRollouts_lengths (s : PolicyImprovement K) (noise_stddev : List K)
    (sample : Nat → Nat → Vec K) :
    (generateNewRollouts s noise_stddev sample).rollouts_.length = s.rollouts_.length ∧
    (generateNewRollouts s noise_stddev sample).reused_rollouts_.length
      = s.reused_rollouts_.length := by
  unfold generateNewRollouts
  refine forLoop_preserves (fun u : PolicyImprovement K =>
    u.rollouts_.length = s.rollouts_.length ∧
      u.reused_rollouts_.length = s.reused_rollouts_.length) _ _ _ ⟨rfl, rfl⟩ ?_
  rintro i u - ⟨a, b⟩
  refine forLoop_preserves (fun v : PolicyImprovement K =>
    v.rollouts_.length = s.rollouts_.length ∧
      v.reused_rollouts_.length = s.reused_rollouts_.length) _ _ _ ⟨a, b⟩ ?_
  rintro j v - ⟨a', b'⟩
  exact ⟨by dsimp only; rw [length_modifyAt, a'], b'⟩

/-- C23: with `0 <= min_rollouts <= max_rollouts`, `0 <= per_iteration <= max_rollouts` and a
previous active count between 0 and `max_rollouts`, `generateRollouts` computes
`generated >= 0`, `0 <= reused <= previous active` and `generated + reused <= max_rollouts`.
The pool and the scratch buffer keep their `max_rollouts` slots, the sorter gets one entry per
previously active rollout, and every index the call uses lies inside its container: the sorter
index `r < reused`, the pool index stored in the sorter, the scratch slot `r`, the pool slot
`generated + r`, and the pool slot `r < generated`. -/
theorem generateRollouts_index_safety (s : PolicyImprovement K) (policy : Policy K)
    (noise_stddev : List K) (sample : Nat → Nat → Vec K) (parameters : List (Vec K))
    (hinit : s.initialized_ = true) (hdim : noise_stddev.length = s.num_dimensions_)
    (hpol : policy.getParameters = some parameters)
    (_hmn0 : 0 ≤ s.min_rollouts_) (hmm : s.min_rollouts_ ≤ s.max_rollouts_)
    (hper0 : 0 ≤ s.num_rollouts_per_iteration_)
    (hper : s.num_rollouts_per_iteration_ ≤ s.max_rollouts_)
    (hn0 : 0 ≤ s.num_rollouts_) (hn : s.num_rollouts_ ≤ s.max_rollouts_)
    (hpool : s.rollouts_.length = s.max_rollouts_.toNat)
    (hscratch : s.reused_rollouts_.length = s.max_rollouts_.toNat) :
    ∃ t, generateRollouts s policy noise_stddev sample = some (true, t) ∧
      t.num_rollouts_gen_ = (rolloutCounts s.num_rollouts_ s.min_rollouts_ s.max_rollouts_
        s.num_rollouts_per_iteration_).num_rollouts_gen ∧
      0 ≤ t.num_rollouts_gen_ ∧
      0 ≤ (rolloutCounts s.num_rollouts_ s.min_rollouts_ s.max_rollouts_
        s.num_rollouts_per_iteration_).num_rollouts_reused ∧
      (rolloutCounts s.num_rollouts_ s.min_rollouts_ s.max_rollouts_
        s.num_rollouts_per_iteration_).num_rollouts_reused ≤ s.num_rollouts_ ∧
      t.num_rollouts_gen_ + (rolloutCounts s.num_rollouts_ s.min_rollouts_ s.max_rollouts_
        s.num_rollouts_per_iteration_).num_rollouts_reused ≤ s.max_rollouts_ ∧
      t.rollouts_.length = s.max_rollouts_.toNat ∧
      t.reused_rollouts_.length = s.max_rollouts_.toNat ∧
      (sortPairs (fillCostSorter s.rollouts_ s.num_rollouts_)).length
        = s.num_rollouts_.toNat ∧
      (∀ r, r < (rolloutCounts s.num_rollouts_ s.min_rollouts_ s.max_rollouts_
          s.num_rollouts_per_iteration_).num_rollouts_reused.toNat →
        r < (sortPairs (fillCostSorter s.rollouts_ s.num_rollouts_)).length ∧
        ((sortPairs (fillCostSorter s.rollouts_ s.num_rollouts_)).getD r (0, 0)).2
          < s.rollouts_.length ∧
        r < s.reused_rollouts_.length ∧
        t.num_rollouts_gen_.toNat + r < s.rollouts_.length) ∧
      ∀ r, r < t.num_rollouts_gen_.toNat → r < s.rollouts_.length := by
  obtain ⟨hb0, -, hb2, hb3, hb4, hb5, -, -⟩ := rolloutCounts_bounds s.num_rollouts_
    s.min_rollouts_ s.max_rollouts_ s.num_rollouts_per_iteration_ hmm hper0 hper hn0
  obtain ⟨a, b, c, e, hf⟩ := generateRollouts_frame s noise_stddev sample parameters
  have hgen : (generateNewRollouts (reusedState s parameters) noise_stddev
      sample).num_rollouts_gen_
      = (rolloutCounts s.num_rollouts_ s.min_rollouts_ s.max_rollouts_
          s.num_rollouts_per_iteration_).num_rollouts_gen := by
    rw [hf]; rfl
  have hlen : (reusedState s parameters).rollouts_.length = s.rollouts_.length ∧
      (reusedState s parameters).reused_rollouts_.length = s.reused_rollouts_.length := by
    unfold reusedState
    dsimp only
    split_ifs
    · exact reuseRollouts_lengths _ _ _
    · exact ⟨rfl, rfl⟩
  obtain ⟨g1, g2⟩ := generateNewRollouts_lengths (reusedState s parameters) noise_stddev sample
  have hsorter : (sortPairs (fillCostSorter s.rollouts_ s.num_rollouts_)).length
      = s.num_rollouts_.toNat := by
    rw [(sortPairs_perm _).length_eq, fillCostSorter_eq, List.length_map, List.length_range]
  refine ⟨_, generateRollouts_eq s policy noise_stddev sample parameters hinit hdim hpol,
    hgen, by rw [hgen]; exact hb3, hb4, hb5, by rw [hgen]; omega,
    by rw [g1, hlen.1, hpool], by rw [g2, hlen.2, hscratch], hsorter, ?_, ?_⟩
  · intro r hr
    have hidx := ranking_getD_lt s.rollouts_ s.num_rollouts_ r (by omega)
    refine ⟨by rw [hsorter]; omega, ?_, by omega, by rw [hgen]; omega⟩
    have hsnd : ((sortPairs (fillCostSorter s.rollouts_ s.num_rollouts_)).getD r (0, 0)).2
        = (costRanking s.rollouts_ s.num_rollouts_).getD r 0 := by
      unfold costRanking
      simp [List.getD_eq_getElem?_getD, List.getElem?_map]
      cases (sortPairs (fillCostSorter s.rollouts_ s.num_rollouts_))[r]? <;> rfl
    rw [hsnd]
    omega
  · intro r hr
    rw [hgen] at hr
    omega

/-- C23 at the sample engine. -/
theorem generateRollouts_index_safety_witness :
    ∃ t, generateRollouts (sampleEngine : PolicyImprovement ℚ) samplePolicy [1] sampleNoise
        = some (true, t) ∧
      t.num_rollouts_gen_ = (rolloutCounts 3 2 4 2).num_rollouts_gen ∧
      0 ≤ t.num_rollouts_gen_ ∧
      0 ≤ (rolloutCounts 3 2 4 2).num_rollouts_reused ∧
      (rolloutCounts 3 2 4 2).num_rollouts_reused ≤ 3 ∧
      t.num_rollouts_gen_ + (rolloutCounts 3 2 4 2).num_rollouts_reused ≤ 4 ∧
      t.rollouts_.length = (4 : Int).toNat ∧
      t.reused_rollouts_.length = (4 : Int).toNat ∧
      (sortPairs (fillCostSorter (sampleEngine : PolicyImprovement ℚ).rollouts_ 3)).length
        = (3 : Int).toNat ∧
      (∀ r, r < (rolloutCounts 3 2 4 2).num_rollouts_reused.toNat →
        r < (sortPairs (fillCostSorter (sampleEngine : PolicyImprovement ℚ).rollouts_ 3)).length ∧
        ((sortPairs (fillCostSorter (sampleEngine : PolicyImprovement ℚ).rollouts_ 3)).getD r
          (0, 0)).2 < (sampleEngine : PolicyImprovement ℚ).rollouts_.length ∧
        r < (sampleEngine : PolicyImprovement ℚ).reused_rollouts_.length ∧
        t.num_rollouts_gen_.toNat + r < (sampleEngine : PolicyImprovement ℚ).rollouts_.length) ∧
      ∀ r, r < t.num_rollouts_gen_.toNat →
        r < (sampleEngine : PolicyImprovement ℚ).rollouts_.length :=
  generateRollouts_index_safety sampleEngine samplePolicy [1] sampleNoise [[3, 4]] rfl rfl rfl
    (by decide) (by decide) (by decide) (by decide) (by decide) (by decide) rfl rfl

end IndexSafety

/-! ## The update weights -/

section Weights

variable {K : Type} [LinearOrderedField K]

omit [LinearOrderedField K] in
/-- Updating a probability leaves the raw noise of the pool alone. -/
theorem map_noise_modifyProb (f : K → K) (r d t : Nat) (X : List (Rollout K)) :
    (modifyProb f r d t X).map Rollout.noise_ = X.map Rollout.noise_ := by
  unfold modifyProb
  refine map_modifyAt_of_eq Rollout.noise_ _ ?_ _ _
  intro a
  rfl

/-- The first loop over the rollouts at `(d, t)` leaves the weights and the raw noise alone. -/
theorem computeExponentials_frame (expf : K → K) (d t : Nat) (mn dn : K)
    (s : PolicyImprovement K) :
    (computeExponentials expf d t mn dn s).1.time_step_weights_ = s.time_step_weights_ ∧
    (computeExponentials expf d t mn dn s).1.rollouts_.map Rollout.noise_
      = s.rollouts_.map Rollout.noise_ := by
  unfold computeExponentials
  refine forLoop_preserves (fun sp : PolicyImprovement K × K =>
    sp.1.time_step_weights_ = s.time_step_weights_ ∧
      sp.1.rollouts_.map Rollout.noise_ = s.rollouts_.map Rollout.noise_) _ _ _ ⟨rfl, rfl⟩ ?_
  rintro i ⟨u, acc⟩ - ⟨a, b⟩
  exact ⟨a, by dsimp only at b ⊢; rw [map_noise_modifyProb, b]⟩

/-- The second loop over the rollouts at `(d, t)` leaves the weights and the raw noise
alone. -/
theorem normalizeProbabilities_frame (d t : Nat) (p_sum : K) (s : PolicyImprovement K) :
    (normalizeProbabilities d t p_sum s).time_step_weights_ = s.time_step_weights_ ∧
    (normalizeProbabilities d t p_sum s).rollouts_.map Rollout.noise_
      = s.rollouts_.map Rollout.noise_ := by
  unfold normalizeProbabilities
  refine forLoop_preserves (fun u : PolicyImprovement K =>
    u.time_step_weights_ = s.time_step_weights_ ∧
      u.rollouts_.map Rollout.noise_ = s.rollouts_.map Rollout.noise_) _ _ _ ⟨rfl, rfl⟩ ?_
  rintro i u - ⟨a, b⟩
  exact ⟨a, by dsimp only; rw [map_noise_modifyProb, b]⟩

/-- One step of `computeRolloutProbabilities` stores the cost spread in
`time_step_weights_[d][t]` and leaves the raw noise alone. -/
theorem probabilitiesStep_frame (expf : K → K) (d t : Nat) (s : PolicyImprovement K) :
    (probabilitiesStep expf d t s).time_step_weights_
      = modifyAt (fun w => w.set t (costSpread s.rollouts_ s.num_rollouts_ d t)) d
          s.time_step_weights_ ∧
    (probabilitiesStep expf d t s).rollouts_.map Rollout.noise_
      = s.rollouts_.map Rollout.noise_ := by
  unfold probabilitiesStep
  dsimp only
  obtain ⟨b1, b2⟩ := normalizeProbabilities_frame d t
    (computeExponentials expf d t (minMaxCost s.rollouts_ s.num_rollouts_ d t).1
      (clipDenom ((minMaxCost s.rollouts_ s.num_rollouts_ d t).2
        - (minMaxCost s.rollouts_ s.num_rollouts_ d t).1)) (spreadStored d t s)).2
    (computeExponentials expf d t (minMaxCost s.rollouts_ s.num_rollouts_ d t).1
      (clipDenom ((minMaxCost s.rollouts_ s.num_rollouts_ d t).2
        - (minMaxCost s.rollouts_ s.num_rollouts_ d t).1)) (spreadStored d t s)).1
  obtain ⟨a1, a2⟩ := computeExponentials_frame expf d t
    (minMaxCost s.rollouts_ s.num_rollouts_ d t).1
    (clipDenom ((minMaxCost s.rollouts_ s.num_rollouts_ d t).2
      - (minMaxCost s.rollouts_ s.num_rollouts_ d t).1)) (spreadStored d t s)
  exact ⟨b1.trans a1, b2.trans a2⟩

theorem costSpread_congr (X Y : List (Rollout K)) (n : Int) (d t : Nat)
    (h : ∀ r d t, cumCost X r d t = cumCost Y r d t) :
    costSpread X n d t = costSpread Y n d t := by
  unfold costSpread
  rw [minMaxCost_congr X Y n d t h]

/-- The weights and the raw noise after `computeRolloutProbabilities`: entry `t` of
`time_step_weights_[d]` has been assigned the cost spread at `(d, t)`, for every dimension and
time step. -/
theorem computeRolloutProbabilities_weights (expf : K → K) (s : PolicyImprovement K)
    (hsz : ProbabilitiesSized s) :
    (computeRolloutProbabilities expf s).time_step_weights_
      = forLoop s.num_dimensions_ (fun d W =>
          modifyAt (fun w => forLoop s.num_time_steps_ (fun t w =>
            w.set t (costSpread s.rollouts_ s.num_rollouts_ d t)) w) d W)
          s.time_step_weights_ ∧
    (computeRolloutProbabilities expf s).rollouts_.map Rollout.noise_
      = s.rollouts_.map Rollout.noise_ := by
  have key := forLoop_induct (fun (k : Nat) (v : PolicyImprovement K) =>
      ProbFrame s v ∧
      v.time_step_weights_ = forLoop k (fun d W =>
          modifyAt (fun w => forLoop s.num_time_steps_ (fun t w =>
            w.set t (costSpread s.rollouts_ s.num_rollouts_ d t)) w) d W)
          s.time_step_weights_ ∧
      v.rollouts_.map Rollout.noise_ = s.rollouts_.map Rollout.noise_)
    s.num_dimensions_ (fun d s =>
      forLoop s.num_time_steps_ (fun t s => probabilitiesStep expf d t s) s) s
    ⟨probFrame_refl s, rfl, rfl⟩ (by
      rintro i v hi ⟨hf, hw, hno⟩
      dsimp only
      rw [probFrame_num_time_steps hf]
      have inner := forLoop_induct (fun (k : Nat) (x : PolicyImprovement K) =>
          ProbFrame s x ∧
          x.time_step_weights_ = forLoop k (fun t W =>
              modifyAt (fun w => w.set t (costSpread s.rollouts_ s.num_rollouts_ i t)) i W)
              v.time_step_weights_ ∧
          x.rollouts_.map Rollout.noise_ = s.rollouts_.map Rollout.noise_)
        s.num_time_steps_ (fun t s => probabilitiesStep expf i t s) v ⟨hf, rfl, hno⟩ (by
          rintro j x hj ⟨xf, xw, xno⟩
          have hn := probFrame_num_rollouts xf
          obtain ⟨s1, -⟩ := probabilitiesStep_spec expf i j x (by
            intro r hr
            rw [xf.2.2]
            rw [hn] at hr
            exact Nat.lt_of_lt_of_le hj (hsz r hr i hi))
          obtain ⟨f1, f2⟩ := probabilitiesStep_frame expf i j x
          refine ⟨probFrame_trans xf s1, ?_, f2.trans xno⟩
          rw [f1, forLoop_succ, xw, hn, costSpread_congr _ _ _ _ _ xf.2.1])
      obtain ⟨r1, r2, r3⟩ := inner
      refine ⟨r1, ?_, r3⟩
      rw [r2, forLoop_succ, hw, forLoop_modifyAt])
  exact ⟨key.2.1, key.2.2⟩

/-- The stored update weight after `computeRolloutProbabilities` is the cost spread. -/
theorem updateWeight_computeRolloutProbabilities (expf : K → K) (s : PolicyImprovement K)
    (hsz : ProbabilitiesSized s) (d t : Nat) (hd : d < s.num_dimensions_)
    (ht : t < s.num_time_steps_)
    (hw : (s.time_step_weights_.getD d []).length = s.num_time_steps_) :
    updateWeight (computeRolloutProbabilities expf s) d t
      = costSpread s.rollouts_ s.num_rollouts_ d t := by
  have hlen : d < s.time_step_weights_.length := by
    by_contra hcon
    rw [List.getD_eq_default _ _ (by omega)] at hw
    simp at hw
    omega
  have hw2 : (s.time_step_weights_[d]).length = s.num_time_steps_ := by
    rw [List.getD_eq_getElem _ _ hlen] at hw
    exact hw
  have hrow : (forLoop s.num_dimensions_ (fun d W =>
      modifyAt (fun w => forLoop s.num_time_steps_ (fun t w =>
        w.set t (costSpread s.rollouts_ s.num_rollouts_ d t)) w) d W)
      s.time_step_weights_).getD d []
      = (List.range s.num_time_steps_).map (fun t =>
          costSpread s.rollouts_ s.num_rollouts_ d t) := by
    rw [List.getD_eq_getElem?_getD, getElem?_forLoop_modifyAt, if_pos hd,
      List.getElem?_eq_getElem hlen]
    simp only [Option.map_some', Option.getD_some]
    rw [forLoop_set_eq_map _ _ _ hw2]
  unfold updateWeight
  rw [(computeRolloutProbabilities_weights expf s hsz).1, hrow, getD_map_range _ _ _ ht]

/-- The cost spread is not negative. -/
theorem costSpread_nonneg (X : List (Rollout K)) (n : Int) (d t : Nat) (hn : 0 < n) :
    0 ≤ costSpread X n d t := by
  obtain ⟨hb, -, -⟩ := minMaxCost_spec X n d t hn
  obtain ⟨h1, h2⟩ := hb 0 (by omega)
  unfold costSpread
  linarith

/-- The cost spread is 0 when the active rollouts have the same cost. -/
theorem costSpread_of_const (X : List (Rollout K)) (n : Int) (d t : Nat)
    (hall : ∀ r, r < n.toNat → cumCost X r d t = cumCost X 0 d t) :
    costSpread X n d t = 0 := by
  have hmm : minMaxCost X n d t = (cumCost X 0 d t, cumCost X 0 d t) := by
    unfold minMaxCost
    dsimp only
    refine forLoop_preserves (fun mm : K × K => mm = (cumCost X 0 d t, cumCost X 0 d t))
      _ _ _ rfl ?_
    intro i mm hi hmm
    rw [hmm, hall (i + 1) (by omega)]
    simp
  unfold costSpread
  rw [hmm]
  exact sub_self _

omit [LinearOrderedField K] in
/-- A loop that updates the slots `0`, ..., `n-1` of a pool preserves what the update of a
slot preserves. -/
theorem map_forLoop_modifyAt_of_eq {α β : Type} (g : α → β) (F : Nat → α → α)
    (h : ∀ r a, g (F r a) = g a) (n : Nat) (X : List α) :
    (forLoop n (fun r X => modifyAt (F r) r X) X).map g = X.map g := by
  induction n with
  | zero => rfl
  | succ n ih => rw [forLoop_succ, map_modifyAt_of_eq g (F n) (h n), ih]

omit [LinearOrderedField K] in
theorem getD_of_map_eq {α β : Type} [Inhabited α] (g : α → β) (X Y : List α)
    (h : X.map g = Y.map g) (r : Nat) : g (X.getD r default) = g (Y.getD r default) := by
  have h2 : (X.map g).getD r (g default) = (Y.map g).getD r (g default) := by rw [h]
  simp only [List.getD_eq_getElem?_getD, List.getElem?_map] at h2 ⊢
  cases hx : X[r]? <;> cases hy : Y[r]? <;> simp_all

/-- The loop over the dimensions of `computeRolloutCumulativeCosts` leaves the raw noise and
the probabilities of a rollout alone. -/
theorem cumulativeCosts_rollout_frame (flag : Bool) (T D : Nat) (ro : Rollout K) :
    (forLoop D (cumulativeCostsStep flag T) ro).noise_ = ro.noise_ ∧
    (forLoop D (cumulativeCostsStep flag T) ro).probabilities_ = ro.probabilities_ := by
  refine forLoop_preserves (fun x : Rollout K =>
    x.noise_ = ro.noise_ ∧ x.probabilities_ = ro.probabilities_) _ _ _ ⟨rfl, rfl⟩ ?_
  rintro i x - ⟨a, b⟩
  unfold cumulativeCostsStep
  dsimp only
  cases flag with
  | false => exact ⟨a, b⟩
  | true =>
    rw [if_pos rfl, forDown_cumulative]
    exact ⟨a, b⟩

/-- `computeRolloutCumulativeCosts` leaves the raw noise and the probabilities of the pool
alone. -/
theorem computeRolloutCumulativeCosts_frame (s : PolicyImprovement K) (r : Nat) :
    ((computeRolloutCumulativeCosts s).rollouts_.getD r default).noise_
      = (s.rollouts_.getD r default).noise_ ∧
    ((computeRolloutCumulativeCosts s).rollouts_.getD r default).probabilities_
      = (s.rollouts_.getD r default).probabilities_ := by
  rw [computeRolloutCumulativeCosts_eq]
  dsimp only
  have h := getD_of_map_eq (fun ro : Rollout K => (ro.noise_, ro.probabilities_)) _ _
    (map_forLoop_modifyAt_of_eq (fun ro : Rollout K => (ro.noise_, ro.probabilities_))
      (fun _ ro => forLoop s.num_dimensions_
        (cumulativeCostsStep s.use_cumulative_costs_ s.num_time_steps_) ro)
      (fun _ ro => by
        obtain ⟨a, b⟩ := cumulativeCosts_rollout_frame s.use_cumulative_costs_
          s.num_time_steps_ s.num_dimensions_ ro
        exact Prod.ext a b)
      s.num_rollouts_.toNat s.rollouts_) r
  exact ⟨congrArg Prod.fst h, congrArg Prod.snd h⟩

/-- The steps of `improvePolicy` on an engine whose active rollouts have the allocated sizes,
for a dimension with as many parameters as time steps: the stored weights are the cost
spreads of the cumulative costs, the noise is the stored raw noise, and the matrix returned
for the dimension has the reweighted, projected, probability-weighted noise in row 0 and
zeros below. -/
theorem improvePolicy_update (expf : K → K) (s : PolicyImprovement K)
    (hinit : s.initialized_ = true) (hT : 0 < s.num_time_steps_)
    (d : Nat) (hd : d < s.num_dimensions_)
    (hnp : s.num_parameters_.getD d 0 = s.num_time_steps_)
    (hupd : s.num_dimensions_ ≤ s.parameter_updates_.length)
    (hsz : ∀ r, r < s.num_rollouts_.toNat →
      (s.rollouts_.getD r default).Sized s.num_dimensions_ s.num_time_steps_ s.num_parameters_)
    (hw : (s.time_step_weights_.getD d []).length = s.num_time_steps_) :
    improvePolicy expf s
      = some (true,
          computeParameterUpdates
            (computeRolloutProbabilities expf (computeRolloutCumulativeCosts s)),
          (computeParameterUpdates
            (computeRolloutProbabilities expf
              (computeRolloutCumulativeCosts s))).parameter_updates_) ∧
    ProbabilitiesSized (computeRolloutCumulativeCosts s) ∧
    (∀ t, t < s.num_time_steps_ →
      updateWeight (computeParameterUpdates
          (computeRolloutProbabilities expf (computeRolloutCumulativeCosts s))) d t
        = costSpread (computeRolloutCumulativeCosts s).rollouts_ s.num_rollouts_ d t ∧
      updateWeight (computeRolloutProbabilities expf (computeRolloutCumulativeCosts s)) d t
        = costSpread (computeRolloutCumulativeCosts s).rollouts_ s.num_rollouts_ d t) ∧
    (∀ t, weightedNoise
        (computeRolloutProbabilities expf (computeRolloutCumulativeCosts s)) d t
      = ∑ r in Finset.range s.num_rollouts_.toNat, noiseAt s.rollouts_ r d t
          * probAt (computeRolloutProbabilities expf
              (computeRolloutCumulativeCosts s)).rollouts_ r d t) ∧
    (computeParameterUpdates
        (computeRolloutProbabilities expf
          (computeRolloutCumulativeCosts s))).parameter_updates_.getD d []
      = mulVec (s.projection_matrix_.getD d [])
          ((List.range s.num_time_steps_).map (fun t =>
            updateWeight (computeRolloutProbabilities expf
                (computeRolloutCumulativeCosts s)) d t
              * weightedNoise (computeRolloutProbabilities expf
                (computeRolloutCumulativeCosts s)) d t
              / max (max (∑ t in Finset.range s.num_time_steps_,
                        updateWeight (computeRolloutProbabilities expf
                          (computeRolloutCumulativeCosts s)) d t)
                      (1 / 1000000) / (s.num_time_steps_ : K))
                  ((Finset.range s.num_time_steps_).sup'
                    (Finset.nonempty_range_iff.mpr (Nat.pos_iff_ne_zero.mp hT))
                    (fun t => updateWeight (computeRolloutProbabilities expf
                      (computeRolloutCumulativeCosts s)) d t))))
        :: List.replicate (s.num_time_steps_ - 1) (vzero s.num_time_steps_) := by
  obtain ⟨C, hC⟩ : ∃ C, C = computeRolloutCumulativeCosts s := ⟨_, rfl⟩
  have hCfr : ∃ a, C = { s with rollouts_ := a } := by
    rw [hC, computeRolloutCumulativeCosts_eq]
    exact ⟨_, rfl⟩
  obtain ⟨a, hCa⟩ := hCfr
  have c1 : C.num_rollouts_ = s.num_rollouts_ := by rw [hCa]
  have c2 : C.num_dimensions_ = s.num_dimensions_ := by rw [hCa]
  have c3 : C.num_time_steps_ = s.num_time_steps_ := by rw [hCa]
  have c4 : C.time_step_weights_ = s.time_step_weights_ := by rw [hCa]
  have cno : ∀ r, (C.rollouts_.getD r default).noise_ = (s.rollouts_.getD r default).noise_ :=
    fun r => by rw [hC]; exact (computeRolloutCumulativeCosts_frame s r).1
  have cpr : ∀ r, (C.rollouts_.getD r default).probabilities_
      = (s.rollouts_.getD r default).probabilities_ :=
    fun r => by rw [hC]; exact (computeRolloutCumulativeCosts_frame s r).2
  have cszE : ∀ r, r < s.num_rollouts_.toNat → ∀ e, e < s.num_dimensions_ →
      probLen C.rollouts_ r e = s.num_time_steps_ := by
    intro r hr e he
    unfold probLen
    rw [cpr r]
    obtain ⟨-, -, -, -, -, -, -, -, -, -, hvec⟩ := hsz r hr
    exact (hvec e he).2.2.2.2.2.2.2.2
  have csz : ProbabilitiesSized C := by
    intro r hr e he
    rw [c1] at hr
    rw [c2] at he
    rw [c3, cszE r hr e he]
  obtain ⟨U, hU⟩ : ∃ U, U = computeRolloutProbabilities expf C := ⟨_, rfl⟩
  obtain ⟨uf, -⟩ := computeRolloutProbabilities_spec expf C csz
  rw [← hU] at uf
  obtain ⟨⟨b, w, hUb⟩, -, ulen⟩ := uf
  have u1 : U.num_rollouts_ = s.num_rollouts_ := by rw [hUb]; exact c1
  have u2 : U.num_dimensions_ = s.num_dimensions_ := by rw [hUb]; exact c2
  have u3 : U.num_time_steps_ = s.num_time_steps_ := by rw [hUb]; exact c3
  have u4 : U.num_parameters_ = s.num_parameters_ := by rw [hUb, hCa]
  have u5 : U.projection_matrix_ = s.projection_matrix_ := by rw [hUb, hCa]
  have u6 : U.parameter_updates_ = s.parameter_updates_ := by rw [hUb, hCa]
  have uno : ∀ r, (U.rollouts_.getD r default).noise_ = (s.rollouts_.getD r default).noise_ := by
    intro r
    rw [hU, getD_of_map_eq Rollout.noise_ _ _
      (computeRolloutProbabilities_weights expf C csz).2 r]
    exact cno r
  have hwt : ∀ t, t < s.num_time_steps_ →
      updateWeight U d t = costSpread C.rollouts_ s.num_rollouts_ d t := by
    intro t ht
    rw [hU, updateWeight_computeRolloutProbabilities expf C csz d t (by rw [c2]; exact hd)
      (by rw [c3]; exact ht) (by rw [c4, c3]; exact hw), c1]
  have hmat := updatesMatrix_eq U d (by rw [u3]; exact hT) (by rw [u4, u3]; exact hnp)
    (by
      intro r hr
      rw [u1] at hr
      rw [uno r, u3]
      obtain ⟨-, -, -, -, -, -, -, -, -, -, hvec⟩ := hsz r hr
      rw [(hvec d hd).2.2.2.1, hnp])
    (by
      intro r hr
      rw [u1] at hr
      rw [ulen, u3]
      exact cszE r hr d hd)
  have hget := computeParameterUpdates_getD U d (by rw [u2]; exact hd)
    (by rw [u2, u6]; exact hupd)
  have hweights : (computeParameterUpdates U).time_step_weights_ = U.time_step_weights_ := by
    rw [computeParameterUpdates_eq]
  rw [← hC, ← hU]
  refine ⟨?_, csz, ?_, ?_, ?_⟩
  · simp only [improvePolicy, hinit, Bool.true_eq_false, if_false]
    rw [← hC, ← hU]
  · intro t ht
    refine ⟨?_, hwt t ht⟩
    unfold updateWeight
    rw [hweights]
    exact hwt t ht
  · intro t
    unfold weightedNoise
    rw [u1]
    apply Finset.sum_congr rfl
    intro r _
    unfold noiseAt
    rw [uno r]
  · rw [hget, hmat]
    simp only [u3, u5]

end Weights

/-! ## Equal costs give no update -/

section ZeroUpdate

variable {K : Type} [LinearOrderedField K]

omit [LinearOrderedField K] in
theorem getD_eq_zero_of_forall [Zero K] (l : List K) (h : ∀ x ∈ l, x = 0) (p : Nat) :
    l.getD p 0 = 0 := by
  by_cases hp : p < l.length
  · rw [List.getD_eq_getElem _ _ hp]
    exact h _ (List.getElem_mem _)
  · rw [List.getD_eq_default _ _ (by omega)]

/-- A matrix whose rows have zero entries only has zero coefficients only. -/
theorem mcoeff_eq_zero_of_forall (M : Mat K) (h : ∀ row ∈ M, ∀ x ∈ row, x = 0) (i p : Nat) :
    mcoeff M i p = 0 := by
  unfold mcoeff
  apply getD_eq_zero_of_forall
  by_cases hi : i < M.length
  · rw [List.getD_eq_getElem _ _ hi]
    exact h _ (List.getElem_mem _)
  · rw [List.getD_eq_default _ _ (by omega)]
    intro x hx
    cases hx

/-- The inner product with a zero vector is 0. -/
theorem vdot_eq_zero (row v : Vec K) (hv : ∀ x ∈ v, x = 0) : vdot row v = 0 := by
  unfold vdot vmul
  induction row generalizing v with
  | nil => simp
  | cons a row ih =>
    cases v with
    | nil => simp
    | cons b v =>
      rw [List.zipWith_cons_cons, List.sum_cons, ih v (fun x hx => hv x (List.mem_cons_of_mem _ hx)),
        hv b (List.mem_cons_self _ _)]
      simp

end ZeroUpdate

/-- C22: let the cumulative costs `improvePolicy` computes for the dimension `d` be the same
for all active rollouts at every time step (as they are when exactly one rollout is active).
Then every update weight stored for `d` is 0 and every entry of the update returned for `d`
is 0, whatever the noise of the rollouts is. -/
theorem improvePolicy_zero_update (s : PolicyImprovement ℝ)
    (hinit : s.initialized_ = true) (hT : 0 < s.num_time_steps_)
    (d : Nat) (hd : d < s.num_dimensions_)
    (hnp : s.num_parameters_.getD d 0 = s.num_time_steps_)
    (hupd : s.num_dimensions_ ≤ s.parameter_updates_.length)
    (hsz : ∀ r, r < s.num_rollouts_.toNat →
      (s.rollouts_.getD r default).Sized s.num_dimensions_ s.num_time_steps_ s.num_parameters_)
    (hw : (s.time_step_weights_.getD d []).length = s.num_time_steps_)
    (hall : s.num_rollouts_ = 1 ∨
      ∀ t, t < s.num_time_steps_ → ∀ r, r < s.num_rollouts_.toNat →
        cumCost (computeRolloutCumulativeCosts s).rollouts_ r d t
          = cumCost (computeRolloutCumulativeCosts s).rollouts_ 0 d t) :
    ∃ u upd, improvePolicy Real.exp s = some (true, u, upd) ∧
      (∀ t, t < s.num_time_steps_ → updateWeight u d t = 0) ∧
      ∀ i p, mcoeff (upd.getD d []) i p = 0 := by
  obtain ⟨e1, -, e3, -, e5⟩ := improvePolicy_update Real.exp s hinit hT d hd hnp hupd hsz hw
  have hconst : ∀ t, t < s.num_time_steps_ → ∀ r, r < s.num_rollouts_.toNat →
      cumCost (computeRolloutCumulativeCosts s).rollouts_ r d t
        = cumCost (computeRolloutCumulativeCosts s).rollouts_ 0 d t := by
    rcases hall with h | h
    · intro t _ r hr
      rw [h] at hr
      have : r = 0 := by
        have : r < 1 := hr
        omega
      rw [this]
    · exact h
  have hzero : ∀ t, t < s.num_time_steps_ →
      costSpread (computeRolloutCumulativeCosts s).rollouts_ s.num_rollouts_ d t = 0 :=
    fun t ht => costSpread_of_const _ _ d t (hconst t ht)
  refine ⟨_, _, e1, fun t ht => by rw [(e3 t ht).1, hzero t ht], ?_⟩
  rw [e5]
  apply mcoeff_eq_zero_of_forall
  intro row hrow x hx
  rcases List.mem_cons.mp hrow with h | h
  · rw [h] at hx
    unfold mulVec at hx
    obtain ⟨prow, -, rfl⟩ := List.mem_map.mp hx
    apply vdot_eq_zero
    intro y hy
    obtain ⟨t, ht, rfl⟩ := List.mem_map.mp hy
    rw [(e3 t (List.mem_range.mp ht)).2, hzero t (List.mem_range.mp ht), zero_mul, zero_div]
  · rw [(List.mem_replicate.mp h).2] at hx
    exact (List.mem_replicate.mp hx).2

/-- C22 at an engine whose three active rollouts have the same state costs and no control
costs. -/
theorem improvePolicy_zero_update_witness :
    ∃ u upd, improvePolicy Real.exp (uniformEngine : PolicyImprovement ℝ) = some (true, u, upd) ∧
      (∀ t, t < (uniformEngine : PolicyImprovement ℝ).num_time_steps_ →
        updateWeight u 0 t = 0) ∧
      ∀ i p, mcoeff (upd.getD 0 []) i p = 0 :=
  improvePolicy_zero_update uniformEngine rfl (by decide) 0 (by decide) rfl (by decide)
    (by decide) rfl (Or.inr (by
      intro t ht r hr
      have ht2 : t < 2 := ht
      have hr3 : r < 3 := hr
      interval_cases t <;> interval_cases r <;>
        simp [cumCost, computeRolloutCumulativeCosts, forLoop, modifyAt, cumulativeCostsStep,
          uniformEngine, sampleEngine, sampleRollout, vadd]))

/-! ## The size of the update -/

section BoundedUpdate

variable {K : Type} [LinearOrderedField K]

/-- The inner product of two vectors of the same size as a sum over the indices. -/
theorem vdot_eq_sum (a b : Vec K) (h : a.length = b.length) :
    vdot a b = ∑ i in Finset.range a.length, a.getD i 0 * b.getD i 0 := by
  unfold vdot vmul
  induction a generalizing b with
  | nil => simp
  | cons x a ih =>
    cases b with
    | nil => simp at h
    | cons y b =>
      have hl : a.length = b.length := by simpa using h
      rw [List.zipWith_cons_cons, List.sum_cons, ih b hl, List.length_cons,
        Finset.sum_range_succ']
      simp [add_comm]

/-- The entries of the normalised matrix are at most `1/n` in absolute value. -/
theorem abs_mcoeff_normalizeColumns_le (M : Mat K) (n : Nat) (hsq : IsSquare M n)
    (p : Nat) (hp : p < n) (hcol : ∃ i, i < n ∧ mcoeff M i p ≠ 0) (i : Nat) (hi : i < n) :
    |mcoeff (normalizeColumns M n) i p| ≤ 1 / (n : K) := by
  obtain ⟨i0, hi0, hne⟩ := hcol
  have hcm := columnMax_pos M n p i0 hi0 hne
  have hn : (0 : K) < (n : K) := by
    have : 0 < n := by omega
    exact_mod_cast this
  obtain ⟨hle, -⟩ := columnMax_spec M n p (by omega)
  rw [mcoeff_normalizeColumns M n hsq.2 i p (by rw [hsq.1]; exact hi) hp, abs_div,
    abs_of_pos (mul_pos hn hcm)]
  have gen : ∀ a b : K, 0 < a → 0 < b → b / (a * b) = 1 / a := by
    intro a b ha hb
    field_simp
    ring
  rw [← gen _ _ hn hcm, div_le_div_iff_of_pos_right (mul_pos hn hcm)]
  exact hle i hi

/-- A convex combination of numbers of absolute value at most `B` has absolute value at most
`B`. -/
theorem abs_convex_le (n : Nat) (x q : Nat → K) (B : K) (hx : ∀ r, r < n → |x r| ≤ B)
    (hq : ∀ r, r < n → 0 ≤ q r) (hsum : ∑ r in Finset.range n, q r = 1) :
    |∑ r in Finset.range n, x r * q r| ≤ B := by
  calc |∑ r in Finset.range n, x r * q r|
      ≤ ∑ r in Finset.range n, |x r * q r| := Finset.abs_sum_le_sum_abs _ _
    _ ≤ ∑ r in Finset.range n, B * q r := by
        apply Finset.sum_le_sum
        intro r hr
        have hr' := Finset.mem_range.mp hr
        rw [abs_mul, abs_of_nonneg (hq r hr')]
        exact mul_le_mul_of_nonneg_right (hx r hr') (hq r hr')
    _ = B := by rw [← Finset.mul_sum, hsum, mul_one]

/-- A row with entries of absolute value at most `1/n` maps a vector with entries of absolute
value at most `B` to a number of absolute value at most `B`. -/
theorem abs_vdot_le (row v : Vec K) (n : Nat) (hn : 0 < n) (B : K)
    (hrow : row.length = n) (hv : v.length = n)
    (h1 : ∀ p, p < n → |row.getD p 0| ≤ 1 / (n : K)) (h2 : ∀ p, p < n → |v.getD p 0| ≤ B) :
    |vdot row v| ≤ B := by
  have hnpos : (0 : K) < (n : K) := by exact_mod_cast hn
  have hB : 0 ≤ B := le_trans (abs_nonneg _) (h2 0 hn)
  rw [vdot_eq_sum row v (by rw [hrow, hv]), hrow]
  calc |∑ p in Finset.range n, row.getD p 0 * v.getD p 0|
      ≤ ∑ p in Finset.range n, |row.getD p 0 * v.getD p 0| := Finset.abs_sum_le_sum_abs _ _
    _ ≤ ∑ _p in Finset.range n, 1 / (n : K) * B := by
        apply Finset.sum_le_sum
        intro p hp
        have hp' := Finset.mem_range.mp hp
        rw [abs_mul]
        exact mul_le_mul (h1 p hp') (h2 p hp') (abs_nonneg _) (by positivity)
    _ = B := by
        rw [Finset.sum_const, Finset.card_range, nsmul_eq_mul]
        field_simp

/-- The update `improvePolicy` returns for a dimension with as many parameters as time steps
is bounded by every bound of the raw noise of the active rollouts. -/
theorem improvePolicy_bounded (expf : K → K) (hpos : ∀ x, 0 < expf x)
    (s : PolicyImprovement K)
    (hinit : s.initialized_ = true) (hT : 0 < s.num_time_steps_) (hn : 0 < s.num_rollouts_)
    (d : Nat) (hd : d < s.num_dimensions_)
    (hnp : s.num_parameters_.getD d 0 = s.num_time_steps_)
    (hupd : s.num_dimensions_ ≤ s.parameter_updates_.length)
    (hsz : ∀ r, r < s.num_rollouts_.toNat →
      (s.rollouts_.getD r default).Sized s.num_dimensions_ s.num_time_steps_ s.num_parameters_)
    (hw : (s.time_step_weights_.getD d []).length = s.num_time_steps_)
    (hproj : s.projection_matrix_.getD d []
      = normalizeColumns (s.inv_control_costs_.getD d []) (s.num_parameters_.getD d 0))
    (hsq : IsSquare (s.inv_control_costs_.getD d []) (s.num_parameters_.getD d 0))
    (hcol : ∀ p, p < s.num_parameters_.getD d 0 →
      ∃ i, i < s.num_parameters_.getD d 0 ∧ mcoeff (s.inv_control_costs_.getD d []) i p ≠ 0)
    (B : K)
    (hB : ∀ r, r < s.num_rollouts_.toNat → ∀ t, t < s.num_time_steps_ →
      |noiseAt s.rollouts_ r d t| ≤ B) :
    ∃ u upd, improvePolicy expf s = some (true, u, upd) ∧
      ∀ i p, |mcoeff (upd.getD d []) i p| ≤ B := by
  obtain ⟨e1, csz, e3, e4, e5⟩ := improvePolicy_update expf s hinit hT d hd hnp hupd hsz hw
  have hB0 : 0 ≤ B := le_trans (abs_nonneg _) (hB 0 (by omega) 0 hT)
  have c1 : (computeRolloutCumulativeCosts s).num_rollouts_ = s.num_rollouts_ := by
    rw [computeRolloutCumulativeCosts_eq]
  have c2 : (computeRolloutCumulativeCosts s).num_dimensions_ = s.num_dimensions_ := by
    rw [computeRolloutCumulativeCosts_eq]
  have c3 : (computeRolloutCumulativeCosts s).num_time_steps_ = s.num_time_steps_ := by
    rw [computeRolloutCumulativeCosts_eq]
  obtain ⟨U, hU⟩ : ∃ U, U = computeRolloutProbabilities expf
    (computeRolloutCumulativeCosts s) := ⟨_, rfl⟩
  rw [← hU] at e1 e3 e4 e5
  have hTpos : (0 : K) < (s.num_time_steps_ : K) := by exact_mod_cast hT
  -- the probability-weighted noise is bounded
  have hwn : ∀ t, t < s.num_time_steps_ → |weightedNoise U d t| ≤ B := by
    intro t ht
    obtain ⟨p1, p2⟩ := probabilities_sum_one expf hpos (computeRolloutCumulativeCosts s)
      (by rw [c1]; exact hn) csz d t (by rw [c2]; exact hd) (by rw [c3]; exact ht)
    rw [c1, ← hU] at p1 p2
    rw [e4 t]
    exact abs_convex_le _ (fun r => noiseAt s.rollouts_ r d t)
      (fun r => probAt U.rollouts_ r d t) B (fun r hr => hB r hr t ht) p1 p2
  have hw0 : ∀ t, t < s.num_time_steps_ → 0 ≤ updateWeight U d t := by
    intro t ht
    rw [(e3 t ht).2]
    exact costSpread_nonneg _ _ d t hn
  obtain ⟨Dv, hDv⟩ : ∃ Dv, Dv = max (max (∑ t in Finset.range s.num_time_steps_,
      updateWeight U d t) (1 / 1000000) / (s.num_time_steps_ : K))
      ((Finset.range s.num_time_steps_).sup'
        (Finset.nonempty_range_iff.mpr (Nat.pos_iff_ne_zero.mp hT))
        (fun t => updateWeight U d t)) := ⟨_, rfl⟩
  rw [← hDv] at e5
  have hDpos : 0 < Dv := by
    rw [hDv]
    exact lt_of_lt_of_le (div_pos (lt_of_lt_of_le (by norm_num) (le_max_right _ _)) hTpos)
      (le_max_left _ _)
  have hwle : ∀ t, t < s.num_time_steps_ → updateWeight U d t ≤ Dv := by
    intro t ht
    rw [hDv]
    exact le_trans (Finset.le_sup' (fun t => updateWeight U d t) (Finset.mem_range.mpr ht))
      (le_max_right _ _)
  have hf : ∀ t, t < s.num_time_steps_ →
      |updateWeight U d t * weightedNoise U d t / Dv| ≤ B := by
    intro t ht
    rw [abs_div, abs_mul, abs_of_nonneg (hw0 t ht), abs_of_pos hDpos, div_le_iff₀ hDpos,
      mul_comm B Dv]
    exact mul_le_mul (hwle t ht) (hwn t ht) (abs_nonneg _) hDpos.le
  -- the projection matrix
  have hPsq := isSquare_normalizeColumns _ _ hsq
  rw [← hproj, hnp] at hPsq
  have hPent : ∀ i, i < s.num_time_steps_ → ∀ q, q < s.num_time_steps_ →
      |((s.projection_matrix_.getD d []).getD i []).getD q 0|
        ≤ 1 / (s.num_time_steps_ : K) := by
    intro i hi q hq
    have := abs_mcoeff_normalizeColumns_le _ _ hsq q (by rw [hnp]; exact hq)
      (hcol q (by rw [hnp]; exact hq)) i (by rw [hnp]; exact hi)
    rw [← hproj, hnp] at this
    exact this
  refine ⟨_, _, e1, ?_⟩
  intro i p
  rw [e5]
  cases i with
  | zero =>
    show |(mulVec (s.projection_matrix_.getD d []) _).getD p 0| ≤ B
    unfold mulVec
    by_cases hp : p < (s.projection_matrix_.getD d []).length
    · rw [List.getD_eq_getElem?_getD, List.getElem?_map, List.getElem?_eq_getElem hp]
      simp only [Option.map_some', Option.getD_some]
      have hpT : p < s.num_time_steps_ := by rw [← hPsq.1]; exact hp
      have hrow : (s.projection_matrix_.getD d [])[p]
          = (s.projection_matrix_.getD d []).getD p [] := by
        rw [List.getD_eq_getElem _ _ hp]
      rw [hrow]
      apply abs_vdot_le _ _ s.num_time_steps_ hT B
      · rw [← hrow]
        exact hPsq.2 _ (List.getElem_mem _)
      · simp
      · exact hPent p hpT
      · intro q hq
        rw [getD_map_range _ _ _ hq]
        exact hf q hq
    · rw [List.getD_eq_default _ _ (by rw [List.length_map]; omega), abs_zero]
      exact hB0
  | succ i =>
    have hz : mcoeff (List.replicate (s.num_time_steps_ - 1) (vzero s.num_time_steps_ : Vec K))
        i p = 0 := by
      apply mcoeff_eq_zero_of_forall
      intro row hrow x hx
      rw [(List.mem_replicate.mp hrow).2] at hx
      exact (List.mem_replicate.mp hx).2
    have hstep : ∀ (a : Vec K) (M : Mat K), mcoeff (a :: M) (i + 1) p = mcoeff M i p := by
      intro a M
      simp [mcoeff]
    rw [hstep, hz, abs_zero]
    exact hB0

end BoundedUpdate

/-- C21 (as amended): bounded update step in exact arithmetic (the real numbers with the
exponential function). For a dimension `d` with as many parameters as time steps
(`N >= 1`), at least one active rollout and a projection matrix computed from an inverse
control cost matrix without an all-zero column, every entry of the update `improvePolicy`
returns for `d` has an absolute value of at most the largest absolute value of the raw noise
`noise_r[d][t]` over the active rollouts `r` and the indices `t`. -/
theorem improvePolicy_update_bounded (s : PolicyImprovement ℝ)
    (hinit : s.initialized_ = true) (hT : 0 < s.num_time_steps_)
    (hn : 0 < s.num_rollouts_.toNat)
    (d : Nat) (hd : d < s.num_dimensions_)
    (hnp : s.num_parameters_.getD d 0 = s.num_time_steps_)
    (hupd : s.num_dimensions_ ≤ s.parameter_updates_.length)
    (hsz : ∀ r, r < s.num_rollouts_.toNat →
      (s.rollouts_.getD r default).Sized s.num_dimensions_ s.num_time_steps_ s.num_parameters_)
    (hw : (s.time_step_weights_.getD d []).length = s.num_time_steps_)
    (hproj : s.projection_matrix_.getD d []
      = normalizeColumns (s.inv_control_costs_.getD d []) (s.num_parameters_.getD d 0))
    (hsq : IsSquare (s.inv_control_costs_.getD d []) (s.num_parameters_.getD d 0))
    (hcol : ∀ p, p < s.num_parameters_.getD d 0 →
      ∃ i, i < s.num_parameters_.getD d 0 ∧ mcoeff (s.inv_control_costs_.getD d []) i p ≠ 0) :
    ∃ u upd, improvePolicy Real.exp s = some (true, u, upd) ∧
      ∀ i p, |mcoeff (upd.getD d []) i p|
        ≤ (Finset.range s.num_rollouts_.toNat).sup'
            (Finset.nonempty_range_iff.mpr (Nat.pos_iff_ne_zero.mp hn))
            (fun r => (Finset.range s.num_time_steps_).sup'
              (Finset.nonempty_range_iff.mpr (Nat.pos_iff_ne_zero.mp hT))
              (fun t => |noiseAt s.rollouts_ r d t|)) := by
  apply improvePolicy_bounded Real.exp Real.exp_pos s hinit hT (by omega) d hd hnp hupd hsz hw
    hproj hsq hcol
  intro r hr t ht
  exact le_trans
    (Finset.le_sup' (fun t => |noiseAt s.rollouts_ r d t|) (Finset.mem_range.mpr ht))
    (Finset.le_sup' (fun r => (Finset.range s.num_time_steps_).sup'
        (Finset.nonempty_range_iff.mpr (Nat.pos_iff_ne_zero.mp hT))
        (fun t => |noiseAt s.rollouts_ r d t|)) (Finset.mem_range.mpr hr))

/-- C21 (as amended) at the sample engine, dimension 0. -/
theorem improvePolicy_update_bounded_witness :
    ∃ u upd, improvePolicy Real.exp (sampleEngine : PolicyImprovement ℝ) = some (true, u, upd) ∧
      ∀ i p, |mcoeff (upd.getD 0 []) i p|
        ≤ (Finset.range (sampleEngine : PolicyImprovement ℝ).num_rollouts_.toNat).sup'
            (Finset.nonempty_range_iff.mpr (Nat.pos_iff_ne_zero.mp (by decide)))
            (fun r => (Finset.range (sampleEngine : PolicyImprovement ℝ).num_time_steps_).sup'
              (Finset.nonempty_range_iff.mpr (Nat.pos_iff_ne_zero.mp (by decide)))
              (fun t => |noiseAt (sampleEngine : PolicyImprovement ℝ).rollouts_ r 0 t|)) :=
  improvePolicy_update_bounded sampleEngine rfl (by decide) (by decide) 0 (by decide) rfl
    (by decide) (by decide) rfl
    (by
      simp [normalizeColumns, columnMax, forLoop, modifyAt, mcoeff, sampleEngine]
      norm_num)
    (by decide)
    (by
      intro p hp
      have hp2 : p < 2 := hp
      interval_cases p
      · exact ⟨0, by decide, by simp [mcoeff, sampleEngine]⟩
      · exact ⟨1, by decide, by simp [mcoeff, sampleEngine]⟩)

/-! ## The minimum-jerk interpolation of `fillInMinJerk` -/

section MinJerk

variable {K : Type} [LinearOrderedField K]

/-- The array of powers that `fillInMinJerk` computes. -/
theorem timePowers_eq (x : K) :
    timePowers x = [1, x, x * x, x * x * x, x * x * x * x, x * x * x * x * x] := rfl

/-- The spline coefficients of joint `j`. -/
theorem getD_minJerkCoefficients (traj : StompTrajectory K) (a b : Int) (T : List K) (j : Nat)
    (hj : j < traj.num_joints_) :
    (minJerkCoefficients traj a b T).getD j []
      = [mcoeff traj.trajectory_ a.toNat j, 0, 0,
          (-20 * mcoeff traj.trajectory_ a.toNat j + 20 * mcoeff traj.trajectory_ b.toNat j)
            / (2 * T.getD 3 0),
          (30 * mcoeff traj.trajectory_ a.toNat j - 30 * mcoeff traj.trajectory_ b.toNat j)
            / (2 * T.getD 4 0),
          (-12 * mcoeff traj.trajectory_ a.toNat j + 12 * mcoeff traj.trajectory_ b.toNat j)
            / (2 * T.getD 5 0)] := by
  unfold minJerkCoefficients
  rw [forLoop_set_eq_map _ _ _ (List.length_replicate _ _), getD_map_range _ _ _ hj]

/-- The loop of `fillInMinJerk` over the joints and the powers only assigns to the row of the
trajectory point `i`, and there one spline value per joint. -/
theorem fillInPoint_eq (traj : StompTrajectory K) (coeff : List (List K)) (start_index : K)
    (i : Int) (M : Mat K) :
    fillInPoint traj coeff start_index i M
      = modifyAt (fun row => forLoop traj.num_joints_ (fun j row =>
          row.set j (splineValue
            (timePowers (((i : K) - start_index) * traj.discretization_)) (coeff.getD j [])))
          row) i.toNat M := by
  have hbody : (fun (j : Nat) (M : Mat K) =>
        forLoop 6 (fun k M =>
            modifyAt (fun row =>
              modifyAt (fun x => x
                + (timePowers (((i : K) - start_index) * traj.discretization_)).getD k 0
                  * (coeff.getD j []).getD k 0) j row) i.toNat M)
          (modifyAt (fun row => row.set j 0) i.toNat M))
      = fun j M => modifyAt (fun row => row.set j (splineValue
          (timePowers (((i : K) - start_index) * traj.discretization_)) (coeff.getD j [])))
          i.toNat M := by
    funext j M
    rw [forLoop_modifyAt, modifyAt_modifyAt]
    congr 1
    funext row
    rw [forLoop_modifyAt, modifyAt_set]
    rfl
  show forLoop traj.num_joints_ _ M = _
  rw [hbody, forLoop_modifyAt]

/-- The elements after a loop that updates slot `base + r` in iteration `r`. -/
theorem getElem?_forLoop_modifyAt_offset {α : Type} (n base : Nat) (g : Nat → α → α)
    (X : List α) (j : Nat) :
    (forLoop n (fun r X => modifyAt (g r) (base + r) X) X)[j]?
      = if base ≤ j ∧ j < base + n then (X[j]?).map (g (j - base)) else X[j]? := by
  induction n with
  | zero =>
    have : ¬ (base ≤ j ∧ j < base + 0) := by omega
    rw [forLoop_zero, if_neg this]
  | succ n ih =>
    rw [forLoop_succ, getElem?_modifyAt, ih]
    by_cases h1 : base + n = j
    · have h2 : base ≤ j ∧ j < base + (n + 1) := by omega
      have h3 : ¬ (base ≤ j ∧ j < base + n) := by omega
      have h4 : j - base = n := by omega
      rw [if_pos h1, if_pos h2, if_neg h3, h4]
    · rw [if_neg h1]
      by_cases h2 : base ≤ j ∧ j < base + n
      · rw [if_pos h2, if_pos (by omega)]
      · rw [if_neg h2, if_neg (by omega)]

/-- The rows of the trajectory after `fillInMinJerk`: those of the points from `start_index_`
to `end_index_` are recomputed, all others are kept. -/
theorem fillInMinJerk_row (traj : StompTrajectory K) (h0 : 0 ≤ traj.start_index_) (r : Nat) :
    (fillInMinJerk traj).trajectory_[r]?
      = if traj.start_index_.toNat ≤ r
          ∧ r < traj.start_index_.toNat + (traj.end_index_ + 1 - traj.start_index_).toNat
        then (traj.trajectory_[r]?).map (fun row =>
          forLoop traj.num_joints_ (fun j row =>
            row.set j (splineValue
              (timePowers ((((r : Int) : K) - ((traj.start_index_ - 1 : Int) : K))
                * traj.discretization_))
              ((minJerkCoefficients traj (traj.start_index_ - 1) (traj.end_index_ + 1)
                (timePowers ((((traj.end_index_ + 1 : Int) : K)
                  - ((traj.start_index_ - 1 : Int) : K)) * traj.discretization_))).getD j [])))
            row)
        else traj.trajectory_[r]? := by
  have hbody : ∀ coeff : List (List K),
      (fun (n : Nat) (M : Mat K) => fillInPoint traj coeff ((traj.start_index_ - 1 : Int) : K)
        (traj.start_index_ + (n : Int)) M)
      = fun n M => modifyAt (fun row => forLoop traj.num_joints_ (fun j row =>
          row.set j (splineValue
            (timePowers (((((traj.start_index_.toNat + n : Nat) : Int) : K)
              - ((traj.start_index_ - 1 : Int) : K)) * traj.discretization_))
            (coeff.getD j []))) row) (traj.start_index_.toNat + n) M := by
    intro coeff
    funext n M
    have e1 : (traj.start_index_ + (n : Int)).toNat = traj.start_index_.toNat + n := by omega
    have e2 : ((traj.start_index_.toNat + n : Nat) : Int) = traj.start_index_ + (n : Int) := by
      omega
    rw [fillInPoint_eq, e1, e2]
  show (forLoop _ _ traj.trajectory_)[r]? = _
  rw [hbody]
  refine (getElem?_forLoop_modifyAt_offset _ _ _ _ _).trans ?_
  by_cases h : traj.start_index_.toNat ≤ r
      ∧ r < traj.start_index_.toNat + (traj.end_index_ + 1 - traj.start_index_).toNat
  · rw [if_pos h, if_pos h]
    have e : traj.start_index_.toNat + (r - traj.start_index_.toNat) = r := by omega
    rw [e]
  · rw [if_neg h, if_neg h]

/-- The minimum-jerk polynomial in the form the code evaluates it and in the normalised
time. -/
theorem splineValue_min_jerk (x0 x1 h a b : K) (hh : h ≠ 0) (hb : b ≠ 0) :
    splineValue (timePowers (a * h))
        [x0, 0, 0, (-20 * x0 + 20 * x1) / (2 * (timePowers (b * h)).getD 3 0),
          (30 * x0 - 30 * x1) / (2 * (timePowers (b * h)).getD 4 0),
          (-12 * x0 + 12 * x1) / (2 * (timePowers (b * h)).getD 5 0)]
      = x0 + (x1 - x0) * (10 * (a / b) ^ 3 - 15 * (a / b) ^ 4 + 6 * (a / b) ^ 5) := by
  rw [timePowers_eq, timePowers_eq]
  simp only [splineValue, forLoop, List.getD_cons_zero, List.getD_cons_succ]
  field_simp
  ring

/-- C24: for a trajectory (a matrix of `num_points_` rows and `num_joints_` columns) with
non-zero discretization and `1 ≤ start_index_ ≤ end_index_ ≤ num_points_ - 2`,
`fillInMinJerk` leaves the boundary points `start_index_ - 1` and `end_index_ + 1` unchanged
and sets the value of every joint `j` at every point `i` with
`start_index_ ≤ i ≤ end_index_` to `x0 + (x1 - x0) * (10 τ^3 - 15 τ^4 + 6 τ^5)`, where
`τ = (i - start_index_ + 1) / (end_index_ - start_index_ + 2)` and `x0`, `x1` are the values
of joint `j` at the two boundary points; the discretization does not occur in the result. -/
theorem fillInMinJerk_min_jerk (traj : StompTrajectory K)
    (hdisc : traj.discretization_ ≠ 0)
    (hstart : 1 ≤ traj.start_index_) (hfree : traj.start_index_ ≤ traj.end_index_)
    (hend : traj.end_index_ ≤ traj.num_points_ - 2)
    (hrows : traj.trajectory_.length = traj.num_points_.toNat)
    (hcols : ∀ row, row ∈ traj.trajectory_ → row.length = traj.num_joints_) :
    (fillInMinJerk traj).trajectory_.getD (traj.start_index_ - 1).toNat []
        = traj.trajectory_.getD (traj.start_index_ - 1).toNat [] ∧
      (fillInMinJerk traj).trajectory_.getD (traj.end_index_ + 1).toNat []
        = traj.trajectory_.getD (traj.end_index_ + 1).toNat [] ∧
      ∀ (i : Int) (j : Nat), traj.start_index_ ≤ i → i ≤ traj.end_index_ →
        j < traj.num_joints_ →
        mcoeff (fillInMinJerk traj).trajectory_ i.toNat j
          = mcoeff traj.trajectory_ (traj.start_index_ - 1).toNat j
            + (mcoeff traj.trajectory_ (traj.end_index_ + 1).toNat j
                - mcoeff traj.trajectory_ (traj.start_index_ - 1).toNat j)
              * (10 * (((i - traj.start_index_ + 1 : Int) : K)
                    / ((traj.end_index_ - traj.start_index_ + 2 : Int) : K)) ^ 3
                - 15 * (((i - traj.start_index_ + 1 : Int) : K)
                    / ((traj.end_index_ - traj.start_index_ + 2 : Int) : K)) ^ 4
                + 6 * (((i - traj.start_index_ + 1 : Int) : K)
                    / ((traj.end_index_ - traj.start_index_ + 2 : Int) : K)) ^ 5) := by
  have h0 : 0 ≤ traj.start_index_ := by omega
  refine ⟨?_, ?_, ?_⟩
  · rw [List.getD_eq_getElem?_getD, List.getD_eq_getElem?_getD, fillInMinJerk_row traj h0,
      if_neg (by omega)]
  · rw [List.getD_eq_getElem?_getD, List.getD_eq_getElem?_getD, fillInMinJerk_row traj h0,
      if_neg (by omega)]
  · intro i j hi1 hi2 hj
    have hlt : i.toNat < traj.trajectory_.length := by omega
    have hrow : (traj.trajectory_.getD i.toNat []).length = traj.num_joints_ := by
      rw [List.getD_eq_getElem _ _ hlt]
      exact hcols _ (List.getElem_mem _)
    have hcast : ((i.toNat : Nat) : Int) = i := by omega
    have hb : ((traj.end_index_ - traj.start_index_ + 2 : Int) : K) ≠ 0 := by
      have : (traj.end_index_ - traj.start_index_ + 2 : Int) ≠ 0 := by omega
      exact_mod_cast this
    unfold mcoeff
    rw [List.getD_eq_getElem?_getD (fillInMinJerk traj).trajectory_, fillInMinJerk_row traj h0,
      if_pos (by omega), List.getElem?_eq_getElem hlt, Option.map_some', Option.getD_some,
      forLoop_set_eq_map _ _ _ (by rw [← hrow, List.getD_eq_getElem _ _ hlt]),
      getD_map_range _ _ _ hj, getD_minJerkCoefficients _ _ _ _ _ hj, hcast]
    have ea : ((i : K) - ((traj.start_index_ - 1 : Int) : K))
        = ((i - traj.start_index_ + 1 : Int) : K) := by push_cast; ring
    have eb : (((traj.end_index_ + 1 : Int) : K) - ((traj.start_index_ - 1 : Int) : K))
        = ((traj.end_index_ - traj.start_index_ + 2 : Int) : K) := by push_cast; ring
    rw [ea, eb]
    exact splineValue_min_jerk _ _ _ _ _ hdisc hb

/-- C24 at a trajectory of one joint and six points with the free points 2 and 3: the joint
moves from 0 at point 1 to 1 at point 4. -/
theorem fillInMinJerk_min_jerk_witness :
    (fillInMinJerk (sampleTrajectory : StompTrajectory ℚ)).trajectory_.getD ((2 : Int) - 1).toNat []
        = (sampleTrajectory : StompTrajectory ℚ).trajectory_.getD ((2 : Int) - 1).toNat [] ∧
      (fillInMinJerk (sampleTrajectory : StompTrajectory ℚ)).trajectory_.getD
          ((3 : Int) + 1).toNat []
        = (sampleTrajectory : StompTrajectory ℚ).trajectory_.getD ((3 : Int) + 1).toNat [] ∧
      ∀ (i : Int) (j : Nat), (2 : Int) ≤ i → i ≤ 3 → j < 1 →
        mcoeff (fillInMinJerk (sampleTrajectory : StompTrajectory ℚ)).trajectory_ i.toNat j
          = mcoeff (sampleTrajectory : StompTrajectory ℚ).trajectory_ ((2 : Int) - 1).toNat j
            + (mcoeff (sampleTrajectory : StompTrajectory ℚ).trajectory_ ((3 : Int) + 1).toNat j
                - mcoeff (sampleTrajectory : StompTrajectory ℚ).trajectory_
                    ((2 : Int) - 1).toNat j)
              * (10 * (((i - 2 + 1 : Int) : ℚ) / (((3 : Int) - 2 + 2 : Int) : ℚ)) ^ 3
                - 15 * (((i - 2 + 1 : Int) : ℚ) / (((3 : Int) - 2 + 2 : Int) : ℚ)) ^ 4
                + 6 * (((i - 2 + 1 : Int) : ℚ) / (((3 : Int) - 2 + 2 : Int) : ℚ)) ^ 5) :=
  fillInMinJerk_min_jerk sampleTrajectory (by norm_num [sampleTrajectory]) (by decide)
    (by decide) (by decide) (by decide) (by decide)

end MinJerk

/-! ## The trajectory of a planning group -/

section GroupTrajectory

variable {K : Type} [LinearOrderedField K]

omit [LinearOrderedField K] in
/-- A loop that only assigns to the matrix of a trajectory is a loop on this matrix. -/
theorem forLoop_trajectory (n : Nat) (F : Nat → Mat K → Mat K) (t : StompTrajectory K) :
    forLoop n (fun j (t : StompTrajectory K) => { t with trajectory_ := F j t.trajectory_ }) t
      = { t with trajectory_ := forLoop n F t.trajectory_ } := by
  induction n with
  | zero => rfl
  | succ n ih => rw [forLoop_succ, ih]; rfl

omit [LinearOrderedField K] in
/-- A loop that assigns, for each point `i`, the entry `i` of `full_trajectory_index_` and
then entries of the matrix keeps the indices of the trajectory and fills the table. -/
theorem forLoop_group_points (c : Nat → Int) (n : Nat)
    (body : Nat → StompTrajectory K → StompTrajectory K) (init : StompTrajectory K)
    (hbody : ∀ i t, ∃ F : Nat → Mat K → Mat K, body i t
      = forLoop t.num_joints_
          (fun j (t : StompTrajectory K) => { t with trajectory_ := F j t.trajectory_ })
          { t with full_trajectory_index_ := t.full_trajectory_index_.set i (c i) })
    (hlen : init.full_trajectory_index_.length = n) :
    (forLoop n body init).num_points_ = init.num_points_ ∧
      (forLoop n body init).start_index_ = init.start_index_ ∧
      (forLoop n body init).end_index_ = init.end_index_ ∧
      (forLoop n body init).full_trajectory_index_ = (List.range n).map c := by
  have key : ∀ m, (forLoop m body init).num_points_ = init.num_points_ ∧
      (forLoop m body init).start_index_ = init.start_index_ ∧
      (forLoop m body init).end_index_ = init.end_index_ ∧
      (forLoop m body init).full_trajectory_index_
        = forLoop m (fun i l => l.set i (c i)) init.full_trajectory_index_ := by
    intro m
    induction m with
    | zero => exact ⟨rfl, rfl, rfl, rfl⟩
    | succ m ih =>
      obtain ⟨i1, i2, i3, i4⟩ := ih
      obtain ⟨F, hF⟩ := hbody m (forLoop m body init)
      rw [forLoop_succ, forLoop_succ, hF, forLoop_trajectory, ← i4]
      exact ⟨i1, i2, i3, rfl⟩
  obtain ⟨i1, i2, i3, i4⟩ := key n
  exact ⟨i1, i2, i3, i4.trans (forLoop_set_eq_map _ _ _ hlen)⟩

/-- The indices and the index table that the constructor of a group trajectory stores: the
table maps the point `i` to the point `i - start_extra` of the source, clipped to the points
of the source. -/
theorem groupTrajectory_fields (source_traj : StompTrajectory K)
    (planning_group : StompPlanningGroup) (diff_rule_length : Int) :
    (groupTrajectory source_traj planning_group diff_rule_length).num_points_
        = source_traj.num_points_ + ((diff_rule_length - 1) - source_traj.start_index_)
          + ((diff_rule_length - 1) - ((source_traj.num_points_ - 1) - source_traj.end_index_)) ∧
      (groupTrajectory source_traj planning_group diff_rule_length).start_index_
        = diff_rule_length - 1 ∧
      (groupTrajectory source_traj planning_group diff_rule_length).end_index_
        = ((source_traj.num_points_ + ((diff_rule_length - 1) - source_traj.start_index_)
          + ((diff_rule_length - 1) - ((source_traj.num_points_ - 1) - source_traj.end_index_)))
            - 1) - (diff_rule_length - 1) ∧
      (groupTrajectory source_traj planning_group diff_rule_length).full_trajectory_index_
        = (List.range (source_traj.num_points_
            + ((diff_rule_length - 1) - source_traj.start_index_)
            + ((diff_rule_length - 1)
              - ((source_traj.num_points_ - 1) - source_traj.end_index_))).toNat).map
          (fun (i : Nat) =>
            if (if (i : Int) - ((diff_rule_length - 1) - source_traj.start_index_) < 0 then 0
                else (i : Int) - ((diff_rule_length - 1) - source_traj.start_index_))
                ≥ source_traj.num_points_
            then source_traj.num_points_ - 1
            else (if (i : Int) - ((diff_rule_length - 1) - source_traj.start_index_) < 0 then 0
                else (i : Int) - ((diff_rule_length - 1) - source_traj.start_index_))) := by
  unfold groupTrajectory
  exact forLoop_group_points _ _ _ _ (fun i t => ⟨fun j M =>
    modifyAt (fun row => row.set j (mcoeff source_traj.trajectory_
      (if (if (i : Int) - ((diff_rule_length - 1) - source_traj.start_index_) < 0 then 0
          else (i : Int) - ((diff_rule_length - 1) - source_traj.start_index_))
          ≥ source_traj.num_points_
        then source_traj.num_points_ - 1
        else (if (i : Int) - ((diff_rule_length - 1) - source_traj.start_index_) < 0 then 0
          else (i : Int) - ((diff_rule_length - 1) - source_traj.start_index_))).toNat
      (planning_group.kdl_joint_index_.getD j 0))) i M, rfl⟩) (length_resizeList _ _ _)

/-- C25: for a source trajectory with `0 ≤ start_index_ ≤ end_index_ ≤ num_points_ - 1` and
`diff_rule_length ≥ 1`, the constructor of the group trajectory yields the start index
`diff_rule_length - 1` and as many free points as the source has (`end_index_ - start_index_`
is the one of the source); its table `full_trajectory_index_` has one entry per point, every
entry is a point of the source (between `0` and the source's `num_points_ - 1`), and the entry
of the `k`-th free point is `start_index_ + k` of the source, for
`0 ≤ k ≤ end_index_ - start_index_`. -/
theorem groupTrajectory_indices (source_traj : StompTrajectory K)
    (planning_group : StompPlanningGroup) (diff_rule_length : Int)
    (hstart : 0 ≤ source_traj.start_index_)
    (hfree : source_traj.start_index_ ≤ source_traj.end_index_)
    (hend : source_traj.end_index_ ≤ source_traj.num_points_ - 1)
    (hlen : 1 ≤ diff_rule_length) :
    (groupTrajectory source_traj planning_group diff_rule_length).start_index_
        = diff_rule_length - 1 ∧
      (groupTrajectory source_traj planning_group diff_rule_length).end_index_
          - (groupTrajectory source_traj planning_group diff_rule_length).start_index_
        = source_traj.end_index_ - source_traj.start_index_ ∧
      (groupTrajectory source_traj planning_group diff_rule_length).full_trajectory_index_.length
        = (groupTrajectory source_traj planning_group diff_rule_length).num_points_.toNat ∧
      (∀ x, x ∈ (groupTrajectory source_traj planning_group
          diff_rule_length).full_trajectory_index_ →
        0 ≤ x ∧ x ≤ source_traj.num_points_ - 1) ∧
      ∀ k : Int, 0 ≤ k → k ≤ source_traj.end_index_ - source_traj.start_index_ →
        (groupTrajectory source_traj planning_group diff_rule_length).full_trajectory_index_[
            ((groupTrajectory source_traj planning_group diff_rule_length).start_index_
              + k).toNat]?
          = some (source_traj.start_index_ + k) := by
  obtain ⟨hnp, hs, he, hidx⟩ := groupTrajectory_fields source_traj planning_group diff_rule_length
  refine ⟨hs, by rw [he, hs]; ring, ?_, ?_, ?_⟩
  · rw [hidx, hnp, List.length_map, List.length_range]
  · intro x hx
    rw [hidx, List.mem_map] at hx
    obtain ⟨i, -, rfl⟩ := hx
    split_ifs <;> omega
  · intro k hk0 hk1
    rw [hidx, hs, List.getElem?_map, List.getElem?_range (by omega), Option.map_some']
    have e : (((diff_rule_length - 1 + k).toNat : Nat) : Int) = diff_rule_length - 1 + k := by
      omega
    rw [e]
    congr 1
    split_ifs <;> omega

/-- C25 at the trajectory of six points with the free points 2 and 3 and the differentiation
rule of length 3: the group trajectory has the same six points. -/
theorem groupTrajectory_indices_witness :
    (groupTrajectory (sampleTrajectory : StompTrajectory ℚ) sampleGroup 3).start_index_
        = 3 - 1 ∧
      (groupTrajectory (sampleTrajectory : StompTrajectory ℚ) sampleGroup 3).end_index_
          - (groupTrajectory (sampleTrajectory : StompTrajectory ℚ) sampleGroup 3).start_index_
        = 3 - 2 ∧
      (groupTrajectory (sampleTrajectory : StompTrajectory ℚ)
          sampleGroup 3).full_trajectory_index_.length
        = (groupTrajectory (sampleTrajectory : StompTrajectory ℚ) sampleGroup 3).num_points_.toNat ∧
      (∀ x, x ∈ (groupTrajectory (sampleTrajectory : StompTrajectory ℚ)
          sampleGroup 3).full_trajectory_index_ →
        0 ≤ x ∧ x ≤ 6 - 1) ∧
      ∀ k : Int, 0 ≤ k → k ≤ 3 - 2 →
        (groupTrajectory (sampleTrajectory : StompTrajectory ℚ)
            sampleGroup 3).full_trajectory_index_[
            ((groupTrajectory (sampleTrajectory : StompTrajectory ℚ) sampleGroup 3).start_index_
              + k).toNat]?
          = some (2 + k) :=
  groupTrajectory_indices sampleTrajectory sampleGroup 3 (by decide) (by decide) (by decide)
    (by decide)

end GroupTrajectory

/-! ## Double arithmetic -/

section Rounding

variable {K : Type} [LinearOrderedField K]

/-- Without rounding, the sum of the products from left to right is the inner product. -/
theorem rounded_vdot_id (a b : Vec K) : rounded.vdot id a b = vdot a b := by
  unfold rounded.vdot vdot
  show (vmul a b).foldl (fun acc x => acc + x) 0 = (vmul a b).sum
  rw [List.sum_eq_foldl]

/-- Without rounding, `improvePolicy` in double arithmetic is `improvePolicy` in exact
arithmetic. -/
theorem rounded_improvePolicy_id (expf : K → K) (s : PolicyImprovement K) :
    rounded.improvePolicy id expf s = improvePolicy expf s := by
  have hmul : ∀ (M : Mat K) (v : Vec K), rounded.mulVec id M v = mulVec M v := by
    intro M v
    unfold rounded.mulVec mulVec
    congr 1
    funext row
    exact rounded_vdot_id row v
  have hupd : ∀ (d : Nat) (s : PolicyImprovement K),
      rounded.updatesMatrix id d s = updatesMatrix d s := by
    intro d s
    unfold rounded.updatesMatrix updatesMatrix
    simp only [hmul]
    rfl
  have hcomp : ∀ s : PolicyImprovement K,
      rounded.computeParameterUpdates id s = computeParameterUpdates s := by
    intro s
    unfold rounded.computeParameterUpdates computeParameterUpdates parameterUpdatesStep
    simp only [hupd]
  unfold rounded.improvePolicy improvePolicy
  simp only [hcomp]
  rfl

/-- Without rounding, `preComputeProjectionMatrices` in double arithmetic is
`preComputeProjectionMatrices` in exact arithmetic. -/
theorem rounded_preComputeProjectionMatrices_id (inverse : Mat K → Mat K)
    (s : PolicyImprovement K) :
    rounded.preComputeProjectionMatrices id inverse s = preComputeProjectionMatrices inverse s :=
  rfl

/-- The engine `unitEngine` is the state after `initialize`, `generateRollouts` and
`setRolloutCosts` (all values of these calls are the integers 0, 1 and 3). -/
theorem unitEngine_reachable :
    ∃ s1 s2,
      initializeEngine exactInverse (newEngine : PolicyImprovement ℚ) 1 2 2 2 unitPolicy false
        = some (true, s1) ∧
      generateRollouts s1 unitPolicy [1] (fun _ _ => [3]) = some (true, s2) ∧
      setRolloutCosts s2 unitPolicy [[0], [1]] 0 [] = some (true, unitEngine, [0, 1]) :=
  ⟨_, _, by with_unfolding_all rfl, by with_unfolding_all rfl, by with_unfolding_all rfl⟩

set_option maxRecDepth 100000 in
/-- C16 fails as stated: in double arithmetic, for the inverse control cost matrix `11 * I`
of a dimension with 3 parameters (a square matrix without an all-zero column),
`preComputeProjectionMatrices` computes
`1.0/(3*11.0) = 0.030303030303030304` and stores the entry
`11.0 * 0.030303030303030304 = 0.33333333333333337` in the diagonal of the projection matrix:
this entry is not `11 / (3 * 11)`, the largest absolute value of column 0 is not `1/3`, and
the entry is larger than `1/3`. -/
theorem preComputeProjectionMatrices_normalised_counterexample :
    IsSquare ((elevenEngine : PolicyImprovement ℚ).inv_control_costs_.getD 0 []) 3 ∧
    mcoeff ((elevenEngine : PolicyImprovement ℚ).inv_control_costs_.getD 0 []) 0 0 ≠ 0 ∧
    mcoeff ((elevenEngine : PolicyImprovement ℚ).inv_control_costs_.getD 0 []) 1 1 ≠ 0 ∧
    mcoeff ((elevenEngine : PolicyImprovement ℚ).inv_control_costs_.getD 0 []) 2 2 ≠ 0 ∧
    binary64 (1 / binary64 (binary64 (3 : Nat) * 11)) = 1091781727847393 / 36028797018963968 ∧
    mcoeff ((rounded.preComputeProjectionMatrices binary64 exactInverse
        (elevenEngine : PolicyImprovement ℚ)).2.projection_matrix_.getD 0 []) 0 0
      = 3002399751580331 / 9007199254740992 ∧
    mcoeff ((rounded.preComputeProjectionMatrices binary64 exactInverse
        (elevenEngine : PolicyImprovement ℚ)).2.projection_matrix_.getD 0 []) 0 0
      ≠ mcoeff ((elevenEngine : PolicyImprovement ℚ).inv_control_costs_.getD 0 []) 0 0
        / (3 * columnMax ((elevenEngine : PolicyImprovement ℚ).inv_control_costs_.getD 0 []) 3 0) ∧
    columnMax ((rounded.preComputeProjectionMatrices binary64 exactInverse
        (elevenEngine : PolicyImprovement ℚ)).2.projection_matrix_.getD 0 []) 3 0 ≠ 1 / 3 ∧
    ¬ |mcoeff ((rounded.preComputeProjectionMatrices binary64 exactInverse
        (elevenEngine : PolicyImprovement ℚ)).2.projection_matrix_.getD 0 []) 0 0| ≤ 1 / 3 := by
  have hP : (rounded.preComputeProjectionMatrices binary64 exactInverse
        (elevenEngine : PolicyImprovement ℚ)).2.projection_matrix_.getD 0 []
      = [[3002399751580331 / 9007199254740992, 0, 0],
         [0, 3002399751580331 / 9007199254740992, 0],
         [0, 0, 3002399751580331 / 9007199254740992]] := by
    with_unfolding_all rfl
  have hI : (elevenEngine : PolicyImprovement ℚ).inv_control_costs_.getD 0 []
      = [[11, 0, 0], [0, 11, 0], [0, 0, 11]] := rfl
  have habs : |(3002399751580331 / 9007199254740992 : ℚ)|
      = 3002399751580331 / 9007199254740992 := abs_of_pos (by norm_num)
  rw [hP, hI]
  refine ⟨by decide, ?_, ?_, ?_, by with_unfolding_all rfl, rfl, ?_, ?_, ?_⟩
  · norm_num [mcoeff]
  · norm_num [mcoeff]
  · norm_num [mcoeff]
  · norm_num [mcoeff, columnMax, forLoop]
  · norm_num [mcoeff, columnMax, forLoop, habs]
  · norm_num [mcoeff, habs]

set_option maxRecDepth 100000 in
/-- C21 fails as stated: in double arithmetic, for the engine with one dimension, one time
step, one parameter, the projection matrix `[[1.0]]` and two active rollouts with the raw
noise `3.0` and the costs `0.0` and `1.0`, `improvePolicy` computes the probabilities
`0.9999546021312976` and `4.5397868702434395e-05` and returns the update
`3.0 * 0.9999546021312976 + 3.0 * 4.5397868702434395e-05 = 3.0000000000000004`, which is
larger than the largest absolute value 3 of the raw noise. -/
theorem improvePolicy_update_bounded_counterexample :
    expNearest 0 = 1 ∧ expNearest (-10) = 6699847082343579 / 147573952589676412928 ∧
    (unitEngine : PolicyImprovement ℚ).projection_matrix_.getD 0 []
      = rounded.normalizeColumns binary64
          ((unitEngine : PolicyImprovement ℚ).inv_control_costs_.getD 0 []) 1 ∧
    noiseAt (unitEngine : PolicyImprovement ℚ).rollouts_ 0 0 0 = 3 ∧
    noiseAt (unitEngine : PolicyImprovement ℚ).rollouts_ 1 0 0 = 3 ∧
    ∃ u upd, rounded.improvePolicy binary64 expNearest (unitEngine : PolicyImprovement ℚ)
        = some (true, u, upd) ∧
      probAt u.rollouts_ 0 0 0 = 9006790347091849 / 9007199254740992 ∧
      probAt u.rollouts_ 1 0 0 = 209360716361419 / 4611686018427387904 ∧
      mcoeff (upd.getD 0 []) 0 0 = 6755399441055745 / 2251799813685248 ∧
      ¬ |mcoeff (upd.getD 0 []) 0 0| ≤ 3 := by
  refine ⟨by with_unfolding_all rfl, by with_unfolding_all rfl, by with_unfolding_all rfl,
    rfl, rfl, _, _, rfl, by with_unfolding_all rfl, by with_unfolding_all rfl, ?_, ?_⟩
  · with_unfolding_all rfl
  · have h : mcoeff (((rounded.computeParameterUpdates binary64
        (rounded.computeRolloutProbabilities binary64 expNearest
          (rounded.computeRolloutCumulativeCosts binary64
            (unitEngine : PolicyImprovement ℚ)))).parameter_updates_).getD 0 []) 0 0
        = 6755399441055745 / 2251799813685248 := by
      with_unfolding_all rfl
    rw [h, abs_of_pos (by norm_num)]
    norm_num

end Rounding

end stomp
